import Mathlib

/-!
# CustomOptional: a verification development for `Optional<T>` (src/optional.h)

`Optional<T>` owns an inline buffer `data_` for one `T`, a view pointer `value_`
and the flag `is_initialized_`.  The embedding keeps the three members as they are
in the source and runs every member function as a state transformer over a world
of containers indexed by their address.  The operations of the value type `T`
(constructors, assignments) are a parameter of the development; every call the
container makes to one of them is appended to a trace.

A `T` passed to a member function (`const T& value`, `T&& rhs`, the arguments of
`Emplace`) is a value owned by the caller: it is not the object in the buffer of a
container of the world.

`Reachable` collects the worlds that finite sequences of in-contract calls produce;
`runAt` replays the calls made to `T` on the liveness of one buffer.
-/

namespace CustomOptional

/-! ## Data model -/

/-- Addresses of `Optional<T>` objects.  The address of the buffer `&data_[0]` of
the container at address `a` is represented by `a` itself. -/
abbrev Addr := Nat

/-- Exceptions that can leave a member function: `BadOptionalAccess` (optional.h:8-17)
or an exception `e` thrown by an operation of the value type `T`. -/
inductive Exn (E : Type) where
  | BadOptionalAccess : Exn E
  | thrown (e : E) : Exn E
  deriving DecidableEq, Repr

/-- How a call ends: it returns `r`, it throws, an exception tries to leave a
`noexcept` function (`std::terminate`), or the call has undefined behaviour
(a null or dangling `value_` is dereferenced, a member of a missing object is used). -/
inductive Outcome (E R : Type) where
  | ret (r : R) : Outcome E R
  | raise (x : Exn E) : Outcome E R
  | terminate : Outcome E R
  | undefined : Outcome E R
  deriving DecidableEq, Repr

/-- A call the container makes to an operation of `T`, with the address of the
storage that the operation works on (for an assignment: the assigned-to object).
`tempMoveConstruct` and `tempDestroy` are the construction and the destruction of the
temporary of `std::swap`, which lives in no container's buffer. -/
inductive Event where
  | construct (a : Addr) : Event
  | copyConstruct (a : Addr) : Event
  | moveConstruct (a : Addr) : Event
  | copyAssign (a : Addr) : Event
  | moveAssign (a : Addr) : Event
  | destroy (a : Addr) : Event
  | tempMoveConstruct : Event
  | tempDestroy : Event
  deriving DecidableEq, Repr

/-- The private members of `Optional<T>` (optional.h:241-245).
`data_` is `some v` while the buffer holds a live `T` of value `v` and `none` while
it is inert; `value_` is `none` for `nullptr`. -/
structure Optional (T : Type) where
  data_ : Option T
  value_ : Option Addr
  is_initialized_ : Bool
  deriving DecidableEq, Repr

/-- The members after their default initialisers: uninitialised buffer,
`value_ = nullptr`, `is_initialized_ = false` (optional.h:243-245). -/
def Optional.fresh {T : Type} : Optional T :=
  { data_ := none, value_ := none, is_initialized_ := false }

/-- The operations of the value type `T` that the container calls.
`A` is the type of constructor argument lists, `E` the type of exceptions of `T`.
* `ctor args`: the result of `T(args...)`;
* `copyCtor s`: the result of `T(const T&)` on a source of value `s`;
* `moveCtor s`: the result of `T(T&&)` and the value left in the source;
* `copyAssign d s`: the assigned-to value after `d = s` and the exception, if any;
* `moveAssign d s`: the assigned-to value and the source after `d = std::move(s)`,
  and the exception, if any. -/
structure TypeOps (T A E : Type) where
  ctor : A → Except E T
  copyCtor : T → Except E T
  moveCtor : T → Except E T × T
  copyAssign : T → T → T × Option E
  moveAssign : T → T → (T × T) × Option E

/-- Copying from a source of value `s` completes and gives the target the value `s`
(the `CopyConstructible` and `CopyAssignable` requirements, without a throw). -/
def TypeOps.CopyOK {T A E : Type} (ops : TypeOps T A E) (s : T) : Prop :=
  ops.copyCtor s = .ok s ∧ ∀ d, ops.copyAssign d s = (s, none)

/-- Moving from a source of value `s` completes and gives the target the value `s`
(the `MoveConstructible` and `MoveAssignable` requirements, without a throw); the value
left in the source is unconstrained. -/
def TypeOps.MoveOK {T A E : Type} (ops : TypeOps T A E) (s : T) : Prop :=
  (ops.moveCtor s).1 = .ok s ∧
    ∀ d, (ops.moveAssign d s).1.1 = s ∧ (ops.moveAssign d s).2 = none

/-- The containers that exist, by address, and the calls made to `T` so far. -/
structure World (T : Type) where
  objs : Addr → Option (Optional T)
  trace : List Event

/-- The world with no container and no call. -/
def World.empty {T : Type} : World T :=
  { objs := fun _ => none, trace := [] }

/-- Replace the entry at address `a`. -/
def World.put {T : Type} (w : World T) (a : Addr) (o : Option (Optional T)) : World T :=
  { w with objs := fun b => if b = a then o else w.objs b }

/-- The live `T` that a reference to the buffer of the container at `r` denotes. -/
def World.get {T : Type} (w : World T) (r : Addr) : Option T :=
  match w.objs r with
  | some o => o.data_
  | none => none

/-- A member function call: a transformer of the world with an outcome. -/
def Op (T E R : Type) : Type := World T → World T × Outcome E R

/-- Sequencing: the continuation runs only after a normal return. -/
def Op.bind {T E R S : Type} (m : Op T E R) (f : R → Op T E S) : Op T E S := fun w =>
  match m w with
  | (w1, .ret r) => f r w1
  | (w1, .raise x) => (w1, .raise x)
  | (w1, .terminate) => (w1, .terminate)
  | (w1, .undefined) => (w1, .undefined)

/-- Normal return. -/
def Op.pure {T E R : Type} (r : R) : Op T E R := fun w => (w, .ret r)

instance {T E : Type} : Monad (Op T E) where
  pure := Op.pure
  bind := Op.bind

/-- The statement `throw x`. -/
def Op.raise {T E R : Type} (x : Exn E) : Op T E R := fun w => (w, .raise x)

/-- Undefined behaviour. -/
def Op.undefined {T E R : Type} : Op T E R := fun w => (w, .undefined)

/-- A function declared `noexcept`: an exception that would leave it ends the program. -/
def Op.noexcept {T E R : Type} (m : Op T E R) : Op T E R := fun w =>
  match m w with
  | (w1, .raise _) => (w1, .terminate)
  | res => res

/-- Append calls to the trace. -/
def World.logs {T : Type} (w : World T) (es : List Event) : World T :=
  { w with trace := w.trace ++ es }

/-- Record a call to an operation of `T`. -/
def Op.log {T E : Type} (e : Event) : Op T E Unit := fun w =>
  (w.logs [e], .ret ())

/-- Read the members of the container at `this`. -/
def Op.self {T E : Type} (this : Addr) : Op T E (Optional T) := fun w =>
  match w.objs this with
  | some o => (w, .ret o)
  | none => (w, .undefined)

/-- Update the members of the container at `this`. -/
def Op.modify {T E : Type} (this : Addr) (f : Optional T → Optional T) : Op T E Unit := fun w =>
  match w.objs this with
  | some o => (w.put this (some (f o)), .ret ())
  | none => (w, .undefined)

/-- The lvalue `*p` of a `T*`: the address of a buffer that holds a live `T`, with its value.
Undefined for `nullptr` and for a buffer without a live `T`. -/
def Op.deref {T E : Type} (p : Option Addr) : Op T E (Addr × T) := fun w =>
  match p with
  | none => (w, .undefined)
  | some a =>
    match w.get a with
    | some v => (w, .ret (a, v))
    | none => (w, .undefined)

/-- Write the content of the buffer `data_` of the container at `a`. -/
def Op.poke {T E : Type} (a : Addr) (c : Option T) : Op T E Unit :=
  Op.modify a (fun o => { o with data_ := c })

/-! ## Operations of `T` applied to container storage -/

/-- `new (&data_[0]) T(std::forward<Args>(args)...)`: returns the pointer to the buffer. -/
def placementNew {T A E : Type} (ops : TypeOps T A E) (this : Addr) (args : A) :
    Op T E Addr := do
  Op.log (.construct this)
  match ops.ctor args with
  | .ok v => do
    Op.poke this (some v)
    return this
  | .error e => Op.raise (.thrown e)

/-- `new (&data_[0]) T(value)` for `const T& value`. -/
def placementNewCopy {T A E : Type} (ops : TypeOps T A E) (this : Addr) (value : T) :
    Op T E Addr := do
  Op.log (.copyConstruct this)
  match ops.copyCtor value with
  | .ok v => do
    Op.poke this (some v)
    return this
  | .error e => Op.raise (.thrown e)

/-- `new (&data_[0]) T(std::move(value))` for a `T&& value` owned by the caller
(the state left in the caller's object is not part of the world). -/
def placementNewMove {T A E : Type} (ops : TypeOps T A E) (this : Addr) (value : T) :
    Op T E Addr := do
  Op.log (.moveConstruct this)
  match (ops.moveCtor value).1 with
  | .ok v => do
    Op.poke this (some v)
    return this
  | .error e => Op.raise (.thrown e)

/-- `new (&data_[0]) T(std::move(x))` where `x` is the live `T` in the buffer at `src`:
the source buffer keeps the moved-from value. -/
def placementNewMoveFrom {T A E : Type} (ops : TypeOps T A E) (this : Addr) (src : Addr × T) :
    Op T E Addr := do
  Op.log (.moveConstruct this)
  Op.poke src.1 (some (ops.moveCtor src.2).2)
  match (ops.moveCtor src.2).1 with
  | .ok v => do
    Op.poke this (some v)
    return this
  | .error e => Op.raise (.thrown e)

/-- `*p = value` for `const T& value`. -/
def assignCopy {T A E : Type} (ops : TypeOps T A E) (p : Option Addr) (value : T) :
    Op T E Unit := do
  let dst ← Op.deref p
  Op.log (.copyAssign dst.1)
  Op.poke dst.1 (some (ops.copyAssign dst.2 value).1)
  match (ops.copyAssign dst.2 value).2 with
  | none => return ()
  | some e => Op.raise (.thrown e)

/-- `*p = std::move(value)` for a `T&& value` owned by the caller. -/
def assignMove {T A E : Type} (ops : TypeOps T A E) (p : Option Addr) (value : T) :
    Op T E Unit := do
  let dst ← Op.deref p
  Op.log (.moveAssign dst.1)
  Op.poke dst.1 (some (ops.moveAssign dst.2 value).1.1)
  match (ops.moveAssign dst.2 value).2 with
  | none => return ()
  | some e => Op.raise (.thrown e)

/-- `*p = std::move(x)` where `x` is the live `T` in the buffer at `src`:
the source buffer keeps the moved-from value. -/
def assignMoveFrom {T A E : Type} (ops : TypeOps T A E) (p : Option Addr) (src : Addr × T) :
    Op T E Unit := do
  let dst ← Op.deref p
  Op.log (.moveAssign dst.1)
  Op.poke src.1 (some (ops.moveAssign dst.2 src.2).1.2)
  Op.poke dst.1 (some (ops.moveAssign dst.2 src.2).1.1)
  match (ops.moveAssign dst.2 src.2).2 with
  | none => return ()
  | some e => Op.raise (.thrown e)

/-- `p->~T()`: ends the lifetime of the `T` that `p` points to. -/
def destroy {T E : Type} (p : Option Addr) : Op T E Unit := do
  let tgt ← Op.deref p
  Op.log (.destroy tgt.1)
  Op.poke tgt.1 none

/-! ## Member functions of `Optional<T>` -/

/-- `bool HasValue() const` (optional.h:230-233). -/
def HasValue {T E : Type} (this : Addr) : Op T E Bool := do
  let o ← Op.self this
  return o.is_initialized_

/-- `T& Value() &` (optional.h:186-192): the returned reference is the address of the
buffer that `value_` points to. -/
def Value {T E : Type} (this : Addr) : Op T E Addr := do
  let o ← Op.self this
  if !o.is_initialized_ then
    Op.raise .BadOptionalAccess
  else do
    let r ← Op.deref o.value_
    return r.1

/-- `const T& Value() const&` (optional.h:194-200). -/
def Value_const {T E : Type} (this : Addr) : Op T E Addr := do
  let o ← Op.self this
  if !o.is_initialized_ then
    Op.raise .BadOptionalAccess
  else do
    let r ← Op.deref o.value_
    return r.1

/-- `T&& Value() &&` (optional.h:202-208): `std::move` only casts the reference. -/
def Value_rvalue {T E : Type} (this : Addr) : Op T E Addr := do
  let o ← Op.self this
  if !o.is_initialized_ then
    Op.raise .BadOptionalAccess
  else do
    let r ← Op.deref o.value_
    return r.1

/-- `void Reset()` (optional.h:221-228). -/
def Reset {T E : Type} (this : Addr) : Op T E Unit := do
  let o ← Op.self this
  if o.is_initialized_ then do
    destroy o.value_
    Op.modify this (fun o => { o with is_initialized_ := false })
  else
    return ()

/-- A constructor of `Optional<T>` running at address `this`: the default member
initialisers, then the body.  When the body throws, the object does not come into
existence. -/
def Op.newObject {T E : Type} (this : Addr) (body : Op T E Unit) : Op T E Unit := fun w =>
  match body (w.put this (some Optional.fresh)) with
  | (w1, .raise x) => (w1.put this none, .raise x)
  | res => res

/-- `Optional() = default` (optional.h:23). -/
def Optional_default {T E : Type} (this : Addr) : Op T E Unit :=
  Op.newObject this (return ())

/-- `Optional(const T& value)` (optional.h:25-36). -/
def Optional_const_T {T A E : Type} (ops : TypeOps T A E) (this : Addr) (value : T) :
    Op T E Unit :=
  Op.newObject this do
    let o ← Op.self this
    if o.is_initialized_ then
      assignCopy ops o.value_ value
    else do
      let p ← placementNewCopy ops this value
      Op.modify this (fun o => { o with value_ := some p })
      Op.modify this (fun o => { o with is_initialized_ := true })

/-- `Optional(T&& value) noexcept` (optional.h:38-49). -/
def Optional_rvalue_T {T A E : Type} (ops : TypeOps T A E) (this : Addr) (value : T) :
    Op T E Unit :=
  Op.noexcept <| Op.newObject this do
    let o ← Op.self this
    if o.is_initialized_ then
      assignMove ops o.value_ value
    else do
      let p ← placementNewMove ops this value
      Op.modify this (fun o => { o with value_ := some p })
      Op.modify this (fun o => { o with is_initialized_ := true })

/-- `Optional(const Optional& other)` (optional.h:51-66). -/
def Optional_const_Optional {T A E : Type} (ops : TypeOps T A E) (this other : Addr) :
    Op T E Unit :=
  Op.newObject this do
    let o ← Op.self this
    let r ← Op.self other
    if r.is_initialized_ && o.is_initialized_ then do
      let src ← Op.deref (some (← Value_const other))
      assignCopy ops o.value_ src.2
    else if r.is_initialized_ && !o.is_initialized_ then do
      let src ← Op.deref (some (← Value_const other))
      let p ← placementNewCopy ops this src.2
      Op.modify this (fun o => { o with value_ := some p })
      Op.modify this (fun o => { o with is_initialized_ := true })
    else if !r.is_initialized_ && o.is_initialized_ then
      Reset this
    else
      return ()

/-- `Optional(Optional&& other) noexcept` (optional.h:68-79). -/
def Optional_rvalue_Optional {T A E : Type} (ops : TypeOps T A E) (this other : Addr) :
    Op T E Unit :=
  Op.noexcept <| Op.newObject this do
    let o ← Op.self this
    let r ← Op.self other
    if r.is_initialized_ && o.is_initialized_ then do
      let src ← Op.deref (some (← Value other))
      assignMoveFrom ops o.value_ src
    else if r.is_initialized_ && !o.is_initialized_ then do
      let src ← Op.deref (some (← Value other))
      let p ← placementNewMoveFrom ops this src
      Op.modify this (fun o => { o with value_ := some p })
      Op.modify this (fun o => { o with is_initialized_ := true })
    else
      return ()

/-- `Optional& operator=(const T& value)` (optional.h:86-99). -/
def operator_assign_const_T {T A E : Type} (ops : TypeOps T A E) (this : Addr) (value : T) :
    Op T E Unit := do
  let o ← Op.self this
  if o.is_initialized_ then
    assignCopy ops o.value_ value
  else do
    let p ← placementNewCopy ops this value
    Op.modify this (fun o => { o with value_ := some p })
    Op.modify this (fun o => { o with is_initialized_ := true })

/-- `Optional& operator=(T&& rhs)` (optional.h:101-113). -/
def operator_assign_rvalue_T {T A E : Type} (ops : TypeOps T A E) (this : Addr) (rhs : T) :
    Op T E Unit := do
  let o ← Op.self this
  if o.is_initialized_ then
    assignMove ops o.value_ rhs
  else do
    let p ← placementNewMove ops this rhs
    Op.modify this (fun o => { o with value_ := some p })
    Op.modify this (fun o => { o with is_initialized_ := true })

/-- `Optional& operator=(const Optional& rhs)` (optional.h:115-136). -/
def operator_assign_const_Optional {T A E : Type} (ops : TypeOps T A E) (this rhs : Addr) :
    Op T E Unit := do
  if this = rhs then
    return ()
  else do
    let o ← Op.self this
    let r ← Op.self rhs
    if r.is_initialized_ && o.is_initialized_ then do
      let src ← Op.deref (some (← Value_const rhs))
      assignCopy ops o.value_ src.2
    else if r.is_initialized_ && !o.is_initialized_ then do
      let src ← Op.deref (some (← Value_const rhs))
      let p ← placementNewCopy ops this src.2
      Op.modify this (fun o => { o with value_ := some p })
      Op.modify this (fun o => { o with is_initialized_ := true })
    else if !r.is_initialized_ && o.is_initialized_ then
      Reset this
    else
      return ()

/-- `Optional& operator=(Optional&& rhs) noexcept` (optional.h:138-158). -/
def operator_assign_rvalue_Optional {T A E : Type} (ops : TypeOps T A E) (this rhs : Addr) :
    Op T E Unit :=
  Op.noexcept do
    if this = rhs then
      return ()
    else do
      let o ← Op.self this
      let r ← Op.self rhs
      if r.is_initialized_ && o.is_initialized_ then do
        let src ← Op.deref (some (← Value rhs))
        assignMoveFrom ops o.value_ src
      else if r.is_initialized_ && !o.is_initialized_ then do
        let src ← Op.deref (some (← Value rhs))
        let p ← placementNewMoveFrom ops this src
        Op.modify this (fun o => { o with value_ := some p })
        Op.modify this (fun o => { o with is_initialized_ := true })
      else if !r.is_initialized_ && o.is_initialized_ then
        Reset this
      else
        return ()

/-- `template <class... Args> T& Emplace(Args&&... args)` (optional.h:210-219). -/
def Emplace {T A E : Type} (ops : TypeOps T A E) (this : Addr) (args : A) : Op T E Addr := do
  if (← HasValue this) then
    Reset this
  let p ← placementNew ops this args
  Op.modify this (fun o => { o with value_ := some p })
  Op.modify this (fun o => { o with is_initialized_ := true })
  let o ← Op.self this
  let r ← Op.deref o.value_
  return r.1

/-- `T* operator->()` (optional.h:160-163): returns the pointer `value_`, without a check. -/
def operator_arrow {T E : Type} (this : Addr) : Op T E (Option Addr) := do
  let o ← Op.self this
  return o.value_

/-- `const T* operator->() const` (optional.h:165-168). -/
def operator_arrow_const {T E : Type} (this : Addr) : Op T E (Option Addr) := do
  let o ← Op.self this
  return o.value_

/-- `T& operator*() &` (optional.h:170-173): `*value_`, without a presence check. -/
def operator_star {T E : Type} (this : Addr) : Op T E Addr := do
  let o ← Op.self this
  let r ← Op.deref o.value_
  return r.1

/-- `const T& operator*() const&` (optional.h:175-178). -/
def operator_star_const {T E : Type} (this : Addr) : Op T E Addr := do
  let o ← Op.self this
  let r ← Op.deref o.value_
  return r.1

/-- `T&& operator*() &&` (optional.h:180-183): `std::move` only casts the reference. -/
def operator_star_rvalue {T E : Type} (this : Addr) : Op T E Addr := do
  let o ← Op.self this
  let r ← Op.deref o.value_
  return r.1

/-- A block with a local `T`: the destructor of the local runs when the block is left,
by its end or by an exception. -/
def Op.scopeExit {T E R : Type} (m : Op T E R) (e : Event) : Op T E R := fun w =>
  match m w with
  | (w1, .ret r) => (w1.logs [e], .ret r)
  | (w1, .raise x) => (w1.logs [e], .raise x)
  | res => res

/-- The primary template `std::swap(x, y)` on the two `T` in the buffers at `x` and `y`:
`T tmp(std::move(x)); x = std::move(y); y = std::move(tmp);`. -/
def stdSwap {T A E : Type} (ops : TypeOps T A E) (x y : Addr) : Op T E Unit := do
  let a ← Op.deref (some x)
  Op.log .tempMoveConstruct
  Op.poke x (some (ops.moveCtor a.2).2)
  match (ops.moveCtor a.2).1 with
  | .error e => Op.raise (.thrown e)
  | .ok tmp =>
    Op.scopeExit (do
      let b ← Op.deref (some y)
      assignMoveFrom ops (some x) b
      assignMove ops (some y) tmp) .tempDestroy

/-- `void Swap(Optional& other)` (optional.h:235-239): `std::swap(*value_, *other.value_)`,
then `std::swap(is_initialized_, other.is_initialized_)`. -/
def Swap {T A E : Type} (ops : TypeOps T A E) (this other : Addr) : Op T E Unit := do
  let o ← Op.self this
  let r ← Op.self other
  let x ← Op.deref o.value_
  let y ← Op.deref r.value_
  stdSwap ops x.1 y.1
  let o1 ← Op.self this
  let r1 ← Op.self other
  Op.modify this (fun o => { o with is_initialized_ := r1.is_initialized_ })
  Op.modify other (fun r => { r with is_initialized_ := o1.is_initialized_ })

/-- `~Optional()` (optional.h:81-84): `Reset()`, after which the object is gone. -/
def Optional_destructor {T E : Type} (this : Addr) : Op T E Unit := do
  Reset this
  fun w => (w.put this none, .ret ())

/-! ## The class invariant -/

/-- The occupancy invariant of the container at address `this`: the flag is set exactly
when the buffer holds a live `T`, and then `value_` points at the container's own buffer. -/
def Optional.Inv {T : Type} (o : Optional T) (this : Addr) : Prop :=
  (o.is_initialized_ = true ↔ o.data_.isSome = true) ∧
    (o.is_initialized_ = true → o.value_ = some this)

instance {T : Type} (o : Optional T) (this : Addr) : Decidable (o.Inv this) := by
  unfold Optional.Inv
  infer_instance

/-- Every container of the world satisfies the class invariant at its own address. -/
def World.WF {T : Type} (w : World T) : Prop :=
  ∀ a o, w.objs a = some o → o.Inv a

/-! ## Reading the trace -/

/-- Is the event a constructor call of `T` into the buffer of the container at `a`? -/
def Event.constructs (a : Addr) : Event → Bool
  | .construct b => b == a
  | .copyConstruct b => b == a
  | .moveConstruct b => b == a
  | _ => false

/-- Is the event a destructor call of `T` on the buffer of the container at `a`? -/
def Event.destroys (a : Addr) : Event → Bool
  | .destroy b => b == a
  | _ => false

/-- Number of constructor calls of `T` into the buffer at `a`. -/
def ctorCalls (a : Addr) (tr : List Event) : Nat := tr.countP (Event.constructs a)

/-- Number of destructor calls of `T` on the buffer at `a`. -/
def dtorCalls (a : Addr) (tr : List Event) : Nat := tr.countP (Event.destroys a)

/-- Does the buffer of the container at `a` hold a live `T`? -/
def World.live {T : Type} (w : World T) (a : Addr) : Bool := (w.get a).isSome

/-- Does a container exist at `a` with `is_initialized_` set? -/
def World.occupied {T : Type} (w : World T) (a : Addr) : Bool :=
  match w.objs a with
  | some o => o.is_initialized_
  | none => false

/-- The effect of one call to `T` on the liveness of the buffer at `a`, `none` when the call
is not allowed in that state: a constructor needs a buffer without a live `T` and makes it
live; an assignment needs a live `T`; the destructor needs a live `T` and ends its
lifetime.  Calls on other storage leave the buffer at `a` alone. -/
def Event.stepAt (a : Addr) (live : Bool) : Event → Option Bool
  | .construct b => if b = a then (if live then none else some true) else some live
  | .copyConstruct b => if b = a then (if live then none else some true) else some live
  | .moveConstruct b => if b = a then (if live then none else some true) else some live
  | .copyAssign b => if b = a then (if live then some true else none) else some live
  | .moveAssign b => if b = a then (if live then some true else none) else some live
  | .destroy b => if b = a then (if live then some false else none) else some live
  | .tempMoveConstruct => some live
  | .tempDestroy => some live

/-- Replay a list of calls on the liveness of the buffer at `a`; `none` as soon as a call
is not allowed. -/
def runAt (a : Addr) : Bool → List Event → Option Bool
  | live, [] => some live
  | live, e :: es =>
    match e.stepAt a live with
    | some l => runAt a l es
    | none => none

/-- No constructor of `T` throws. -/
def TypeOps.CtorsComplete {T A E : Type} (ops : TypeOps T A E) : Prop :=
  (∀ args, ∃ v, ops.ctor args = .ok v) ∧ (∀ s, ∃ v, ops.copyCtor s = .ok v) ∧
    (∀ s, ∃ v, (ops.moveCtor s).1 = .ok v)

/-! ## Sequences of calls -/

/-- A call of a constructor, the destructor or a member function of `Optional<T>`. -/
inductive Call (T A : Type) where
  | defaultCtor (this : Addr) : Call T A
  | fromValue (this : Addr) (value : T) : Call T A
  | fromRvalue (this : Addr) (value : T) : Call T A
  | copyFrom (this other : Addr) : Call T A
  | moveFrom (this other : Addr) : Call T A
  | destructor (this : Addr) : Call T A
  | assignValue (this : Addr) (value : T) : Call T A
  | assignRvalue (this : Addr) (rhs : T) : Call T A
  | assignFrom (this rhs : Addr) : Call T A
  | moveAssignFrom (this rhs : Addr) : Call T A
  | arrow (this : Addr) : Call T A
  | arrowConst (this : Addr) : Call T A
  | star (this : Addr) : Call T A
  | starConst (this : Addr) : Call T A
  | starRvalue (this : Addr) : Call T A
  | value (this : Addr) : Call T A
  | valueConst (this : Addr) : Call T A
  | valueRvalue (this : Addr) : Call T A
  | emplace (this : Addr) (args : A) : Call T A
  | reset (this : Addr) : Call T A
  | hasValue (this : Addr) : Call T A
  | swap (this other : Addr) : Call T A

/-- The world after the call, however the call ends. -/
def Call.exec {T A E : Type} (ops : TypeOps T A E) : Call T A → World T → World T
  | .defaultCtor this, w => (Optional_default this w : World T × Outcome E Unit).1
  | .fromValue this v, w => (Optional_const_T ops this v w).1
  | .fromRvalue this v, w => (Optional_rvalue_T ops this v w).1
  | .copyFrom this other, w => (Optional_const_Optional ops this other w).1
  | .moveFrom this other, w => (Optional_rvalue_Optional ops this other w).1
  | .destructor this, w => (Optional_destructor this w : World T × Outcome E Unit).1
  | .assignValue this v, w => (operator_assign_const_T ops this v w).1
  | .assignRvalue this rhs, w => (operator_assign_rvalue_T ops this rhs w).1
  | .assignFrom this rhs, w => (operator_assign_const_Optional ops this rhs w).1
  | .moveAssignFrom this rhs, w => (operator_assign_rvalue_Optional ops this rhs w).1
  | .arrow this, w => (operator_arrow this w : World T × Outcome E (Option Addr)).1
  | .arrowConst this, w => (operator_arrow_const this w : World T × Outcome E (Option Addr)).1
  | .star this, w => (operator_star this w : World T × Outcome E Addr).1
  | .starConst this, w => (operator_star_const this w : World T × Outcome E Addr).1
  | .starRvalue this, w => (operator_star_rvalue this w : World T × Outcome E Addr).1
  | .value this, w => (Value this w : World T × Outcome E Addr).1
  | .valueConst this, w => (Value_const this w : World T × Outcome E Addr).1
  | .valueRvalue this, w => (Value_rvalue this w : World T × Outcome E Addr).1
  | .emplace this args, w => (Emplace ops this args w).1
  | .reset this, w => (Reset this w : World T × Outcome E Unit).1
  | .hasValue this, w => (HasValue this w : World T × Outcome E Bool).1
  | .swap this other, w => (Swap ops this other w).1

/-- The call is within the contract of the class in world `w`: a constructor runs at an
address where no container exists (and its source container exists), a member function
or the destructor runs on a container that exists (as does a container argument), the
unchecked `operator*` runs on an occupied container, and `Swap` runs on two distinct
occupied containers. -/
def Call.InContract {T A : Type} (w : World T) : Call T A → Prop
  | .defaultCtor this => w.objs this = none
  | .fromValue this _ => w.objs this = none
  | .fromRvalue this _ => w.objs this = none
  | .copyFrom this other => w.objs this = none ∧ (w.objs other).isSome = true
  | .moveFrom this other => w.objs this = none ∧ (w.objs other).isSome = true
  | .destructor this => (w.objs this).isSome = true
  | .assignValue this _ => (w.objs this).isSome = true
  | .assignRvalue this _ => (w.objs this).isSome = true
  | .assignFrom this rhs => (w.objs this).isSome = true ∧ (w.objs rhs).isSome = true
  | .moveAssignFrom this rhs => (w.objs this).isSome = true ∧ (w.objs rhs).isSome = true
  | .arrow this => (w.objs this).isSome = true
  | .arrowConst this => (w.objs this).isSome = true
  | .star this => w.occupied this = true
  | .starConst this => w.occupied this = true
  | .starRvalue this => w.occupied this = true
  | .value this => (w.objs this).isSome = true
  | .valueConst this => (w.objs this).isSome = true
  | .valueRvalue this => (w.objs this).isSome = true
  | .emplace this _ => (w.objs this).isSome = true
  | .reset this => (w.objs this).isSome = true
  | .hasValue this => (w.objs this).isSome = true
  | .swap this other => this ≠ other ∧ w.occupied this = true ∧ w.occupied other = true

/-- The worlds that a finite sequence of in-contract calls produces from the world without
containers. -/
inductive Reachable {T A E : Type} (ops : TypeOps T A E) : World T → Prop where
  | start : Reachable ops World.empty
  | step {w : World T} (c : Call T A) :
      Reachable ops w → c.InContract w → Reachable ops (c.exec ops w)

/-- The outcome with its result dropped. -/
def Outcome.forget {E R : Type} : Outcome E R → Outcome E Unit
  | .ret _ => .ret ()
  | .raise x => .raise x
  | .terminate => .terminate
  | .undefined => .undefined

/-- Was the call ended by an exception of `T`, which left the member function or, in a
`noexcept` function, ended the program? -/
def Outcome.threw {E R : Type} : Outcome E R → Bool
  | .raise (.thrown _) => true
  | .terminate => true
  | _ => false

/-- The call with its result dropped. -/
def Op.void {T E R : Type} (m : Op T E R) : Op T E Unit := fun w =>
  ((m w).1, (m w).2.forget)

/-- The world after the call and the way the call ends. -/
def Call.run {T A E : Type} (ops : TypeOps T A E) : Call T A → World T →
    World T × Outcome E Unit
  | .defaultCtor this, w => Op.void (Optional_default this) w
  | .fromValue this v, w => Op.void (Optional_const_T ops this v) w
  | .fromRvalue this v, w => Op.void (Optional_rvalue_T ops this v) w
  | .copyFrom this other, w => Op.void (Optional_const_Optional ops this other) w
  | .moveFrom this other, w => Op.void (Optional_rvalue_Optional ops this other) w
  | .destructor this, w => Op.void (Optional_destructor this) w
  | .assignValue this v, w => Op.void (operator_assign_const_T ops this v) w
  | .assignRvalue this rhs, w => Op.void (operator_assign_rvalue_T ops this rhs) w
  | .assignFrom this rhs, w => Op.void (operator_assign_const_Optional ops this rhs) w
  | .moveAssignFrom this rhs, w => Op.void (operator_assign_rvalue_Optional ops this rhs) w
  | .arrow this, w => Op.void (operator_arrow this) w
  | .arrowConst this, w => Op.void (operator_arrow_const this) w
  | .star this, w => Op.void (operator_star this) w
  | .starConst this, w => Op.void (operator_star_const this) w
  | .starRvalue this, w => Op.void (operator_star_rvalue this) w
  | .value this, w => Op.void (Value this) w
  | .valueConst this, w => Op.void (Value_const this) w
  | .valueRvalue this, w => Op.void (Value_rvalue this) w
  | .emplace this args, w => Op.void (Emplace ops this args) w
  | .reset this, w => Op.void (Reset this) w
  | .hasValue this, w => Op.void (HasValue this) w
  | .swap this other, w => Op.void (Swap ops this other) w

/-- Is the last of the calls a constructor call of `T` into the buffer at `a`? -/
def lastConstructs (a : Addr) : List Event → Bool
  | [] => false
  | [e] => e.constructs a
  | _ :: e :: es => lastConstructs a (e :: es)

/-- Number (0 or 1) of constructor calls into the buffer at `a`, among the calls `es` that
one member function made, that threw.  No member function catches an exception of `T`,
and on the way out only the temporary of `std::swap` is destroyed: so when the member
function was ended by an exception of `T` and the last call it made to `T` is a
constructor call into the buffer at `a`, that call is the one that threw; every earlier
call returned. -/
def failedCtor (a : Addr) (es : List Event) (threw : Bool) : Nat :=
  if threw && lastConstructs a es then 1 else 0

/-- Number of constructor calls into the buffer at `a` that threw during the call `c` made
in world `w`. -/
def Call.thrownCtors {T A E : Type} (ops : TypeOps T A E) (c : Call T A) (w : World T)
    (a : Addr) : Nat :=
  failedCtor a ((c.run ops w).1.trace.drop w.trace.length) (c.run ops w).2.threw

/-- A finite sequence of in-contract calls from the world without containers, with the
world it produces and, for every address, the number of constructor calls of `T` into the
buffer there that threw on the way. -/
inductive Run {T A E : Type} (ops : TypeOps T A E) : World T → (Addr → Nat) → Prop where
  | start : Run ops World.empty (fun _ => 0)
  | step {w : World T} {f : Addr → Nat} (c : Call T A) :
      Run ops w f → c.InContract w →
      Run ops (c.run ops w).1 (fun a => f a + c.thrownCtors ops w a)

/-- The result `res` of a call made in world `w` is accounted for: the call does not have
undefined behaviour, the trace has grown by calls each of which was allowed by the
liveness of the buffer it was applied to, and the liveness that the calls lead to is the
one in the world after the call, except for a buffer whose constructor call threw. -/
def Accounts {T E R : Type} (w : World T) (res : World T × Outcome E R) : Prop :=
  res.2 ≠ .undefined ∧
    ∃ es, res.1.trace = w.trace ++ es ∧
      ∀ a, ∃ l, runAt a (w.live a) es = some l ∧
        l.toNat = (res.1.live a).toNat + failedCtor a es res.2.threw

/-- Is the event a call on the buffer at `a0`, or on no buffer at all? -/
def Event.about (a0 : Addr) : Event → Bool
  | .construct b => b == a0
  | .copyConstruct b => b == a0
  | .moveConstruct b => b == a0
  | .copyAssign b => b == a0
  | .moveAssign b => b == a0
  | .destroy b => b == a0
  | .tempMoveConstruct => true
  | .tempDestroy => true

/-- World `w2` follows world `w1`: the trace has grown by calls each of which was allowed
by the liveness of the buffer it was applied to, starting from the liveness in `w1`; and
when no constructor of `T` throws, the liveness the calls lead to is the one in `w2`. -/
def Follows {T A E : Type} (ops : TypeOps T A E) (w1 w2 : World T) : Prop :=
  ∃ es, w2.trace = w1.trace ++ es ∧
    ∀ a, ∃ l, runAt a (w1.live a) es = some l ∧ (ops.CtorsComplete → l = w2.live a)

/-! ## A concrete value type -/

/-- The operations of `int`: nothing throws, a copy or move leaves the source as it is. -/
def intOps : TypeOps Int Int Unit where
  ctor := fun a => .ok a
  copyCtor := fun s => .ok s
  moveCtor := fun s => (.ok s, s)
  copyAssign := fun _ s => (s, none)
  moveAssign := fun _ s => ((s, s), none)

/-- A value type over `Nat` whose moves leave `0` behind and whose constructor from
arguments throws on `0`. -/
def natOps : TypeOps Nat Nat String where
  ctor := fun a => if a = 0 then .error "zero" else .ok a
  copyCtor := fun s => .ok s
  moveCtor := fun s => (.ok s, 0)
  copyAssign := fun _ s => (s, none)
  moveAssign := fun _ s => ((s, 0), none)

/-- A value type over `Nat` whose constructors (from arguments, copy, move) throw on `0`;
its assignments do not throw. -/
def fragileOps : TypeOps Nat Nat String where
  ctor := fun a => if a = 0 then .error "zero" else .ok a
  copyCtor := fun s => if s = 0 then .error "zero" else .ok s
  moveCtor := fun s => (if s = 0 then .error "zero" else .ok s, s)
  copyAssign := fun _ s => (s, none)
  moveAssign := fun _ s => ((s, s), none)

/-- An `Optional<int>` default-constructed at address 0. -/
def intWorld : World Int :=
  (Optional_default 0 World.empty : World Int × Outcome Unit Unit).1

/-- Two containers over `natOps`: `a` at address 0 constructed from the value 7 and `b` at
address 1 default-constructed. -/
def natWorld : World Nat :=
  (Optional_default 1 (Optional_const_T natOps 0 7 World.empty).1 :
    World Nat × Outcome String Unit).1

/-- The world `natWorld` after 9 is assigned to `b`: `a` holds 7 and `b` holds 9. -/
def natWorld2 : World Nat := (operator_assign_const_T natOps 1 9 natWorld).1

/-- Three containers over `fragileOps`: at address 0 one that holds 0 (constructed from 5,
then assigned 0), at address 1 an empty one, at address 2 one that holds 3. -/
def fragileWorld : World Nat :=
  (Optional_const_T fragileOps 2 3
    (Optional_default 1
      (operator_assign_const_T fragileOps 0 0
        (Optional_const_T fragileOps 0 5 World.empty).1).1 :
      World Nat × Outcome String Unit).1).1

/-- The members of an occupied container at address `this` holding `v`. -/
def Optional.holding {T : Type} (this : Addr) (v : T) : Optional T :=
  { data_ := some v, value_ := some this, is_initialized_ := true }

/-! ## Unfolding lemmas for the call monad -/

section Unfold

variable {T A E R S : Type}

theorem Op.bind_apply (m : Op T E R) (f : R → Op T E S) (w : World T) :
    (m >>= f) w = Op.bind m f w := rfl

theorem Op.pure_apply (r : R) (w : World T) :
    (Pure.pure r : Op T E R) w = (w, .ret r) := rfl

theorem World.put_objs_same (w : World T) (a : Addr) (o : Option (Optional T)) :
    (w.put a o).objs a = o := by
  simp [World.put]

theorem World.put_objs_other (w : World T) (a b : Addr) (o : Option (Optional T))
    (h : b ≠ a) : (w.put a o).objs b = w.objs b := by
  simp [World.put, h]

theorem World.put_trace (w : World T) (a : Addr) (o : Option (Optional T)) :
    (w.put a o).trace = w.trace := rfl

theorem World.put_put (w : World T) (a : Addr) (o1 o2 : Option (Optional T)) :
    (w.put a o1).put a o2 = w.put a o2 := by
  unfold World.put
  congr 1
  funext b
  by_cases h : b = a <;> simp [h]

theorem World.put_self (w : World T) (a : Addr) (o : Option (Optional T))
    (h : w.objs a = o) : w.put a o = w := by
  cases w with
  | mk objs trace =>
    unfold World.put
    congr 1
    funext b
    by_cases hb : b = a
    · subst hb
      simpa using h.symm
    · simp [hb]

theorem World.put_shadow (w : World T) (a b : Addr) (x y z : Option (Optional T)) :
    ((w.put a x).put b y).put a z = (w.put b y).put a z := by
  unfold World.put
  congr 1
  funext c
  by_cases h : c = a <;> simp [h]

theorem World.logs_objs (w : World T) (es : List Event) : (w.logs es).objs = w.objs := rfl

theorem World.logs_trace (w : World T) (es : List Event) :
    (w.logs es).trace = w.trace ++ es := rfl

theorem World.logs_put (w : World T) (es : List Event) (a : Addr) (o : Option (Optional T)) :
    (w.logs es).put a o = (w.put a o).logs es := rfl

theorem World.logs_logs (w : World T) (es fs : List Event) :
    (w.logs es).logs fs = w.logs (es ++ fs) := by
  simp [World.logs]

theorem World.logs_nil (w : World T) : w.logs [] = w := by
  simp [World.logs]

theorem World.get_put_same (w : World T) (a : Addr) (o : Optional T) :
    (w.put a (some o)).get a = o.data_ := by
  simp [World.get, World.put]

theorem World.get_put_other (w : World T) (a b : Addr) (o : Option (Optional T))
    (h : b ≠ a) : (w.put a o).get b = w.get b := by
  simp [World.get, World.put, h]

theorem World.get_logs (w : World T) (es : List Event) (a : Addr) :
    (w.logs es).get a = w.get a := rfl

end Unfold

/-! ## Evaluation of the member functions on a container that satisfies the invariant -/

section Eval

variable {T A E : Type}

theorem Optional.Inv.occupied {o : Optional T} {this : Addr} (h : o.Inv this)
    (hi : o.is_initialized_ = true) : ∃ v, o.data_ = some v ∧ o.value_ = some this := by
  obtain ⟨v, hv⟩ := Option.isSome_iff_exists.mp (h.1.mp hi)
  exact ⟨v, hv, h.2 hi⟩

theorem Optional.Inv.vacant {o : Optional T} {this : Addr} (h : o.Inv this)
    (hi : o.is_initialized_ = false) : o.data_ = none := by
  cases hd : o.data_ with
  | none => rfl
  | some v =>
    have := h.1.mpr (by simp [hd])
    simp [hi] at this

theorem Optional.Inv.flag_false {o : Optional T} {this : Addr} (h : o.Inv this)
    (hd : o.data_ = none) : o.is_initialized_ = false := by
  cases hi : o.is_initialized_ with
  | false => rfl
  | true =>
    obtain ⟨v, hv, _⟩ := h.occupied hi
    simp [hv] at hd

theorem Optional.Inv.flag_true {o : Optional T} {this : Addr} (h : o.Inv this) {v : T}
    (hd : o.data_ = some v) : o.is_initialized_ = true :=
  h.1.mpr (by simp [hd])

theorem Optional.fresh_is_initialized :
    (Optional.fresh : Optional T).is_initialized_ = false := rfl

theorem Optional.fresh_Inv (this : Addr) : (Optional.fresh : Optional T).Inv this := by
  simp [Optional.Inv, Optional.fresh]

theorem HasValue_eval (w : World T) (this : Addr) (o : Optional T)
    (ho : w.objs this = some o) :
    (HasValue this w : World T × Outcome E Bool) = (w, .ret o.is_initialized_) := by
  simp [HasValue, Op.bind_apply, Op.bind, Op.self, ho, Op.pure_apply]

theorem Value_eval (w : World T) (this : Addr) (o : Optional T)
    (ho : w.objs this = some o) (hinv : o.Inv this) :
    (Value this w : World T × Outcome E Addr) =
      (w, if o.is_initialized_ then .ret this else .raise .BadOptionalAccess) := by
  cases hi : o.is_initialized_ with
  | false =>
    simp [Value, Op.bind_apply, Op.bind, Op.self, ho, hi, Op.raise]
  | true =>
    obtain ⟨v, hv, hp⟩ := hinv.occupied hi
    simp [Value, Op.bind_apply, Op.bind, Op.self, ho, hi, hp, Op.deref, World.get, hv,
      Op.pure_apply]

theorem HasValue_put_logs (w : World T) (this : Addr) (o : Optional T) (es : List Event) :
    (HasValue this ((w.put this (some o)).logs es) : World T × Outcome E Bool) =
      ((w.put this (some o)).logs es, .ret o.is_initialized_) :=
  HasValue_eval _ this o (by simp [World.logs_objs, World.put_objs_same])

theorem Value_put_logs (w : World T) (this : Addr) (o : Optional T) (es : List Event)
    (hinv : o.Inv this) :
    (Value this ((w.put this (some o)).logs es) : World T × Outcome E Addr) =
      ((w.put this (some o)).logs es,
        if o.is_initialized_ then .ret this else .raise .BadOptionalAccess) :=
  Value_eval _ this o (by simp [World.logs_objs, World.put_objs_same]) hinv

theorem HasValue_put (w : World T) (this : Addr) (o : Optional T) :
    (HasValue this (w.put this (some o)) : World T × Outcome E Bool) =
      (w.put this (some o), .ret o.is_initialized_) :=
  HasValue_eval _ this o (World.put_objs_same _ _ _)

theorem Value_put (w : World T) (this : Addr) (o : Optional T) (hinv : o.Inv this) :
    (Value this (w.put this (some o)) : World T × Outcome E Addr) =
      (w.put this (some o),
        if o.is_initialized_ then .ret this else .raise .BadOptionalAccess) :=
  Value_eval _ this o (World.put_objs_same _ _ _) hinv

theorem Optional.Inv_occupied (v : T) (this : Addr) :
    Optional.Inv (⟨some v, some this, true⟩ : Optional T) this := by
  simp [Optional.Inv]

theorem Optional.Inv_reset (o : Optional T) (this : Addr) :
    Optional.Inv ({ o with data_ := none, is_initialized_ := false } : Optional T) this := by
  simp [Optional.Inv]

theorem Value_const_eq (this : Addr) : (Value_const this : Op T E Addr) = Value this := rfl

theorem Value_rvalue_eq (this : Addr) : (Value_rvalue this : Op T E Addr) = Value this := rfl

theorem Reset_eval (w : World T) (this : Addr) (o : Optional T)
    (ho : w.objs this = some o) (hinv : o.Inv this) :
    (Reset this w : World T × Outcome E Unit) =
      (if o.is_initialized_ then
        (w.put this (some { o with data_ := none, is_initialized_ := false })).logs
          [.destroy this] else w, .ret ()) := by
  cases hi : o.is_initialized_ with
  | false =>
    simp [Reset, Op.bind_apply, Op.bind, Op.self, ho, hi, Op.pure_apply]
  | true =>
    obtain ⟨v, hv, hp⟩ := hinv.occupied hi
    simp [Reset, Op.bind_apply, Op.bind, Op.self, ho, hi, hp, Op.deref, World.get, hv,
      Op.pure_apply, destroy, Op.log, Op.poke, Op.modify, World.put_objs_same, World.put_put,
      World.logs_objs, World.logs_put]

theorem Emplace_eval (ops : TypeOps T A E) (w : World T) (this : Addr) (o : Optional T)
    (ho : w.objs this = some o) (hinv : o.Inv this) (args : A) :
    Emplace ops this args w =
      match ops.ctor args with
      | .ok v =>
        ((w.put this (some ⟨some v, some this, true⟩)).logs
          (if o.is_initialized_ then [.destroy this, .construct this] else [.construct this]),
          .ret this)
      | .error e =>
        (if o.is_initialized_ then
          (w.put this (some { o with data_ := none, is_initialized_ := false })).logs
            [.destroy this, .construct this]
          else w.logs [.construct this], .raise (.thrown e)) := by
  cases hc : ops.ctor args <;> cases hi : o.is_initialized_ <;>
  simp [Emplace, Op.bind_apply, Op.bind, HasValue_eval w this o ho, hi, Op.pure_apply,
      Reset_eval w this o ho hinv, placementNew, Op.log, Op.poke, ho, Op.raise,
      hc, Op.modify, World.logs_objs, World.put_objs_same,
      World.put_put, World.logs_put, Op.self, Op.deref, World.get, World.logs_logs]

theorem operator_assign_const_T_occupied (ops : TypeOps T A E) (w : World T) (this : Addr)
    (o : Optional T) (ho : w.objs this = some o) (hinv : o.Inv this) (value dv : T)
    (hd : o.data_ = some dv) :
    operator_assign_const_T ops this value w =
      ((w.put this (some ⟨some (ops.copyAssign dv value).1, some this, true⟩)).logs
        [.copyAssign this],
        match (ops.copyAssign dv value).2 with
        | none => .ret ()
        | some e => .raise (.thrown e)) := by
  have hi : o.is_initialized_ = true := hinv.1.mpr (by simp [hd])
  have hp := hinv.2 hi
  cases hx : (ops.copyAssign dv value).2 <;>
  simp [operator_assign_const_T, Op.bind_apply, Op.bind, Op.self, ho, hi, hp, hd, assignCopy,
    Op.deref, World.get, Op.log, Op.poke, Op.modify, World.logs_objs, World.logs_put, hx,
    Op.pure_apply, Op.raise]

theorem operator_assign_const_T_vacant (ops : TypeOps T A E) (w : World T) (this : Addr)
    (o : Optional T) (ho : w.objs this = some o) (value : T)
    (hi : o.is_initialized_ = false) :
    operator_assign_const_T ops this value w =
      match ops.copyCtor value with
      | .ok v =>
        ((w.put this (some ⟨some v, some this, true⟩)).logs [.copyConstruct this], .ret ())
      | .error e => (w.logs [.copyConstruct this], .raise (.thrown e)) := by
  cases hx : ops.copyCtor value <;>
  simp [operator_assign_const_T, Op.bind_apply, Op.bind, Op.self, ho, hi, placementNewCopy,
    Op.log, Op.poke, Op.modify, World.logs_objs, World.logs_put, hx, World.put_objs_same,
    World.put_put, Op.pure_apply, Op.raise]

theorem operator_assign_rvalue_T_occupied (ops : TypeOps T A E) (w : World T) (this : Addr)
    (o : Optional T) (ho : w.objs this = some o) (hinv : o.Inv this) (rhs dv : T)
    (hd : o.data_ = some dv) :
    operator_assign_rvalue_T ops this rhs w =
      ((w.put this (some ⟨some (ops.moveAssign dv rhs).1.1, some this, true⟩)).logs
        [.moveAssign this],
        match (ops.moveAssign dv rhs).2 with
        | none => .ret ()
        | some e => .raise (.thrown e)) := by
  have hi : o.is_initialized_ = true := hinv.1.mpr (by simp [hd])
  have hp := hinv.2 hi
  cases hx : (ops.moveAssign dv rhs).2 <;>
  simp [operator_assign_rvalue_T, Op.bind_apply, Op.bind, Op.self, ho, hi, hp, hd, assignMove,
    Op.deref, World.get, Op.log, Op.poke, Op.modify, World.logs_objs, World.logs_put, hx,
    Op.pure_apply, Op.raise]

theorem operator_assign_rvalue_T_vacant (ops : TypeOps T A E) (w : World T) (this : Addr)
    (o : Optional T) (ho : w.objs this = some o) (rhs : T)
    (hi : o.is_initialized_ = false) :
    operator_assign_rvalue_T ops this rhs w =
      match (ops.moveCtor rhs).1 with
      | .ok v =>
        ((w.put this (some ⟨some v, some this, true⟩)).logs [.moveConstruct this], .ret ())
      | .error e => (w.logs [.moveConstruct this], .raise (.thrown e)) := by
  cases hx : (ops.moveCtor rhs).1 <;>
  simp [operator_assign_rvalue_T, Op.bind_apply, Op.bind, Op.self, ho, hi, placementNewMove,
    Op.log, Op.poke, Op.modify, World.logs_objs, World.logs_put, hx, World.put_objs_same,
    World.put_put, Op.pure_apply, Op.raise]

theorem Optional_const_T_eval (ops : TypeOps T A E) (w : World T) (this : Addr) (value : T) :
    Optional_const_T ops this value w =
      match ops.copyCtor value with
      | .ok v =>
        ((w.put this (some ⟨some v, some this, true⟩)).logs [.copyConstruct this], .ret ())
      | .error e => ((w.put this none).logs [.copyConstruct this], .raise (.thrown e)) := by
  have h : Optional_const_T ops this value
      = Op.newObject this (operator_assign_const_T ops this value) := rfl
  rw [h]
  unfold Op.newObject
  rw [operator_assign_const_T_vacant ops _ this _ (World.put_objs_same _ _ _) value rfl]
  cases hx : ops.copyCtor value <;> simp [World.put_put, World.logs_put]

theorem Optional_rvalue_T_eval (ops : TypeOps T A E) (w : World T) (this : Addr) (value : T) :
    Optional_rvalue_T ops this value w =
      match (ops.moveCtor value).1 with
      | .ok v =>
        ((w.put this (some ⟨some v, some this, true⟩)).logs [.moveConstruct this], .ret ())
      | .error _ => ((w.put this none).logs [.moveConstruct this], .terminate) := by
  have h : Optional_rvalue_T ops this value
      = Op.noexcept (Op.newObject this (operator_assign_rvalue_T ops this value)) := rfl
  rw [h]
  unfold Op.noexcept Op.newObject
  rw [operator_assign_rvalue_T_vacant ops _ this _ (World.put_objs_same _ _ _) value rfl]
  cases hx : (ops.moveCtor value).1 <;> simp [World.put_put, World.logs_put]

theorem operator_assign_const_Optional_eval (ops : TypeOps T A E) (w : World T)
    (this rhs : Addr) (o r : Optional T) (hne : this ≠ rhs)
    (ho : w.objs this = some o) (hr : w.objs rhs = some r)
    (hoi : o.Inv this) (hri : r.Inv rhs) :
    operator_assign_const_Optional ops this rhs w =
      match r.data_, o.data_ with
      | some sv, some dv =>
        ((w.put this (some ⟨some (ops.copyAssign dv sv).1, some this, true⟩)).logs
          [.copyAssign this],
          match (ops.copyAssign dv sv).2 with
          | none => .ret ()
          | some e => .raise (.thrown e))
      | some sv, none =>
        match ops.copyCtor sv with
        | .ok v =>
          ((w.put this (some ⟨some v, some this, true⟩)).logs [.copyConstruct this], .ret ())
        | .error e => (w.logs [.copyConstruct this], .raise (.thrown e))
      | none, some _ =>
        ((w.put this (some { o with data_ := none, is_initialized_ := false })).logs
          [.destroy this], .ret ())
      | none, none => (w, .ret ()) := by
  have hne2 : rhs ≠ this := fun h => hne h.symm
  cases hrd : r.data_ with
  | none =>
    have hrf : r.is_initialized_ = false := hri.flag_false hrd
    cases hod : o.data_ with
    | none =>
      have hof : o.is_initialized_ = false := hoi.flag_false hod
      simp [operator_assign_const_Optional, hne, Op.bind_apply, Op.bind, Op.self, ho, hr, hrf,
        hof, Op.pure_apply]
    | some dv =>
      have hot : o.is_initialized_ = true := hoi.1.mpr (by simp [hod])
      simp [operator_assign_const_Optional, hne, Op.bind_apply, Op.bind, Op.self, ho, hr, hrf,
        hot, Reset_eval w this o ho hoi]
  | some sv =>
    have hrt : r.is_initialized_ = true := hri.1.mpr (by simp [hrd])
    have hrp := hri.2 hrt
    cases hod : o.data_ with
    | none =>
      have hof : o.is_initialized_ = false := hoi.flag_false hod
      cases hx : ops.copyCtor sv <;>
      simp [operator_assign_const_Optional, hne, Op.bind_apply, Op.bind, Op.self, ho, hr, hrt,
        hof, Value_const_eq, Value_eval w rhs r hr hri, Op.deref, World.get, hrd,
        placementNewCopy, Op.log, Op.poke, Op.modify, World.logs_objs, World.logs_put, hx,
        World.put_objs_same, World.put_put, Op.pure_apply, Op.raise]
    | some dv =>
      have hot : o.is_initialized_ = true := hoi.1.mpr (by simp [hod])
      have hop := hoi.2 hot
      cases hx : (ops.copyAssign dv sv).2 <;>
      simp [operator_assign_const_Optional, hne, Op.bind_apply, Op.bind, Op.self, ho, hr, hrt,
        hot, hop, Value_const_eq, Value_eval w rhs r hr hri, Op.deref, World.get, hrd, hod,
        assignCopy, Op.log, Op.poke, Op.modify, World.logs_objs, World.logs_put, hx,
        World.put_objs_same, World.put_put, Op.pure_apply, Op.raise]

theorem operator_assign_rvalue_Optional_eval (ops : TypeOps T A E) (w : World T)
    (this rhs : Addr) (o r : Optional T) (hne : this ≠ rhs)
    (ho : w.objs this = some o) (hr : w.objs rhs = some r)
    (hoi : o.Inv this) (hri : r.Inv rhs) :
    operator_assign_rvalue_Optional ops this rhs w =
      match r.data_, o.data_ with
      | some sv, some dv =>
        (((w.put rhs (some ⟨some (ops.moveAssign dv sv).1.2, some rhs, true⟩)).put this
            (some ⟨some (ops.moveAssign dv sv).1.1, some this, true⟩)).logs [.moveAssign this],
          match (ops.moveAssign dv sv).2 with
          | none => .ret ()
          | some _ => .terminate)
      | some sv, none =>
        match (ops.moveCtor sv).1 with
        | .ok v =>
          (((w.put rhs (some ⟨some (ops.moveCtor sv).2, some rhs, true⟩)).put this
            (some ⟨some v, some this, true⟩)).logs [.moveConstruct this], .ret ())
        | .error _ =>
          ((w.put rhs (some ⟨some (ops.moveCtor sv).2, some rhs, true⟩)).logs
            [.moveConstruct this], .terminate)
      | none, some _ =>
        ((w.put this (some { o with data_ := none, is_initialized_ := false })).logs
          [.destroy this], .ret ())
      | none, none => (w, .ret ()) := by
  have hne2 : rhs ≠ this := fun h => hne h.symm
  unfold operator_assign_rvalue_Optional Op.noexcept
  cases hrd : r.data_ with
  | none =>
    have hrf : r.is_initialized_ = false := hri.flag_false hrd
    cases hod : o.data_ with
    | none =>
      have hof : o.is_initialized_ = false := hoi.flag_false hod
      simp [hne, Op.bind_apply, Op.bind, Op.self, ho, hr, hrf, hof, Op.pure_apply]
    | some dv =>
      have hot : o.is_initialized_ = true := hoi.1.mpr (by simp [hod])
      simp [hne, Op.bind_apply, Op.bind, Op.self, ho, hr, hrf, hot, Reset_eval w this o ho hoi]
  | some sv =>
    have hrt : r.is_initialized_ = true := hri.1.mpr (by simp [hrd])
    have hrp := hri.2 hrt
    cases hod : o.data_ with
    | none =>
      have hof : o.is_initialized_ = false := hoi.flag_false hod
      cases hx : (ops.moveCtor sv).1 <;>
      simp [hne, hne2, Op.bind_apply, Op.bind, Op.self, ho, hr, hrt, hrp,
        hof, Value_eval w rhs r hr hri, Op.deref, World.get, hrd,
        placementNewMoveFrom, Op.log, Op.poke, Op.modify, World.logs_objs, World.logs_put, hx,
        World.put_objs_same, World.put_objs_other, World.put_put, Op.pure_apply, Op.raise]
    | some dv =>
      have hot : o.is_initialized_ = true := hoi.1.mpr (by simp [hod])
      have hop := hoi.2 hot
      cases hx : (ops.moveAssign dv sv).2 <;>
      simp [hne, hne2, Op.bind_apply, Op.bind, Op.self, ho, hr, hrt, hrp,
        hot, hop, Value_eval w rhs r hr hri, Op.deref, World.get, hrd, hod,
        assignMoveFrom, Op.log, Op.poke, Op.modify, World.logs_objs, World.logs_put, hx,
        World.put_objs_same, World.put_objs_other, World.put_put, Op.pure_apply, Op.raise]

theorem Optional_const_Optional_eval (ops : TypeOps T A E) (w : World T)
    (this other : Addr) (r : Optional T) (hne : this ≠ other)
    (hr : w.objs other = some r) (hri : r.Inv other) :
    Optional_const_Optional ops this other w =
      match r.data_ with
      | some sv =>
        match ops.copyCtor sv with
        | .ok v =>
          ((w.put this (some ⟨some v, some this, true⟩)).logs [.copyConstruct this], .ret ())
        | .error e => ((w.put this none).logs [.copyConstruct this], .raise (.thrown e))
      | none => (w.put this (some Optional.fresh), .ret ()) := by
  have hne2 : other ≠ this := fun h => hne h.symm
  have hr2 : (w.put this (some Optional.fresh)).objs other = some r := by
    rw [World.put_objs_other _ _ _ _ hne2, hr]
  unfold Optional_const_Optional Op.newObject
  cases hrd : r.data_ with
  | none =>
    have hrf : r.is_initialized_ = false := hri.flag_false hrd
    simp [Op.bind_apply, Op.bind, Op.self, hr2, hrf, World.put_objs_same,
      Optional.fresh_is_initialized, Op.pure_apply]
  | some sv =>
    have hrt : r.is_initialized_ = true := hri.1.mpr (by simp [hrd])
    cases hx : ops.copyCtor sv <;>
    simp [Op.bind_apply, Op.bind, Op.self, hr2, hrt, World.put_objs_same,
      Optional.fresh_is_initialized, Value_const_eq, Value_eval _ other r hr2 hri, Op.deref, World.get, hrd,
      placementNewCopy, Op.log, Op.poke, Op.modify, World.logs_objs, World.logs_put, hx,
      World.put_put, Op.pure_apply, Op.raise]

theorem Optional_rvalue_Optional_eval (ops : TypeOps T A E) (w : World T)
    (this other : Addr) (r : Optional T) (hne : this ≠ other)
    (hr : w.objs other = some r) (hri : r.Inv other) :
    Optional_rvalue_Optional ops this other w =
      match r.data_ with
      | some sv =>
        match (ops.moveCtor sv).1 with
        | .ok v =>
          (((w.put other (some ⟨some (ops.moveCtor sv).2, some other, true⟩)).put this
            (some ⟨some v, some this, true⟩)).logs [.moveConstruct this], .ret ())
        | .error _ =>
          (((w.put other (some ⟨some (ops.moveCtor sv).2, some other, true⟩)).put this
            none).logs [.moveConstruct this], .terminate)
      | none => (w.put this (some Optional.fresh), .ret ()) := by
  have hne2 : other ≠ this := fun h => hne h.symm
  have hr2 : (w.put this (some Optional.fresh)).objs other = some r := by
    rw [World.put_objs_other _ _ _ _ hne2, hr]
  unfold Optional_rvalue_Optional Op.noexcept Op.newObject
  cases hrd : r.data_ with
  | none =>
    have hrf : r.is_initialized_ = false := hri.flag_false hrd
    simp [Op.bind_apply, Op.bind, Op.self, hr2, hrf, World.put_objs_same,
      Optional.fresh_is_initialized, Op.pure_apply]
  | some sv =>
    have hrt : r.is_initialized_ = true := hri.1.mpr (by simp [hrd])
    have hrp := hri.2 hrt
    cases hx : (ops.moveCtor sv).1 <;>
    simp [hne, hne2, Op.bind_apply, Op.bind, Op.self, hr2, hrt, hrp, World.put_objs_same,
      Optional.fresh_is_initialized, World.put_objs_other, World.put_shadow,
      Value_eval _ other r hr2 hri, Op.deref, World.get, hrd,
      placementNewMoveFrom, Op.log, Op.poke, Op.modify, World.logs_objs, World.logs_put, hx,
      World.put_put, Op.pure_apply, Op.raise]

end Eval

/-! ## The class invariant is preserved by every member function -/

section Preserve

variable {T A E : Type}

theorem World.WF_empty : (World.empty : World T).WF := by
  intro a o h
  simp [World.empty] at h

theorem World.WF.put_some {w : World T} (h : w.WF) {a : Addr} {o : Optional T}
    (ho : o.Inv a) : (w.put a (some o)).WF := by
  intro b x hx
  by_cases hb : b = a
  · subst hb
    rw [World.put_objs_same] at hx
    cases hx
    exact ho
  · rw [World.put_objs_other _ _ _ _ hb] at hx
    exact h b x hx

theorem World.WF.put_none {w : World T} (h : w.WF) (a : Addr) : (w.put a none).WF := by
  intro b x hx
  by_cases hb : b = a
  · subst hb
    rw [World.put_objs_same] at hx
    cases hx
  · rw [World.put_objs_other _ _ _ _ hb] at hx
    exact h b x hx

theorem World.WF.logs {w : World T} (h : w.WF) (es : List Event) : (w.logs es).WF :=
  fun a o ho => h a o ho

theorem HasValue_world (this : Addr) (w : World T) :
    (HasValue this w : World T × Outcome E Bool).1 = w := by
  cases ho : w.objs this <;>
  simp [HasValue, Op.bind_apply, Op.bind, Op.self, ho, Op.pure_apply]

theorem Value_world (this : Addr) (w : World T) :
    (Value this w : World T × Outcome E Addr).1 = w := by
  cases ho : w.objs this with
  | none => simp [Value, Op.bind_apply, Op.bind, Op.self, ho]
  | some o =>
    cases hi : o.is_initialized_ with
    | false => simp [Value, Op.bind_apply, Op.bind, Op.self, ho, hi, Op.raise]
    | true =>
      cases hp : o.value_ with
      | none => simp [Value, Op.bind_apply, Op.bind, Op.self, ho, hi, hp, Op.deref]
      | some a =>
        cases hg : w.get a <;>
        simp [Value, Op.bind_apply, Op.bind, Op.self, ho, hi, hp, Op.deref, hg, Op.pure_apply]

theorem Reset_preserves_WF (this : Addr) (w : World T) (h : w.WF) :
    (Reset this w : World T × Outcome E Unit).1.WF := by
  cases ho : w.objs this with
  | none => simpa [Reset, Op.bind_apply, Op.bind, Op.self, ho] using h
  | some o =>
    rw [Reset_eval w this o ho (h this o ho)]
    cases hi : o.is_initialized_ with
    | false => simpa using h
    | true => simpa using (h.put_some (Optional.Inv_reset o this)).logs _

theorem Emplace_preserves_WF (ops : TypeOps T A E) (this : Addr) (args : A) (w : World T)
    (h : w.WF) : (Emplace ops this args w).1.WF := by
  cases ho : w.objs this with
  | none => simpa [Emplace, HasValue, Op.bind_apply, Op.bind, Op.self, ho] using h
  | some o =>
    rw [Emplace_eval ops w this o ho (h this o ho)]
    cases hc : ops.ctor args with
    | ok v => exact (h.put_some (Optional.Inv_occupied v this)).logs _
    | error e =>
      cases hi : o.is_initialized_ with
      | false => simpa using h.logs _
      | true => simpa using (h.put_some (Optional.Inv_reset o this)).logs _

theorem operator_assign_const_T_preserves_WF (ops : TypeOps T A E) (this : Addr) (value : T)
    (w : World T) (h : w.WF) : (operator_assign_const_T ops this value w).1.WF := by
  cases ho : w.objs this with
  | none => simpa [operator_assign_const_T, Op.bind_apply, Op.bind, Op.self, ho] using h
  | some o =>
    cases hi : o.is_initialized_ with
    | false =>
      rw [operator_assign_const_T_vacant ops w this o ho value hi]
      cases hc : ops.copyCtor value with
      | ok v => exact (h.put_some (Optional.Inv_occupied v this)).logs _
      | error e => exact h.logs _
    | true =>
      obtain ⟨dv, hd, -⟩ := (h this o ho).occupied hi
      rw [operator_assign_const_T_occupied ops w this o ho (h this o ho) value dv hd]
      exact (h.put_some (Optional.Inv_occupied _ this)).logs _

theorem operator_assign_rvalue_T_preserves_WF (ops : TypeOps T A E) (this : Addr) (rhs : T)
    (w : World T) (h : w.WF) : (operator_assign_rvalue_T ops this rhs w).1.WF := by
  cases ho : w.objs this with
  | none => simpa [operator_assign_rvalue_T, Op.bind_apply, Op.bind, Op.self, ho] using h
  | some o =>
    cases hi : o.is_initialized_ with
    | false =>
      rw [operator_assign_rvalue_T_vacant ops w this o ho rhs hi]
      cases hc : (ops.moveCtor rhs).1 with
      | ok v => exact (h.put_some (Optional.Inv_occupied v this)).logs _
      | error e => exact h.logs _
    | true =>
      obtain ⟨dv, hd, -⟩ := (h this o ho).occupied hi
      rw [operator_assign_rvalue_T_occupied ops w this o ho (h this o ho) rhs dv hd]
      exact (h.put_some (Optional.Inv_occupied _ this)).logs _

theorem Optional_default_preserves_WF (this : Addr) (w : World T) (h : w.WF) :
    (Optional_default this w : World T × Outcome E Unit).1.WF := by
  simpa [Optional_default, Op.newObject, Op.pure_apply] using
    h.put_some (Optional.fresh_Inv this)

theorem Optional_const_T_preserves_WF (ops : TypeOps T A E) (this : Addr) (value : T)
    (w : World T) (h : w.WF) : (Optional_const_T ops this value w).1.WF := by
  rw [Optional_const_T_eval]
  cases hc : ops.copyCtor value with
  | ok v => exact (h.put_some (Optional.Inv_occupied v this)).logs _
  | error e => exact (h.put_none this).logs _

theorem Optional_rvalue_T_preserves_WF (ops : TypeOps T A E) (this : Addr) (value : T)
    (w : World T) (h : w.WF) : (Optional_rvalue_T ops this value w).1.WF := by
  rw [Optional_rvalue_T_eval]
  cases hc : (ops.moveCtor value).1 with
  | ok v => exact (h.put_some (Optional.Inv_occupied v this)).logs _
  | error e => exact (h.put_none this).logs _

theorem operator_assign_const_Optional_preserves_WF (ops : TypeOps T A E) (this rhs : Addr)
    (w : World T) (h : w.WF) : (operator_assign_const_Optional ops this rhs w).1.WF := by
  by_cases hne : this = rhs
  · subst hne
    simpa [operator_assign_const_Optional, Op.pure_apply] using h
  cases ho : w.objs this with
  | none =>
    simpa [operator_assign_const_Optional, hne, Op.bind_apply, Op.bind, Op.self, ho] using h
  | some o =>
    cases hr : w.objs rhs with
    | none =>
      simpa [operator_assign_const_Optional, hne, Op.bind_apply, Op.bind, Op.self, ho, hr]
        using h
    | some r =>
      rw [operator_assign_const_Optional_eval ops w this rhs o r hne ho hr (h this o ho)
        (h rhs r hr)]
      cases hrd : r.data_ with
      | none =>
        cases hod : o.data_ with
        | none => exact h
        | some dv => exact (h.put_some (Optional.Inv_reset o this)).logs _
      | some sv =>
        cases hod : o.data_ with
        | none =>
          cases hc : ops.copyCtor sv with
          | ok v =>
            simp only [hc]
            exact (h.put_some (Optional.Inv_occupied v this)).logs _
          | error e =>
            simp only [hc]
            exact h.logs _
        | some dv => exact (h.put_some (Optional.Inv_occupied _ this)).logs _

theorem operator_assign_rvalue_Optional_preserves_WF (ops : TypeOps T A E) (this rhs : Addr)
    (w : World T) (h : w.WF) : (operator_assign_rvalue_Optional ops this rhs w).1.WF := by
  by_cases hne : this = rhs
  · subst hne
    simpa [operator_assign_rvalue_Optional, Op.noexcept, Op.pure_apply] using h
  cases ho : w.objs this with
  | none =>
    simpa [operator_assign_rvalue_Optional, Op.noexcept, hne, Op.bind_apply, Op.bind, Op.self,
      ho] using h
  | some o =>
    cases hr : w.objs rhs with
    | none =>
      simpa [operator_assign_rvalue_Optional, Op.noexcept, hne, Op.bind_apply, Op.bind,
        Op.self, ho, hr] using h
    | some r =>
      rw [operator_assign_rvalue_Optional_eval ops w this rhs o r hne ho hr (h this o ho)
        (h rhs r hr)]
      cases hrd : r.data_ with
      | none =>
        cases hod : o.data_ with
        | none => exact h
        | some dv => exact (h.put_some (Optional.Inv_reset o this)).logs _
      | some sv =>
        cases hod : o.data_ with
        | none =>
          cases hc : (ops.moveCtor sv).1 with
          | ok v =>
            simp only [hc]
            exact ((h.put_some (Optional.Inv_occupied _ rhs)).put_some
              (Optional.Inv_occupied v this)).logs _
          | error e =>
            simp only [hc]
            exact (h.put_some (Optional.Inv_occupied _ rhs)).logs _
        | some dv =>
          exact ((h.put_some (Optional.Inv_occupied _ rhs)).put_some
            (Optional.Inv_occupied _ this)).logs _

theorem Optional_const_Optional_preserves_WF (ops : TypeOps T A E) (this other : Addr)
    (w : World T) (h : w.WF) : (Optional_const_Optional ops this other w).1.WF := by
  by_cases hne : this = other
  · subst hne
    simpa [Optional_const_Optional, Op.newObject, Op.bind_apply, Op.bind, Op.self,
      World.put_objs_same, Optional.fresh_is_initialized, Op.pure_apply] using
      h.put_some (Optional.fresh_Inv this)
  cases hr : w.objs other with
  | none =>
    have hne2 : other ≠ this := fun e => hne e.symm
    simpa [Optional_const_Optional, Op.newObject, Op.bind_apply, Op.bind, Op.self,
      World.put_objs_same, World.put_objs_other _ _ _ _ hne2, hr] using
      h.put_some (Optional.fresh_Inv this)
  | some r =>
    rw [Optional_const_Optional_eval ops w this other r hne hr (h other r hr)]
    cases hrd : r.data_ with
    | none => exact h.put_some (Optional.fresh_Inv this)
    | some sv =>
      cases hc : ops.copyCtor sv with
      | ok v =>
        simp only [hc]
        exact (h.put_some (Optional.Inv_occupied v this)).logs _
      | error e =>
        simp only [hc]
        exact (h.put_none this).logs _

theorem Optional_rvalue_Optional_preserves_WF (ops : TypeOps T A E) (this other : Addr)
    (w : World T) (h : w.WF) : (Optional_rvalue_Optional ops this other w).1.WF := by
  by_cases hne : this = other
  · subst hne
    simpa [Optional_rvalue_Optional, Op.noexcept, Op.newObject, Op.bind_apply, Op.bind,
      Op.self, World.put_objs_same, Optional.fresh_is_initialized, Op.pure_apply] using
      h.put_some (Optional.fresh_Inv this)
  cases hr : w.objs other with
  | none =>
    have hne2 : other ≠ this := fun e => hne e.symm
    simpa [Optional_rvalue_Optional, Op.noexcept, Op.newObject, Op.bind_apply, Op.bind,
      Op.self, World.put_objs_same, World.put_objs_other _ _ _ _ hne2, hr] using
      h.put_some (Optional.fresh_Inv this)
  | some r =>
    rw [Optional_rvalue_Optional_eval ops w this other r hne hr (h other r hr)]
    cases hrd : r.data_ with
    | none => exact h.put_some (Optional.fresh_Inv this)
    | some sv =>
      cases hc : (ops.moveCtor sv).1 with
      | ok v =>
        simp only [hc]
        exact ((h.put_some (Optional.Inv_occupied _ other)).put_some
          (Optional.Inv_occupied v this)).logs _
      | error e =>
        simp only [hc]
        exact ((h.put_some (Optional.Inv_occupied _ other)).put_none this).logs _

end Preserve

/-! ## Checked access -/

section Claims

variable {T A E : Type}

/-- C1: for a container that satisfies the class invariant, each of the three forms of
`Value()` raises `BadOptionalAccess` exactly when the container is empty; on an occupied
container it returns normally a reference to the container's own buffer, which holds the
contained value; the call changes nothing, so `HasValue()` is the same before and after. -/
theorem Value_raises_iff_empty (w : World T) (this : Addr) (o : Optional T)
    (ho : w.objs this = some o) (hinv : o.Inv this)
    (V : Addr → Op T E Addr) (hV : V = Value ∨ V = Value_const ∨ V = Value_rvalue) :
    ((V this w).2 = .raise .BadOptionalAccess ↔ o.is_initialized_ = false) ∧
    (o.is_initialized_ = true →
      (V this w).2 = .ret this ∧ (V this w).1.get this = o.data_ ∧ o.data_.isSome = true) ∧
    (V this w).1 = w ∧
    (HasValue this (V this w).1 : World T × Outcome E Bool).2 = (HasValue this w).2 := by
  have key : V this w = Value this w := by
    rcases hV with h | h | h <;> subst h <;> rfl
  rw [key, Value_eval w this o ho hinv]
  cases hi : o.is_initialized_ with
  | false => simp
  | true =>
    obtain ⟨v, hv, -⟩ := hinv.occupied hi
    simp [World.get, ho, hv]

/-- C1 at a concrete input: `Value()` on the container of `natWorld` that holds 7. -/
theorem Value_raises_iff_empty_witness :
    natWorld.objs 0 = some (Optional.holding 0 7) ∧ (Optional.holding 0 7).Inv 0 ∧
    (Value_const 0 natWorld : World Nat × Outcome String Addr).2 = .ret 0 ∧
    (Value_const 0 natWorld : World Nat × Outcome String Addr).1.get 0 = some 7 :=
  have h := Value_raises_iff_empty natWorld 0 (Optional.holding 0 7) rfl (by decide)
    Value_const (Or.inr (Or.inl rfl))
  ⟨rfl, by decide, (h.2.1 rfl).1, (h.2.1 rfl).2.1⟩

/-! ## Construction from a value -/

/-- C2: when copying `v` (respectively moving from `v`) completes with a value equal to
`v`, the container constructed from `v` by copy (respectively by move) exists, reports
`HasValue() == true`, and `Value()` returns, without raising, a reference to its own
buffer, which holds `v`. -/
theorem construct_from_value_roundtrip (ops : TypeOps T A E) (w : World T) (this : Addr)
    (v : T) (hc : ops.copyCtor v = .ok v) (hm : (ops.moveCtor v).1 = .ok v) :
    ((Optional_const_T ops this v w).2 = .ret () ∧
      (HasValue this (Optional_const_T ops this v w).1 : World T × Outcome E Bool).2
        = .ret true ∧
      (Value this (Optional_const_T ops this v w).1 : World T × Outcome E Addr).2
        = .ret this ∧
      (Optional_const_T ops this v w).1.get this = some v) ∧
    ((Optional_rvalue_T ops this v w).2 = .ret () ∧
      (HasValue this (Optional_rvalue_T ops this v w).1 : World T × Outcome E Bool).2
        = .ret true ∧
      (Value this (Optional_rvalue_T ops this v w).1 : World T × Outcome E Addr).2
        = .ret this ∧
      (Optional_rvalue_T ops this v w).1.get this = some v) := by
  have hobj : ∀ es, ((w.put this (some ⟨some v, some this, true⟩)).logs es).objs this
      = some ⟨some v, some this, true⟩ := by
    intro es
    simp [World.logs_objs, World.put_objs_same]
  have hinv2 : Optional.Inv (⟨some v, some this, true⟩ : Optional T) this := by
    simp [Optional.Inv]
  rw [Optional_const_T_eval, Optional_rvalue_T_eval]
  simp only [hc, hm]
  refine ⟨⟨trivial, ?_, ?_, ?_⟩, ⟨trivial, ?_, ?_, ?_⟩⟩
  · rw [HasValue_eval _ this _ (hobj _)]
  · rw [Value_eval _ this _ (hobj _) hinv2]
    simp
  · simp [World.get_logs, World.get_put_same]
  · rw [HasValue_eval _ this _ (hobj _)]
  · rw [Value_eval _ this _ (hobj _) hinv2]
    simp
  · simp [World.get_logs, World.get_put_same]

/-- C2 at a concrete input: a container constructed from 7 by copy and by move. -/
theorem construct_from_value_roundtrip_witness :
    natOps.copyCtor 7 = .ok 7 ∧ (natOps.moveCtor 7).1 = .ok 7 ∧
    (HasValue 0 (Optional_const_T natOps 0 7 World.empty).1 :
      World Nat × Outcome String Bool).2 = .ret true ∧
    (Value 0 (Optional_const_T natOps 0 7 World.empty).1 :
      World Nat × Outcome String Addr).2 = .ret 0 ∧
    (Optional_const_T natOps 0 7 World.empty).1.get 0 = some 7 ∧
    (Value 0 (Optional_rvalue_T natOps 0 7 World.empty).1 :
      World Nat × Outcome String Addr).2 = .ret 0 ∧
    (Optional_rvalue_T natOps 0 7 World.empty).1.get 0 = some 7 :=
  have h := construct_from_value_roundtrip natOps World.empty 0 7 rfl rfl
  ⟨rfl, rfl, h.1.2.1, h.1.2.2.1, h.1.2.2.2, h.2.2.2.1, h.2.2.2.2⟩

/-! ## Reset and Emplace -/

/-- C3: on a container that satisfies the class invariant (every state the member
functions produce does), `Reset()` returns normally, `HasValue()` is false immediately
afterwards, and a following `Value()`, in each of its forms, raises `BadOptionalAccess`. -/
theorem HasValue_false_after_Reset (w : World T) (this : Addr) (o : Optional T)
    (ho : w.objs this = some o) (hinv : o.Inv this) :
    (Reset this w : World T × Outcome E Unit).2 = .ret () ∧
    (HasValue this (Reset this w : World T × Outcome E Unit).1 :
      World T × Outcome E Bool).2 = .ret false ∧
    (Value this (Reset this w : World T × Outcome E Unit).1 :
      World T × Outcome E Addr).2 = .raise .BadOptionalAccess ∧
    (Value_const this (Reset this w : World T × Outcome E Unit).1 :
      World T × Outcome E Addr).2 = .raise .BadOptionalAccess ∧
    (Value_rvalue this (Reset this w : World T × Outcome E Unit).1 :
      World T × Outcome E Addr).2 = .raise .BadOptionalAccess := by
  rw [Value_const_eq, Value_rvalue_eq, Reset_eval w this o ho hinv]
  cases hi : o.is_initialized_ with
  | false =>
    simp [HasValue_eval w this o ho, Value_eval w this o ho hinv, hi]
  | true =>
    have hobj : ((w.put this (some { o with data_ := none, is_initialized_ := false })).logs
        [Event.destroy this]).objs this
          = some { o with data_ := none, is_initialized_ := false } := by
      simp [World.logs_objs, World.put_objs_same]
    have hinv2 : Optional.Inv
        ({ o with data_ := none, is_initialized_ := false } : Optional T) this := by
      simp [Optional.Inv]
    simp [HasValue_eval _ this _ hobj, Value_eval _ this _ hobj hinv2]

/-- C3 at a concrete input: `Reset()` on the container of `natWorld` that holds 7. -/
theorem HasValue_false_after_Reset_witness :
    natWorld.objs 0 = some (Optional.holding 0 7) ∧ (Optional.holding 0 7).Inv 0 ∧
    (HasValue 0 (Reset 0 natWorld : World Nat × Outcome String Unit).1 :
      World Nat × Outcome String Bool).2 = .ret false ∧
    (Value 0 (Reset 0 natWorld : World Nat × Outcome String Unit).1 :
      World Nat × Outcome String Addr).2 = .raise .BadOptionalAccess :=
  have h := HasValue_false_after_Reset natWorld 0 (Optional.holding 0 7) rfl (by decide)
  ⟨rfl, by decide, h.2.1, h.2.2.1⟩

/-- C4: on a container that satisfies the class invariant, empty or occupied, when
`T(args...)` completes with the value `v`, `Emplace(args...)` returns normally, the
container is occupied afterwards, the returned reference is the container's own buffer,
which holds `v`, and a following `Value()` returns that same reference without raising. -/
theorem Emplace_occupied_with_constructed (ops : TypeOps T A E) (w : World T) (this : Addr)
    (o : Optional T) (ho : w.objs this = some o) (hinv : o.Inv this) (args : A) (v : T)
    (hc : ops.ctor args = .ok v) :
    (Emplace ops this args w).2 = .ret this ∧
    (HasValue this (Emplace ops this args w).1 : World T × Outcome E Bool).2 = .ret true ∧
    (Emplace ops this args w).1.get this = some v ∧
    (Value this (Emplace ops this args w).1 : World T × Outcome E Addr) =
      ((Emplace ops this args w).1, .ret this) := by
  rw [Emplace_eval ops w this o ho hinv args]
  simp only [hc]
  have hobj : ∀ es, ((w.put this (some ⟨some v, some this, true⟩)).logs es).objs this
      = some ⟨some v, some this, true⟩ := by
    intro es
    simp [World.logs_objs, World.put_objs_same]
  have hinv2 : Optional.Inv (⟨some v, some this, true⟩ : Optional T) this := by
    simp [Optional.Inv]
  refine ⟨trivial, ?_, ?_, ?_⟩
  · rw [HasValue_eval _ this _ (hobj _)]
  · simp [World.get_logs, World.get_put_same]
  · rw [Value_eval _ this _ (hobj _) hinv2]
    simp

/-- C4 at the scenario of the specification: `Emplace(42)` on an empty `Optional<int>`. -/
theorem Emplace_occupied_with_constructed_witness :
    intWorld.objs 0 = some Optional.fresh ∧ (Optional.fresh : Optional Int).Inv 0 ∧
    intOps.ctor 42 = .ok 42 ∧
    (Emplace intOps 0 42 intWorld).2 = .ret 0 ∧
    (HasValue 0 (Emplace intOps 0 42 intWorld).1 : World Int × Outcome Unit Bool).2
      = .ret true ∧
    (Emplace intOps 0 42 intWorld).1.get 0 = some 42 ∧
    (Value 0 (Emplace intOps 0 42 intWorld).1 : World Int × Outcome Unit Addr) =
      ((Emplace intOps 0 42 intWorld).1, .ret 0) :=
  ⟨rfl, by decide, rfl,
    Emplace_occupied_with_constructed intOps intWorld 0 Optional.fresh rfl (by decide) 42 42
      rfl⟩

/-- C5: on a container that satisfies the class invariant, `Emplace` on an occupied
container makes exactly two calls to `T`, in this order: the destructor of the contained
value, then the constructor from the arguments; on an empty container it makes exactly
one call, the constructor.  No assignment of `T` is called, whether or not the
constructor throws. -/
theorem Emplace_calls (ops : TypeOps T A E) (w : World T) (this : Addr)
    (o : Optional T) (ho : w.objs this = some o) (hinv : o.Inv this) (args : A) :
    (o.is_initialized_ = true →
      (Emplace ops this args w).1.trace = w.trace ++ [.destroy this, .construct this]) ∧
    (o.is_initialized_ = false →
      (Emplace ops this args w).1.trace = w.trace ++ [.construct this]) := by
  rw [Emplace_eval ops w this o ho hinv args]
  constructor <;> intro hi <;> cases hc : ops.ctor args <;>
    simp [hi, World.logs_trace, World.put_trace]

/-- C5 at a concrete input: `Emplace(9)` on the container of `natWorld` that holds 7, and
on the empty one. -/
theorem Emplace_calls_witness :
    natWorld.objs 0 = some (Optional.holding 0 7) ∧ (Optional.holding 0 7).Inv 0 ∧
    (Emplace natOps 0 9 natWorld).1.trace = natWorld.trace ++ [.destroy 0, .construct 0] :=
  ⟨rfl, by decide,
    (Emplace_calls natOps natWorld 0 (Optional.holding 0 7) rfl (by decide) 9).1 rfl⟩

/-! ## Construction and assignment from another container -/

/-- C6: assignment between two distinct containers that satisfy the class invariant, when
copying (moving) the source value completes with an equal value.  In the copy and in the
move form the call returns normally, the destination's `HasValue()` equals the source's
occupancy before the call and its buffer holds what the source's buffer held; when that
is a value, `Value()` on the destination returns a reference to it.  The one call made to
`T` is: an assignment to the destination's value when both were occupied, a construction
in the destination's buffer when only the source was, the destructor of the destination's
value when only the destination was, and none (nothing changes) when both were empty.
The copy form leaves the source container as it was. -/
theorem assign_container_mirrors (ops : TypeOps T A E) (w : World T) (dst src : Addr)
    (d s : Optional T) (hne : dst ≠ src)
    (hd : w.objs dst = some d) (hs : w.objs src = some s)
    (hdi : d.Inv dst) (hsi : s.Inv src)
    (hcopy : ∀ sv, s.data_ = some sv → ops.CopyOK sv)
    (hmove : ∀ sv, s.data_ = some sv → ops.MoveOK sv) :
    ((operator_assign_const_Optional ops dst src w).2 = .ret () ∧
      (HasValue dst (operator_assign_const_Optional ops dst src w).1 :
        World T × Outcome E Bool).2 = .ret s.is_initialized_ ∧
      (operator_assign_const_Optional ops dst src w).1.get dst = s.data_ ∧
      (s.is_initialized_ = true →
        (Value dst (operator_assign_const_Optional ops dst src w).1 :
          World T × Outcome E Addr).2 = .ret dst) ∧
      (operator_assign_const_Optional ops dst src w).1.objs src = some s ∧
      (operator_assign_const_Optional ops dst src w).1.trace = w.trace ++
        (match s.is_initialized_, d.is_initialized_ with
          | true, true => [.copyAssign dst]
          | true, false => [.copyConstruct dst]
          | false, true => [.destroy dst]
          | false, false => []) ∧
      (s.is_initialized_ = false → d.is_initialized_ = false →
        (operator_assign_const_Optional ops dst src w).1 = w)) ∧
    ((operator_assign_rvalue_Optional ops dst src w).2 = .ret () ∧
      (HasValue dst (operator_assign_rvalue_Optional ops dst src w).1 :
        World T × Outcome E Bool).2 = .ret s.is_initialized_ ∧
      (operator_assign_rvalue_Optional ops dst src w).1.get dst = s.data_ ∧
      (s.is_initialized_ = true →
        (Value dst (operator_assign_rvalue_Optional ops dst src w).1 :
          World T × Outcome E Addr).2 = .ret dst) ∧
      (operator_assign_rvalue_Optional ops dst src w).1.trace = w.trace ++
        (match s.is_initialized_, d.is_initialized_ with
          | true, true => [.moveAssign dst]
          | true, false => [.moveConstruct dst]
          | false, true => [.destroy dst]
          | false, false => []) ∧
      (s.is_initialized_ = false → d.is_initialized_ = false →
        (operator_assign_rvalue_Optional ops dst src w).1 = w)) := by
  have hne2 : src ≠ dst := fun h => hne h.symm
  rw [operator_assign_const_Optional_eval ops w dst src d s hne hd hs hdi hsi,
    operator_assign_rvalue_Optional_eval ops w dst src d s hne hd hs hdi hsi]
  have hinv2 : ∀ v : T, Optional.Inv (⟨some v, some dst, true⟩ : Optional T) dst := by
    intro v
    simp [Optional.Inv]
  cases hsd : s.data_ with
  | none =>
    have hsf : s.is_initialized_ = false := hsi.flag_false hsd
    cases hdd : d.data_ with
    | none =>
      have hdf : d.is_initialized_ = false := hdi.flag_false hdd
      simp [hsf, hdf, HasValue_eval w dst d hd, World.get, hd, hdd, hs]
    | some dv =>
      have hdt : d.is_initialized_ = true := hdi.flag_true hdd
      simp [hsf, hdt, HasValue_put_logs, World.get_logs,
        World.get_put_same, World.logs_objs, World.put_objs_other _ _ _ _ hne2, hs,
        World.logs_trace, World.put_trace]
  | some sv =>
    have hst : s.is_initialized_ = true := hsi.flag_true hsd
    have hc := hcopy sv hsd
    have hm := hmove sv hsd
    cases hdd : d.data_ with
    | none =>
      have hdf : d.is_initialized_ = false := hdi.flag_false hdd
      simp [hst, hdf, hc.1, hm.1, HasValue_put_logs,
        Value_put_logs _ dst _ _ (hinv2 sv), World.get_logs,
        World.get_put_same, World.logs_objs, World.put_objs_other _ _ _ _ hne2, hs,
        World.logs_trace, World.put_trace]
    | some dv =>
      have hdt : d.is_initialized_ = true := hdi.flag_true hdd
      simp [hst, hdt, hc.2 dv, (hm.2 dv).1, (hm.2 dv).2,
        HasValue_put_logs,
        Value_put_logs _ dst _ _ (hinv2 sv), World.get_logs,
        World.get_put_same, World.logs_objs, World.put_objs_other _ _ _ _ hne2, hs,
        World.logs_trace, World.put_trace]

/-- C6 at the scenario of the specification: `a` holds a value, `b` is empty, and `a` is
copy-assigned into `b`. -/
theorem assign_container_mirrors_witness :
    (1 : Addr) ≠ 0 ∧ natWorld.objs 1 = some Optional.fresh ∧
    natWorld.objs 0 = some (Optional.holding 0 7) ∧
    (Optional.fresh : Optional Nat).Inv 1 ∧ (Optional.holding 0 7).Inv 0 ∧
    (HasValue 1 (operator_assign_const_Optional natOps 1 0 natWorld).1 :
      World Nat × Outcome String Bool).2 = .ret true ∧
    (operator_assign_const_Optional natOps 1 0 natWorld).1.get 1 = some 7 ∧
    (operator_assign_const_Optional natOps 1 0 natWorld).1.objs 0
      = some (Optional.holding 0 7) :=
  have h := assign_container_mirrors natOps natWorld 1 0 Optional.fresh (Optional.holding 0 7)
    (by decide) rfl rfl (by decide) (by decide)
    (fun _ _ => ⟨rfl, fun _ => rfl⟩) (fun _ _ => ⟨rfl, fun _ => ⟨rfl, rfl⟩⟩)
  ⟨by decide, rfl, rfl, by decide, by decide, h.1.2.1, h.1.2.2.1, h.1.2.2.2.2.1⟩

/-- C7: a container newly created at `this` from another container `src` that satisfies
the class invariant, by copy or by move, when copying (moving) the source value completes
with an equal value: the construction returns normally, the new container's `HasValue()`
equals the source's occupancy before the construction and its buffer holds what the
source's buffer held; `Value()` on it returns a reference to that value when the source
was occupied and raises `BadOptionalAccess` when the source was empty.  The copy form
leaves the source container as it was. -/
theorem construct_from_container_mirrors (ops : TypeOps T A E) (w : World T)
    (this src : Addr) (s : Optional T) (hne : this ≠ src)
    (hs : w.objs src = some s) (hsi : s.Inv src)
    (hcopy : ∀ sv, s.data_ = some sv → ops.copyCtor sv = .ok sv)
    (hmove : ∀ sv, s.data_ = some sv → (ops.moveCtor sv).1 = .ok sv) :
    ((Optional_const_Optional ops this src w).2 = .ret () ∧
      (HasValue this (Optional_const_Optional ops this src w).1 :
        World T × Outcome E Bool).2 = .ret s.is_initialized_ ∧
      (Optional_const_Optional ops this src w).1.get this = s.data_ ∧
      (Value this (Optional_const_Optional ops this src w).1 :
        World T × Outcome E Addr).2 =
          (if s.is_initialized_ then .ret this else .raise .BadOptionalAccess) ∧
      (Optional_const_Optional ops this src w).1.objs src = some s) ∧
    ((Optional_rvalue_Optional ops this src w).2 = .ret () ∧
      (HasValue this (Optional_rvalue_Optional ops this src w).1 :
        World T × Outcome E Bool).2 = .ret s.is_initialized_ ∧
      (Optional_rvalue_Optional ops this src w).1.get this = s.data_ ∧
      (Value this (Optional_rvalue_Optional ops this src w).1 :
        World T × Outcome E Addr).2 =
          (if s.is_initialized_ then .ret this else .raise .BadOptionalAccess)) := by
  have hne2 : src ≠ this := fun h => hne h.symm
  rw [Optional_const_Optional_eval ops w this src s hne hs hsi,
    Optional_rvalue_Optional_eval ops w this src s hne hs hsi]
  cases hsd : s.data_ with
  | none =>
    have hsf : s.is_initialized_ = false := hsi.flag_false hsd
    simp [hsf, HasValue_put, Value_put _ this _ (Optional.fresh_Inv this),
      Optional.fresh_is_initialized, World.get_put_same, World.put_objs_other _ _ _ _ hne2, hs]
    rfl
  | some sv =>
    have hst : s.is_initialized_ = true := hsi.flag_true hsd
    simp [hst, hcopy sv hsd, hmove sv hsd, HasValue_put_logs,
      Value_put_logs _ this _ _ (Optional.Inv_occupied sv this), World.get_logs,
      World.get_put_same, World.logs_objs, World.put_objs_other _ _ _ _ hne2, hs]

/-- C7 at a concrete input: a container copy-constructed at address 2 from the container
of `natWorld` that holds 7. -/
theorem construct_from_container_mirrors_witness :
    (2 : Addr) ≠ 0 ∧ natWorld.objs 0 = some (Optional.holding 0 7) ∧
    (Optional.holding 0 7).Inv 0 ∧
    (HasValue 2 (Optional_const_Optional natOps 2 0 natWorld).1 :
      World Nat × Outcome String Bool).2 = .ret true ∧
    (Optional_const_Optional natOps 2 0 natWorld).1.get 2 = some 7 ∧
    (Optional_rvalue_Optional natOps 2 0 natWorld).1.get 2 = some 7 :=
  have h := construct_from_container_mirrors natOps natWorld 2 0 (Optional.holding 0 7)
    (by decide) rfl (by decide) (fun _ _ => rfl) (fun _ _ => rfl)
  ⟨by decide, rfl, by decide, h.1.2.1, h.1.2.2.1, h.2.2.2.1⟩

/-- C8: moving from an occupied container `a` that satisfies the class invariant and
holds `v`, when moving from `v` completes with an equal value.  After move-constructing a
container at any other address `n` from `a` (no container need exist at `n`), and after
move-assigning `a` into a distinct existing container `b` (empty or occupied), the
destination is occupied and its buffer holds `v`, `a.HasValue()` is still true, `a`'s
buffer holds the value that the move operation of `T` left there, and the only call made
to `T` is that move operation on the destination's storage: the destructor was not called
on `a`'s storage. -/
theorem move_keeps_source_occupied (ops : TypeOps T A E) (w : World T) (a b n : Addr)
    (oa ob : Optional T) (v : T) (hn : n ≠ a) (hne : b ≠ a)
    (ha : w.objs a = some oa) (hai : oa.Inv a) (hav : oa.data_ = some v)
    (hb : w.objs b = some ob) (hbi : ob.Inv b) (hm : ops.MoveOK v) :
    ((Optional_rvalue_Optional ops n a w).2 = .ret () ∧
      (HasValue n (Optional_rvalue_Optional ops n a w).1 : World T × Outcome E Bool).2
        = .ret true ∧
      (Optional_rvalue_Optional ops n a w).1.get n = some v ∧
      (HasValue a (Optional_rvalue_Optional ops n a w).1 : World T × Outcome E Bool).2
        = .ret true ∧
      (Optional_rvalue_Optional ops n a w).1.get a = some (ops.moveCtor v).2 ∧
      (Optional_rvalue_Optional ops n a w).1.trace = w.trace ++ [.moveConstruct n] ∧
      (Optional_rvalue_Optional ops n a w).1.trace.count (.destroy a)
        = w.trace.count (.destroy a)) ∧
    ((operator_assign_rvalue_Optional ops b a w).2 = .ret () ∧
      (HasValue b (operator_assign_rvalue_Optional ops b a w).1 : World T × Outcome E Bool).2
        = .ret true ∧
      (operator_assign_rvalue_Optional ops b a w).1.get b = some v ∧
      (HasValue a (operator_assign_rvalue_Optional ops b a w).1 : World T × Outcome E Bool).2
        = .ret true ∧
      (operator_assign_rvalue_Optional ops b a w).1.get a =
        (match ob.data_ with
          | some bv => some (ops.moveAssign bv v).1.2
          | none => some (ops.moveCtor v).2) ∧
      (operator_assign_rvalue_Optional ops b a w).1.trace = w.trace ++
        [if ob.is_initialized_ then .moveAssign b else .moveConstruct b] ∧
      (operator_assign_rvalue_Optional ops b a w).1.trace.count (.destroy a)
        = w.trace.count (.destroy a)) := by
  have hobj : ∀ (c : Addr) (_ : c ≠ a) (w1 : World T) (x y : Optional T) (es : List Event),
      (((w1.put a (some x)).put c (some y)).logs es).objs a = some x := by
    intro c hc w1 x y es
    simp [World.logs_objs, World.put_objs_other _ _ _ _ (Ne.symm hc), World.put_objs_same]
  rw [Optional_rvalue_Optional_eval ops w n a oa hn ha hai,
    operator_assign_rvalue_Optional_eval ops w b a ob oa hne hb ha hbi hai]
  simp only [hav, hm.1]
  refine ⟨⟨trivial, ?_, ?_, ?_, ?_, ?_, ?_⟩, ?_⟩
  · rw [HasValue_put_logs]
  · simp [World.get_logs, World.get_put_same]
  · rw [HasValue_eval _ a _ (hobj n hn _ _ _ _)]
  · simp [World.get, hobj n hn]
  · simp [World.logs_trace, World.put_trace]
  · simp [World.logs_trace, World.put_trace]
  · cases hbd : ob.data_ with
    | none =>
      have hbf : ob.is_initialized_ = false := hbi.flag_false hbd
      simp only [hm.1, hbf]
      refine ⟨trivial, ?_, ?_, ?_, ?_, ?_, ?_⟩
      · rw [HasValue_put_logs]
      · simp [World.get_logs, World.get_put_same]
      · rw [HasValue_eval _ a _ (hobj b hne _ _ _ _)]
      · simp [World.get, hobj b hne]
      · simp [World.logs_trace, World.put_trace]
      · simp [World.logs_trace, World.put_trace]
    | some bv =>
      have hbt : ob.is_initialized_ = true := hbi.flag_true hbd
      simp only [(hm.2 bv).1, (hm.2 bv).2, hbt]
      refine ⟨trivial, ?_, ?_, ?_, ?_, ?_, ?_⟩
      · rw [HasValue_put_logs]
      · simp [World.get_logs, World.get_put_same]
      · rw [HasValue_eval _ a _ (hobj b hne _ _ _ _)]
      · simp [World.get, hobj b hne]
      · simp [World.logs_trace, World.put_trace]
      · simp [World.logs_trace, World.put_trace]

/-- C8 at the scenario of the specification: `a` at address 0 holds 7; a new container is
move-constructed from it at address 2, where no container exists, and `a` is move-assigned
into the empty `b` at address 1.  The move of `natOps` leaves 0 in the source, which stays
occupied. -/
theorem move_keeps_source_occupied_witness :
    natWorld.objs 2 = none ∧ (2 : Addr) ≠ 0 ∧ (1 : Addr) ≠ 0 ∧
    natWorld.objs 0 = some (Optional.holding 0 7) ∧
    (Optional.holding 0 7).Inv 0 ∧ natWorld.objs 1 = some Optional.fresh ∧
    (Optional.fresh : Optional Nat).Inv 1 ∧ natOps.MoveOK 7 ∧
    (Optional_rvalue_Optional natOps 2 0 natWorld).2 = .ret () ∧
    (Optional_rvalue_Optional natOps 2 0 natWorld).1.get 2 = some 7 ∧
    (HasValue 0 (Optional_rvalue_Optional natOps 2 0 natWorld).1 :
      World Nat × Outcome String Bool).2 = .ret true ∧
    (Optional_rvalue_Optional natOps 2 0 natWorld).1.get 0 = some 0 ∧
    (Optional_rvalue_Optional natOps 2 0 natWorld).1.trace
      = natWorld.trace ++ [.moveConstruct 2] ∧
    (operator_assign_rvalue_Optional natOps 1 0 natWorld).1.get 1 = some 7 ∧
    (HasValue 0 (operator_assign_rvalue_Optional natOps 1 0 natWorld).1 :
      World Nat × Outcome String Bool).2 = .ret true :=
  have hm : natOps.MoveOK 7 := ⟨rfl, fun _ => ⟨rfl, rfl⟩⟩
  have h := move_keeps_source_occupied natOps natWorld 0 1 2 (Optional.holding 0 7)
    Optional.fresh 7 (by decide) (by decide) rfl (by decide) rfl rfl (by decide) hm
  ⟨rfl, by decide, by decide, rfl, by decide, rfl, by decide, hm, h.1.1, h.1.2.2.1,
    h.1.2.2.2.1, h.1.2.2.2.2.1, h.1.2.2.2.2.2.1, h.2.2.2.1, h.2.2.2.2.1⟩

/-- C9: assigning a container to itself, in the copy form and in the move form, returns
at once: the world (every member of every container and the trace of calls to `T`) is
exactly what it was, so occupancy and contained value are unchanged and no constructor,
destructor or assignment of `T` is called. -/
theorem self_assignment_noop (ops : TypeOps T A E) (w : World T) (this : Addr) :
    operator_assign_const_Optional ops this this w = (w, .ret ()) ∧
    operator_assign_rvalue_Optional ops this this w = (w, .ret ()) := by
  constructor
  · simp [operator_assign_const_Optional, Op.pure_apply]
  · simp [operator_assign_rvalue_Optional, Op.noexcept, Op.pure_apply]

/-! ## Assignment from a value -/

/-- C10: assignment from a value `v` to a container that satisfies the class invariant,
when copying and moving `v` complete with a value equal to `v`.  On an occupied container
the only call to `T` is one assignment to the contained value (no constructor, no
destructor); on an empty container the only call is one construction in the buffer.  In
both cases, and in the copy and the move form, the call returns normally, the container
is occupied afterwards and `Value()` returns a reference to its buffer, which holds `v`. -/
theorem assign_value_calls (ops : TypeOps T A E) (w : World T) (this : Addr)
    (o : Optional T) (ho : w.objs this = some o) (hinv : o.Inv this) (v : T)
    (hc : ops.CopyOK v) (hm : ops.MoveOK v) :
    ((operator_assign_const_T ops this v w).2 = .ret () ∧
      (HasValue this (operator_assign_const_T ops this v w).1 : World T × Outcome E Bool).2
        = .ret true ∧
      (Value this (operator_assign_const_T ops this v w).1 : World T × Outcome E Addr).2
        = .ret this ∧
      (operator_assign_const_T ops this v w).1.get this = some v ∧
      (operator_assign_const_T ops this v w).1.trace =
        w.trace ++ [if o.is_initialized_ then .copyAssign this else .copyConstruct this]) ∧
    ((operator_assign_rvalue_T ops this v w).2 = .ret () ∧
      (HasValue this (operator_assign_rvalue_T ops this v w).1 : World T × Outcome E Bool).2
        = .ret true ∧
      (Value this (operator_assign_rvalue_T ops this v w).1 : World T × Outcome E Addr).2
        = .ret this ∧
      (operator_assign_rvalue_T ops this v w).1.get this = some v ∧
      (operator_assign_rvalue_T ops this v w).1.trace =
        w.trace ++ [if o.is_initialized_ then .moveAssign this else .moveConstruct this]) := by
  have hobj : ∀ es, ((w.put this (some ⟨some v, some this, true⟩)).logs es).objs this
      = some ⟨some v, some this, true⟩ := by
    intro es
    simp [World.logs_objs, World.put_objs_same]
  have hinv2 : Optional.Inv (⟨some v, some this, true⟩ : Optional T) this := by
    simp [Optional.Inv]
  cases hi : o.is_initialized_ with
  | false =>
    rw [operator_assign_const_T_vacant ops w this o ho v hi,
      operator_assign_rvalue_T_vacant ops w this o ho v hi]
    simp only [hc.1, hm.1]
    refine ⟨⟨trivial, ?_, ?_, ?_, ?_⟩, ⟨trivial, ?_, ?_, ?_, ?_⟩⟩
    · rw [HasValue_eval _ this _ (hobj _)]
    · rw [Value_eval _ this _ (hobj _) hinv2]
      simp
    · simp [World.get_logs, World.get_put_same]
    · simp [World.logs_trace, World.put_trace]
    · rw [HasValue_eval _ this _ (hobj _)]
    · rw [Value_eval _ this _ (hobj _) hinv2]
      simp
    · simp [World.get_logs, World.get_put_same]
    · simp [World.logs_trace, World.put_trace]
  | true =>
    obtain ⟨dv, hd, -⟩ := hinv.occupied hi
    rw [operator_assign_const_T_occupied ops w this o ho hinv v dv hd,
      operator_assign_rvalue_T_occupied ops w this o ho hinv v dv hd]
    simp only [hc.2 dv, (hm.2 dv).1, (hm.2 dv).2]
    refine ⟨⟨trivial, ?_, ?_, ?_, ?_⟩, ⟨trivial, ?_, ?_, ?_, ?_⟩⟩
    · rw [HasValue_eval _ this _ (hobj _)]
    · rw [Value_eval _ this _ (hobj _) hinv2]
      simp
    · simp [World.get_logs, World.get_put_same]
    · simp [World.logs_trace, World.put_trace]
    · rw [HasValue_eval _ this _ (hobj _)]
    · rw [Value_eval _ this _ (hobj _) hinv2]
      simp
    · simp [World.get_logs, World.get_put_same]
    · simp [World.logs_trace, World.put_trace]

/-- C10 at a concrete input: the value 9 assigned to the container of `natWorld` that
holds 7 (one assignment) and to the empty one (one construction). -/
theorem assign_value_calls_witness :
    natWorld.objs 0 = some (Optional.holding 0 7) ∧ (Optional.holding 0 7).Inv 0 ∧
    natOps.CopyOK 9 ∧ natOps.MoveOK 9 ∧
    (operator_assign_const_T natOps 0 9 natWorld).1.get 0 = some 9 ∧
    (operator_assign_const_T natOps 0 9 natWorld).1.trace
      = natWorld.trace ++ [.copyAssign 0] ∧
    (operator_assign_rvalue_T natOps 0 9 natWorld).1.trace
      = natWorld.trace ++ [.moveAssign 0] :=
  have hc : natOps.CopyOK 9 := ⟨rfl, fun _ => rfl⟩
  have hm : natOps.MoveOK 9 := ⟨rfl, fun _ => ⟨rfl, rfl⟩⟩
  have h := assign_value_calls natOps natWorld 0 (Optional.holding 0 7) rfl (by decide) 9
    hc hm
  ⟨rfl, by decide, hc, hm, h.1.2.2.2.1, h.1.2.2.2.2, h.2.2.2.2.2⟩

/-! ## Reset twice, default construction -/

/-- C11: on a container that satisfies the class invariant, `Reset()` on an empty container
returns normally and changes nothing (no member, no call to `T`); for every state, a
second `Reset()` right after a first one returns normally and changes nothing, so the
members, the trace, and with it the number of destructor calls, are those of a single
`Reset()`, and `HasValue()` stays false. -/
theorem Reset_idempotent (w : World T) (this : Addr) (o : Optional T)
    (ho : w.objs this = some o) (hinv : o.Inv this) :
    (o.is_initialized_ = false → (Reset this w : World T × Outcome E Unit) = (w, .ret ())) ∧
    (Reset this (Reset this w : World T × Outcome E Unit).1 : World T × Outcome E Unit) =
      ((Reset this w : World T × Outcome E Unit).1, .ret ()) ∧
    (Reset this (Reset this w : World T × Outcome E Unit).1 :
      World T × Outcome E Unit).1.trace.count (.destroy this) =
      (Reset this w : World T × Outcome E Unit).1.trace.count (.destroy this) ∧
    (HasValue this (Reset this (Reset this w : World T × Outcome E Unit).1 :
      World T × Outcome E Unit).1 : World T × Outcome E Bool).2 = .ret false := by
  have hfirst : o.is_initialized_ = false →
      (Reset this w : World T × Outcome E Unit) = (w, .ret ()) := by
    intro hi
    rw [Reset_eval w this o ho hinv]
    simp [hi]
  have hsecond : (Reset this (Reset this w : World T × Outcome E Unit).1 :
      World T × Outcome E Unit) = ((Reset this w : World T × Outcome E Unit).1, .ret ()) := by
    cases hi : o.is_initialized_ with
    | false =>
      rw [hfirst hi]
      exact hfirst hi
    | true =>
      rw [Reset_eval w this o ho hinv]
      simp only [hi, if_true]
      rw [Reset_eval _ this { o with data_ := none, is_initialized_ := false }
        (by simp [World.logs_objs, World.put_objs_same]) (Optional.Inv_reset o this)]
      simp
  refine ⟨hfirst, hsecond, ?_, ?_⟩
  · rw [hsecond]
  · rw [hsecond, Reset_eval w this o ho hinv]
    cases hi : o.is_initialized_ with
    | false => simp [HasValue_eval w this o ho, hi]
    | true => simp [HasValue_put_logs]

/-- C11 at a concrete input: `Reset()` twice on the container of `natWorld` that holds 7;
the destructor is called once. -/
theorem Reset_idempotent_witness :
    natWorld.objs 0 = some (Optional.holding 0 7) ∧ (Optional.holding 0 7).Inv 0 ∧
    (Reset 0 (Reset 0 natWorld : World Nat × Outcome String Unit).1 :
      World Nat × Outcome String Unit) =
      ((Reset 0 natWorld : World Nat × Outcome String Unit).1, .ret ()) ∧
    (Reset 0 (Reset 0 natWorld : World Nat × Outcome String Unit).1 :
      World Nat × Outcome String Unit).1.trace.count (.destroy 0) = 1 :=
  have h := Reset_idempotent natWorld 0 (Optional.holding 0 7) rfl (by decide)
  ⟨rfl, by decide, h.2.1, h.2.2.1.trans (by decide)⟩

/-- C12: a container default-constructed at `this`, in any world: the construction returns
normally and calls no operation of `T` (the trace is unchanged), the members are
`value_ = nullptr`, `is_initialized_ = false` with an inert buffer, `HasValue()` returns
false and `Value()`, in each of its forms, raises `BadOptionalAccess`. -/
theorem default_constructed_is_empty (w : World T) (this : Addr) :
    (Optional_default this w : World T × Outcome E Unit).2 = .ret () ∧
    (Optional_default this w : World T × Outcome E Unit).1.objs this
      = some ⟨none, none, false⟩ ∧
    (Optional_default this w : World T × Outcome E Unit).1.trace = w.trace ∧
    (HasValue this (Optional_default this w : World T × Outcome E Unit).1 :
      World T × Outcome E Bool).2 = .ret false ∧
    (Value this (Optional_default this w : World T × Outcome E Unit).1 :
      World T × Outcome E Addr).2 = .raise .BadOptionalAccess ∧
    (Value_const this (Optional_default this w : World T × Outcome E Unit).1 :
      World T × Outcome E Addr).2 = .raise .BadOptionalAccess ∧
    (Value_rvalue this (Optional_default this w : World T × Outcome E Unit).1 :
      World T × Outcome E Addr).2 = .raise .BadOptionalAccess := by
  have h : (Optional_default this w : World T × Outcome E Unit)
      = (w.put this (some Optional.fresh), .ret ()) := by
    simp [Optional_default, Op.newObject, Op.pure_apply]
  rw [Value_const_eq, Value_rvalue_eq, h]
  refine ⟨rfl, ?_, rfl, ?_, ?_, ?_, ?_⟩
  · simp [World.put_objs_same, Optional.fresh]
  · simp [HasValue_put, Optional.fresh_is_initialized]
  · simp [Value_put _ this _ (Optional.fresh_Inv this), Optional.fresh_is_initialized]
  · simp [Value_put _ this _ (Optional.fresh_Inv this), Optional.fresh_is_initialized]
  · simp [Value_put _ this _ (Optional.fresh_Inv this), Optional.fresh_is_initialized]

end Claims

/-! ## Swap on two occupied containers -/

section SwapEval

variable {T A E : Type}

theorem Swap_eval (ops : TypeOps T A E) (w : World T) (this other : Addr)
    (o r : Optional T) (xv yv : T) (hne : this ≠ other)
    (ho : w.objs this = some o) (hr : w.objs other = some r)
    (hoi : o.Inv this) (hri : r.Inv other)
    (hx : o.data_ = some xv) (hy : r.data_ = some yv) :
    Swap ops this other w =
      match (ops.moveCtor xv).1 with
      | .error e =>
        ((w.put this (some ⟨some (ops.moveCtor xv).2, some this, true⟩)).logs
          [.tempMoveConstruct], .raise (.thrown e))
      | .ok tmp =>
        match (ops.moveAssign (ops.moveCtor xv).2 yv).2 with
        | some e =>
          (((w.put other (some ⟨some (ops.moveAssign (ops.moveCtor xv).2 yv).1.2,
              some other, true⟩)).put this
            (some ⟨some (ops.moveAssign (ops.moveCtor xv).2 yv).1.1, some this, true⟩)).logs
            [.tempMoveConstruct, .moveAssign this, .tempDestroy], .raise (.thrown e))
        | none =>
          (((w.put this (some ⟨some (ops.moveAssign (ops.moveCtor xv).2 yv).1.1,
              some this, true⟩)).put other
            (some ⟨some (ops.moveAssign (ops.moveAssign (ops.moveCtor xv).2 yv).1.2 tmp).1.1,
              some other, true⟩)).logs
            [.tempMoveConstruct, .moveAssign this, .moveAssign other, .tempDestroy],
            match (ops.moveAssign (ops.moveAssign (ops.moveCtor xv).2 yv).1.2 tmp).2 with
            | some e => .raise (.thrown e)
            | none => .ret ()) := by
  have hne2 : other ≠ this := fun h => hne h.symm
  have hot := hoi.flag_true hx
  have hrt := hri.flag_true hy
  have hop := hoi.2 hot
  have hrp := hri.2 hrt
  cases h1 : (ops.moveCtor xv).1 with
  | error e =>
    simp [Swap, stdSwap, Op.bind_apply, Op.bind, Op.self, ho, hr, hop, hrp, Op.deref,
      World.get, hx, hy, Op.log, Op.poke, Op.modify, World.logs_objs, World.logs_put, h1,
      Op.raise, hot]
  | ok tmp =>
    cases h2 : (ops.moveAssign (ops.moveCtor xv).2 yv).2 with
    | some e =>
      simp [Swap, stdSwap, Op.bind_apply, Op.bind, Op.self, ho, hr, hop, hrp, Op.deref,
        World.get, hx, hy, Op.log, Op.poke, Op.modify, World.logs_objs, World.logs_put, h1,
        h2, Op.raise, hot, hrt, Op.scopeExit, assignMoveFrom, assignMove, hne, hne2,
        World.put_objs_same, World.put_objs_other, World.put_put, World.put_shadow,
        World.logs_logs, Op.pure_apply]
    | none =>
      cases h3 : (ops.moveAssign (ops.moveAssign (ops.moveCtor xv).2 yv).1.2 tmp).2 <;>
      simp [Swap, stdSwap, Op.bind_apply, Op.bind, Op.self, ho, hr, hop, hrp, Op.deref,
        World.get, hx, hy, Op.log, Op.poke, Op.modify, World.logs_objs, World.logs_put, h1,
        h2, h3, Op.raise, hot, hrt, Op.scopeExit, assignMoveFrom, assignMove, hne, hne2,
        World.put_objs_same, World.put_objs_other, World.put_put, World.put_shadow,
        World.logs_logs, Op.pure_apply]

end SwapEval

/-! ## Liveness of the buffers along the trace -/

section Liveness

variable {T A E : Type}



theorem World.live_logs (w : World T) (es : List Event) (a : Addr) :
    (w.logs es).live a = w.live a := rfl

theorem World.live_put_same (w : World T) (a : Addr) (o : Optional T) :
    (w.put a (some o)).live a = o.data_.isSome := by
  simp [World.live, World.get_put_same]

theorem World.live_put_none (w : World T) (a : Addr) : (w.put a none).live a = false := by
  simp [World.live, World.get, World.put_objs_same]

theorem World.live_put_other (w : World T) (a b : Addr) (o : Option (Optional T))
    (h : b ≠ a) : (w.put a o).live b = w.live b := by
  simp [World.live, World.get_put_other _ _ _ _ h]

theorem World.live_of_objs {w : World T} {a : Addr} {o : Optional T}
    (h : w.objs a = some o) : w.live a = o.data_.isSome := by
  simp [World.live, World.get, h]

theorem World.live_of_none {w : World T} {a : Addr} (h : w.objs a = none) :
    w.live a = false := by
  simp [World.live, World.get, h]

theorem World.WF.live_eq_occupied {w : World T} (h : w.WF) (a : Addr) :
    w.live a = w.occupied a := by
  cases ho : w.objs a with
  | none => simp [World.live, World.get, World.occupied, ho]
  | some o =>
    have hi := (h a o ho).1
    simp only [World.live, World.get, World.occupied, ho]
    cases hd : o.data_.isSome <;> cases hf : o.is_initialized_ <;> simp_all

theorem runAt_nil (a : Addr) (l : Bool) : runAt a l [] = some l := rfl

theorem runAt_append (a : Addr) (l : Bool) (es fs : List Event) :
    runAt a l (es ++ fs) =
      match runAt a l es with
      | some m => runAt a m fs
      | none => none := by
  induction es generalizing l with
  | nil => simp [runAt]
  | cons e es ih =>
    simp only [List.cons_append, runAt]
    cases e.stepAt a l with
    | none => rfl
    | some m => exact ih m

theorem runAt_balance (a : Addr) (l m : Bool) (es : List Event)
    (h : runAt a l es = some m) :
    ctorCalls a es + l.toNat = dtorCalls a es + m.toNat := by
  induction es generalizing l with
  | nil =>
    simp only [runAt, Option.some.injEq] at h
    simp [ctorCalls, dtorCalls, h]
  | cons e es ih =>
    simp only [runAt] at h
    cases hs : e.stepAt a l with
    | none => simp [hs] at h
    | some k =>
      simp only [hs] at h
      have h2 := ih k h
      cases e <;> cases l <;>
        simp [Event.stepAt, ctorCalls, dtorCalls, List.countP_cons, Event.constructs,
          Event.destroys] at hs h2 ⊢ <;>
        (try split_ifs at hs) <;> (simp_all; try omega)

theorem Follows.refl (ops : TypeOps T A E) (w : World T) : Follows ops w w :=
  ⟨[], by simp, fun a => ⟨w.live a, rfl, fun _ => rfl⟩⟩

theorem Follows.of_eq (ops : TypeOps T A E) {w w2 : World T} (h : w2 = w) :
    Follows ops w w2 := by
  subst h
  exact Follows.refl ops _

theorem Follows.same_live (ops : TypeOps T A E) {w w2 : World T}
    (htr : w2.trace = w.trace) (hl : ∀ a, w2.live a = w.live a) : Follows ops w w2 :=
  ⟨[], by simp [htr], fun a => ⟨w.live a, rfl, fun _ => (hl a).symm⟩⟩

theorem Follows.at_one (ops : TypeOps T A E) {w w2 : World T} (a0 : Addr) (es : List Event)
    (htr : w2.trace = w.trace ++ es)
    (hframe : ∀ a, a ≠ a0 → w2.live a = w.live a)
    (hev : ∀ a, a ≠ a0 → ∀ l, runAt a l es = some l)
    (l0 : Bool) (hrun : runAt a0 (w.live a0) es = some l0)
    (hl : ops.CtorsComplete → l0 = w2.live a0) : Follows ops w w2 := by
  refine ⟨es, htr, fun a => ?_⟩
  by_cases ha : a = a0
  · subst ha
    exact ⟨l0, hrun, hl⟩
  · exact ⟨w.live a, hev a ha _, fun _ => (hframe a ha).symm⟩

theorem TypeOps.CtorsComplete.ctor_ok {ops : TypeOps T A E} (h : ops.CtorsComplete)
    {args : A} {e : E} (he : ops.ctor args = .error e) : False := by
  obtain ⟨v, hv⟩ := h.1 args
  rw [hv] at he
  cases he

theorem TypeOps.CtorsComplete.copy_ok {ops : TypeOps T A E} (h : ops.CtorsComplete)
    {s : T} {e : E} (he : ops.copyCtor s = .error e) : False := by
  obtain ⟨v, hv⟩ := h.2.1 s
  rw [hv] at he
  cases he

theorem TypeOps.CtorsComplete.move_ok {ops : TypeOps T A E} (h : ops.CtorsComplete)
    {s : T} {e : E} (he : (ops.moveCtor s).1 = .error e) : False := by
  obtain ⟨v, hv⟩ := h.2.2 s
  rw [hv] at he
  cases he

theorem Reset_follows (ops : TypeOps T A E) (w : World T) (this : Addr) (o : Optional T)
    (ho : w.objs this = some o) (hinv : o.Inv this) :
    Follows ops w (Reset this w : World T × Outcome E Unit).1 := by
  rw [Reset_eval w this o ho hinv]
  cases hi : o.is_initialized_ with
  | false => simpa using Follows.refl ops w
  | true =>
    obtain ⟨v, hv, -⟩ := hinv.occupied hi
    simp only [if_true]
    refine Follows.at_one ops this [.destroy this] rfl ?_ ?_ false ?_ ?_
    · intro a ha
      simp [World.live_logs, World.live_put_other _ _ _ _ ha]
    · intro a ha l
      simp [runAt, Event.stepAt, Ne.symm ha]
    · simp [runAt, Event.stepAt, World.live_of_objs ho, hv]
    · intro _
      simp [World.live_logs, World.live_put_same]

theorem Emplace_follows (ops : TypeOps T A E) (w : World T) (this : Addr) (o : Optional T)
    (ho : w.objs this = some o) (hinv : o.Inv this) (args : A) :
    Follows ops w (Emplace ops this args w).1 := by
  rw [Emplace_eval ops w this o ho hinv args]
  cases hc : ops.ctor args with
  | ok v =>
    simp only
    refine Follows.at_one ops this _ rfl ?_ ?_ true ?_ ?_
    · intro a ha
      simp [World.live_logs, World.live_put_other _ _ _ _ ha]
    · intro a ha l
      cases hi : o.is_initialized_ <;> simp [runAt, Event.stepAt, Ne.symm ha]
    · cases hi : o.is_initialized_ with
      | false => simp [runAt, Event.stepAt, World.live_of_objs ho, hinv.vacant hi]
      | true =>
        obtain ⟨x, hx, -⟩ := hinv.occupied hi
        simp [runAt, Event.stepAt, World.live_of_objs ho, hx]
    · intro _
      simp [World.live_logs, World.live_put_same]
  | error e =>
    simp only
    cases hi : o.is_initialized_ with
    | false =>
      simp only [Bool.false_eq_true, if_false]
      refine Follows.at_one ops this [.construct this] rfl ?_ ?_ true ?_ ?_
      · intro a ha
        simp [World.live_logs]
      · intro a ha l
        simp [runAt, Event.stepAt, Ne.symm ha]
      · simp [runAt, Event.stepAt, World.live_of_objs ho, hinv.vacant hi]
      · intro hC
        exact (hC.ctor_ok hc).elim
    | true =>
      obtain ⟨x, hx, -⟩ := hinv.occupied hi
      simp only [if_true]
      refine Follows.at_one ops this [.destroy this, .construct this] rfl ?_ ?_ true ?_ ?_
      · intro a ha
        simp [World.live_logs, World.live_put_other _ _ _ _ ha]
      · intro a ha l
        simp [runAt, Event.stepAt, Ne.symm ha]
      · simp [runAt, Event.stepAt, World.live_of_objs ho, hx]
      · intro hC
        exact (hC.ctor_ok hc).elim

theorem operator_assign_const_T_follows (ops : TypeOps T A E) (w : World T) (this : Addr)
    (o : Optional T) (ho : w.objs this = some o) (hinv : o.Inv this) (value : T) :
    Follows ops w (operator_assign_const_T ops this value w).1 := by
  cases hi : o.is_initialized_ with
  | false =>
    rw [operator_assign_const_T_vacant ops w this o ho value hi]
    cases hc : ops.copyCtor value with
    | ok v =>
      refine Follows.at_one ops this [.copyConstruct this] rfl ?_ ?_ true ?_ ?_
      · intro a ha
        simp [World.live_logs, World.live_put_other _ _ _ _ ha]
      · intro a ha l
        simp [runAt, Event.stepAt, Ne.symm ha]
      · simp [runAt, Event.stepAt, World.live_of_objs ho, hinv.vacant hi]
      · intro _
        simp [World.live_logs, World.live_put_same]
    | error e =>
      refine Follows.at_one ops this [.copyConstruct this] rfl ?_ ?_ true ?_ ?_
      · intro a ha
        simp [World.live_logs]
      · intro a ha l
        simp [runAt, Event.stepAt, Ne.symm ha]
      · simp [runAt, Event.stepAt, World.live_of_objs ho, hinv.vacant hi]
      · intro hC
        exact (hC.copy_ok hc).elim
  | true =>
    obtain ⟨dv, hd, -⟩ := hinv.occupied hi
    rw [operator_assign_const_T_occupied ops w this o ho hinv value dv hd]
    refine Follows.at_one ops this [.copyAssign this] rfl ?_ ?_ true ?_ ?_
    · intro a ha
      simp [World.live_logs, World.live_put_other _ _ _ _ ha]
    · intro a ha l
      simp [runAt, Event.stepAt, Ne.symm ha]
    · simp [runAt, Event.stepAt, World.live_of_objs ho, hd]
    · intro _
      simp [World.live_logs, World.live_put_same]

theorem operator_assign_rvalue_T_follows (ops : TypeOps T A E) (w : World T) (this : Addr)
    (o : Optional T) (ho : w.objs this = some o) (hinv : o.Inv this) (rhs : T) :
    Follows ops w (operator_assign_rvalue_T ops this rhs w).1 := by
  cases hi : o.is_initialized_ with
  | false =>
    rw [operator_assign_rvalue_T_vacant ops w this o ho rhs hi]
    cases hc : (ops.moveCtor rhs).1 with
    | ok v =>
      refine Follows.at_one ops this [.moveConstruct this] rfl ?_ ?_ true ?_ ?_
      · intro a ha
        simp [World.live_logs, World.live_put_other _ _ _ _ ha]
      · intro a ha l
        simp [runAt, Event.stepAt, Ne.symm ha]
      · simp [runAt, Event.stepAt, World.live_of_objs ho, hinv.vacant hi]
      · intro _
        simp [World.live_logs, World.live_put_same]
    | error e =>
      refine Follows.at_one ops this [.moveConstruct this] rfl ?_ ?_ true ?_ ?_
      · intro a ha
        simp [World.live_logs]
      · intro a ha l
        simp [runAt, Event.stepAt, Ne.symm ha]
      · simp [runAt, Event.stepAt, World.live_of_objs ho, hinv.vacant hi]
      · intro hC
        exact (hC.move_ok hc).elim
  | true =>
    obtain ⟨dv, hd, -⟩ := hinv.occupied hi
    rw [operator_assign_rvalue_T_occupied ops w this o ho hinv rhs dv hd]
    refine Follows.at_one ops this [.moveAssign this] rfl ?_ ?_ true ?_ ?_
    · intro a ha
      simp [World.live_logs, World.live_put_other _ _ _ _ ha]
    · intro a ha l
      simp [runAt, Event.stepAt, Ne.symm ha]
    · simp [runAt, Event.stepAt, World.live_of_objs ho, hd]
    · intro _
      simp [World.live_logs, World.live_put_same]

theorem Optional_default_follows (ops : TypeOps T A E) (w : World T) (this : Addr)
    (hn : w.objs this = none) :
    Follows ops w (Optional_default this w : World T × Outcome E Unit).1 := by
  have h : (Optional_default this w : World T × Outcome E Unit)
      = (w.put this (some Optional.fresh), .ret ()) := by
    simp [Optional_default, Op.newObject, Op.pure_apply]
  rw [h]
  refine Follows.same_live ops rfl fun a => ?_
  by_cases ha : a = this
  · subst ha
    simp [World.live_put_same, World.live_of_none hn, Optional.fresh]
  · simp [World.live_put_other _ _ _ _ ha]

theorem Optional_const_T_follows (ops : TypeOps T A E) (w : World T) (this : Addr)
    (hn : w.objs this = none) (value : T) :
    Follows ops w (Optional_const_T ops this value w).1 := by
  rw [Optional_const_T_eval]
  cases hc : ops.copyCtor value with
  | ok v =>
    refine Follows.at_one ops this [.copyConstruct this] rfl ?_ ?_ true ?_ ?_
    · intro a ha
      simp [World.live_logs, World.live_put_other _ _ _ _ ha]
    · intro a ha l
      simp [runAt, Event.stepAt, Ne.symm ha]
    · simp [runAt, Event.stepAt, World.live_of_none hn]
    · intro _
      simp [World.live_logs, World.live_put_same]
  | error e =>
    refine Follows.at_one ops this [.copyConstruct this] rfl ?_ ?_ true ?_ ?_
    · intro a ha
      simp [World.live_logs, World.live_put_other _ _ _ _ ha]
    · intro a ha l
      simp [runAt, Event.stepAt, Ne.symm ha]
    · simp [runAt, Event.stepAt, World.live_of_none hn]
    · intro hC
      exact (hC.copy_ok hc).elim

theorem Optional_rvalue_T_follows (ops : TypeOps T A E) (w : World T) (this : Addr)
    (hn : w.objs this = none) (value : T) :
    Follows ops w (Optional_rvalue_T ops this value w).1 := by
  rw [Optional_rvalue_T_eval]
  cases hc : (ops.moveCtor value).1 with
  | ok v =>
    refine Follows.at_one ops this [.moveConstruct this] rfl ?_ ?_ true ?_ ?_
    · intro a ha
      simp [World.live_logs, World.live_put_other _ _ _ _ ha]
    · intro a ha l
      simp [runAt, Event.stepAt, Ne.symm ha]
    · simp [runAt, Event.stepAt, World.live_of_none hn]
    · intro _
      simp [World.live_logs, World.live_put_same]
  | error e =>
    refine Follows.at_one ops this [.moveConstruct this] rfl ?_ ?_ true ?_ ?_
    · intro a ha
      simp [World.live_logs, World.live_put_other _ _ _ _ ha]
    · intro a ha l
      simp [runAt, Event.stepAt, Ne.symm ha]
    · simp [runAt, Event.stepAt, World.live_of_none hn]
    · intro hC
      exact (hC.move_ok hc).elim

theorem Optional_destructor_eval (w : World T) (this : Addr) (o : Optional T)
    (ho : w.objs this = some o) (hinv : o.Inv this) :
    (Optional_destructor this w : World T × Outcome E Unit) =
      ((w.put this none).logs (if o.is_initialized_ then [.destroy this] else []),
        .ret ()) := by
  cases hi : o.is_initialized_ <;>
  simp [Optional_destructor, Op.bind_apply, Op.bind, Reset_eval w this o ho hinv, hi,
    World.logs_put, World.put_put, World.logs_nil]

theorem Optional_destructor_follows (ops : TypeOps T A E) (w : World T) (this : Addr)
    (o : Optional T) (ho : w.objs this = some o) (hinv : o.Inv this) :
    Follows ops w (Optional_destructor this w : World T × Outcome E Unit).1 := by
  rw [Optional_destructor_eval w this o ho hinv]
  cases hi : o.is_initialized_ with
  | false =>
    refine Follows.same_live ops (by simp [World.logs_trace, World.put_trace]) fun a => ?_
    by_cases ha : a = this
    · subst ha
      simp [World.live_logs, World.live_put_none, World.live_of_objs ho, hinv.vacant hi]
    · simp [World.live_logs, World.live_put_other _ _ _ _ ha]
  | true =>
    obtain ⟨v, hv, -⟩ := hinv.occupied hi
    simp only [if_true]
    refine Follows.at_one ops this [.destroy this] rfl ?_ ?_ false ?_ ?_
    · intro a ha
      simp [World.live_logs, World.live_put_other _ _ _ _ ha]
    · intro a ha l
      simp [runAt, Event.stepAt, Ne.symm ha]
    · simp [runAt, Event.stepAt, World.live_of_objs ho, hv]
    · intro _
      simp [World.live_logs, World.live_put_none]

theorem World.live_put_keep (w : World T) (b a : Addr) (x : Optional T) (v : T)
    {r : Optional T} (hr : w.objs b = some r) (hrd : r.data_ = some v)
    (hx : x.data_.isSome = true) : (w.put b (some x)).live a = w.live a := by
  by_cases hab : a = b
  · subst hab
    simp [World.live_put_same, hx, World.live_of_objs hr, hrd]
  · simp [World.live_put_other _ _ _ _ hab]

theorem operator_assign_const_Optional_follows (ops : TypeOps T A E) (w : World T)
    (this rhs : Addr) (o r : Optional T)
    (ho : w.objs this = some o) (hr : w.objs rhs = some r)
    (hoi : o.Inv this) (hri : r.Inv rhs) :
    Follows ops w (operator_assign_const_Optional ops this rhs w).1 := by
  by_cases hne : this = rhs
  · subst hne
    exact Follows.of_eq ops (by simp [operator_assign_const_Optional, Op.pure_apply])
  rw [operator_assign_const_Optional_eval ops w this rhs o r hne ho hr hoi hri]
  cases hrd : r.data_ with
  | none =>
    cases hod : o.data_ with
    | none => exact Follows.refl ops w
    | some dv =>
      refine Follows.at_one ops this [.destroy this] rfl ?_ ?_ false ?_ ?_
      · intro a ha
        simp [World.live_logs, World.live_put_other _ _ _ _ ha]
      · intro a ha l
        simp [runAt, Event.stepAt, Ne.symm ha]
      · simp [runAt, Event.stepAt, World.live_of_objs ho, hod]
      · intro _
        simp [World.live_logs, World.live_put_same]
  | some sv =>
    cases hod : o.data_ with
    | none =>
      cases hc : ops.copyCtor sv with
      | ok v =>
        simp only [hc]
        refine Follows.at_one ops this [.copyConstruct this] rfl ?_ ?_ true ?_ ?_
        · intro a ha
          simp [World.live_logs, World.live_put_other _ _ _ _ ha]
        · intro a ha l
          simp [runAt, Event.stepAt, Ne.symm ha]
        · simp [runAt, Event.stepAt, World.live_of_objs ho, hod]
        · intro _
          simp [World.live_logs, World.live_put_same]
      | error e =>
        simp only [hc]
        refine Follows.at_one ops this [.copyConstruct this] rfl ?_ ?_ true ?_ ?_
        · intro a ha
          simp [World.live_logs]
        · intro a ha l
          simp [runAt, Event.stepAt, Ne.symm ha]
        · simp [runAt, Event.stepAt, World.live_of_objs ho, hod]
        · intro hC
          exact (hC.copy_ok hc).elim
    | some dv =>
      refine Follows.at_one ops this [.copyAssign this] rfl ?_ ?_ true ?_ ?_
      · intro a ha
        simp [World.live_logs, World.live_put_other _ _ _ _ ha]
      · intro a ha l
        simp [runAt, Event.stepAt, Ne.symm ha]
      · simp [runAt, Event.stepAt, World.live_of_objs ho, hod]
      · intro _
        simp [World.live_logs, World.live_put_same]

theorem operator_assign_rvalue_Optional_follows (ops : TypeOps T A E) (w : World T)
    (this rhs : Addr) (o r : Optional T)
    (ho : w.objs this = some o) (hr : w.objs rhs = some r)
    (hoi : o.Inv this) (hri : r.Inv rhs) :
    Follows ops w (operator_assign_rvalue_Optional ops this rhs w).1 := by
  by_cases hne : this = rhs
  · subst hne
    exact Follows.of_eq ops
      (by simp [operator_assign_rvalue_Optional, Op.noexcept, Op.pure_apply])
  have ho2 : ∀ x : Optional T, (w.put rhs (some x)).objs this = some o := by
    intro x
    rw [World.put_objs_other _ _ _ _ hne, ho]
  rw [operator_assign_rvalue_Optional_eval ops w this rhs o r hne ho hr hoi hri]
  cases hrd : r.data_ with
  | none =>
    cases hod : o.data_ with
    | none => exact Follows.refl ops w
    | some dv =>
      refine Follows.at_one ops this [.destroy this] rfl ?_ ?_ false ?_ ?_
      · intro a ha
        simp [World.live_logs, World.live_put_other _ _ _ _ ha]
      · intro a ha l
        simp [runAt, Event.stepAt, Ne.symm ha]
      · simp [runAt, Event.stepAt, World.live_of_objs ho, hod]
      · intro _
        simp [World.live_logs, World.live_put_same]
  | some sv =>
    cases hod : o.data_ with
    | none =>
      cases hc : (ops.moveCtor sv).1 with
      | ok v =>
        simp only [hc]
        refine Follows.at_one ops this [.moveConstruct this] rfl ?_ ?_ true ?_ ?_
        · intro a ha
          simp [World.live_logs, World.live_put_other _ _ _ _ ha,
            World.live_put_keep w rhs a _ sv hr hrd]
        · intro a ha l
          simp [runAt, Event.stepAt, Ne.symm ha]
        · simp [runAt, Event.stepAt, World.live_of_objs ho, hod]
        · intro _
          simp [World.live_logs, World.live_put_same]
      | error e =>
        simp only [hc]
        refine Follows.at_one ops this [.moveConstruct this] rfl ?_ ?_ true ?_ ?_
        · intro a ha
          simp [World.live_logs, World.live_put_keep w rhs a _ sv hr hrd]
        · intro a ha l
          simp [runAt, Event.stepAt, Ne.symm ha]
        · simp [runAt, Event.stepAt, World.live_of_objs ho, hod]
        · intro hC
          exact (hC.move_ok hc).elim
    | some dv =>
      refine Follows.at_one ops this [.moveAssign this] rfl ?_ ?_ true ?_ ?_
      · intro a ha
        simp [World.live_logs, World.live_put_other _ _ _ _ ha,
          World.live_put_keep w rhs a _ sv hr hrd]
      · intro a ha l
        simp [runAt, Event.stepAt, Ne.symm ha]
      · simp [runAt, Event.stepAt, World.live_of_objs ho, hod]
      · intro _
        simp [World.live_logs, World.live_put_same]

theorem Optional_const_Optional_follows (ops : TypeOps T A E) (w : World T)
    (this other : Addr) (r : Optional T) (hn : w.objs this = none)
    (hr : w.objs other = some r) (hri : r.Inv other) :
    Follows ops w (Optional_const_Optional ops this other w).1 := by
  have hne : this ≠ other := by
    intro h
    rw [h, hr] at hn
    cases hn
  rw [Optional_const_Optional_eval ops w this other r hne hr hri]
  cases hrd : r.data_ with
  | none =>
    refine Follows.same_live ops rfl fun a => ?_
    by_cases ha : a = this
    · subst ha
      simp [World.live_put_same, World.live_of_none hn, Optional.fresh]
    · simp [World.live_put_other _ _ _ _ ha]
  | some sv =>
    cases hc : ops.copyCtor sv with
    | ok v =>
      simp only [hc]
      refine Follows.at_one ops this [.copyConstruct this] rfl ?_ ?_ true ?_ ?_
      · intro a ha
        simp [World.live_logs, World.live_put_other _ _ _ _ ha]
      · intro a ha l
        simp [runAt, Event.stepAt, Ne.symm ha]
      · simp [runAt, Event.stepAt, World.live_of_none hn]
      · intro _
        simp [World.live_logs, World.live_put_same]
    | error e =>
      simp only [hc]
      refine Follows.at_one ops this [.copyConstruct this] rfl ?_ ?_ true ?_ ?_
      · intro a ha
        simp [World.live_logs, World.live_put_other _ _ _ _ ha]
      · intro a ha l
        simp [runAt, Event.stepAt, Ne.symm ha]
      · simp [runAt, Event.stepAt, World.live_of_none hn]
      · intro hC
        exact (hC.copy_ok hc).elim

theorem Optional_rvalue_Optional_follows (ops : TypeOps T A E) (w : World T)
    (this other : Addr) (r : Optional T) (hn : w.objs this = none)
    (hr : w.objs other = some r) (hri : r.Inv other) :
    Follows ops w (Optional_rvalue_Optional ops this other w).1 := by
  have hne : this ≠ other := by
    intro h
    rw [h, hr] at hn
    cases hn
  rw [Optional_rvalue_Optional_eval ops w this other r hne hr hri]
  cases hrd : r.data_ with
  | none =>
    refine Follows.same_live ops rfl fun a => ?_
    by_cases ha : a = this
    · subst ha
      simp [World.live_put_same, World.live_of_none hn, Optional.fresh]
    · simp [World.live_put_other _ _ _ _ ha]
  | some sv =>
    cases hc : (ops.moveCtor sv).1 with
    | ok v =>
      simp only [hc]
      refine Follows.at_one ops this [.moveConstruct this] rfl ?_ ?_ true ?_ ?_
      · intro a ha
        simp [World.live_logs, World.live_put_other _ _ _ _ ha,
          World.live_put_keep w other a _ sv hr hrd]
      · intro a ha l
        simp [runAt, Event.stepAt, Ne.symm ha]
      · simp [runAt, Event.stepAt, World.live_of_none hn]
      · intro _
        simp [World.live_logs, World.live_put_same]
    | error e =>
      simp only [hc]
      refine Follows.at_one ops this [.moveConstruct this] rfl ?_ ?_ true ?_ ?_
      · intro a ha
        simp [World.live_logs, World.live_put_other _ _ _ _ ha,
          World.live_put_keep w other a _ sv hr hrd]
      · intro a ha l
        simp [runAt, Event.stepAt, Ne.symm ha]
      · simp [runAt, Event.stepAt, World.live_of_none hn]
      · intro hC
        exact (hC.move_ok hc).elim

theorem Swap_preserves_WF (ops : TypeOps T A E) (w : World T) (this other : Addr)
    (o r : Optional T) (xv yv : T) (hne : this ≠ other)
    (ho : w.objs this = some o) (hr : w.objs other = some r)
    (hx : o.data_ = some xv) (hy : r.data_ = some yv) (h : w.WF) :
    (Swap ops this other w).1.WF := by
  rw [Swap_eval ops w this other o r xv yv hne ho hr (h this o ho) (h other r hr) hx hy]
  cases h1 : (ops.moveCtor xv).1 with
  | error e => exact (h.put_some (Optional.Inv_occupied _ this)).logs _
  | ok tmp =>
    cases h2 : (ops.moveAssign (ops.moveCtor xv).2 yv).2 with
    | some e =>
      exact ((h.put_some (Optional.Inv_occupied _ other)).put_some
        (Optional.Inv_occupied _ this)).logs _
    | none =>
      exact ((h.put_some (Optional.Inv_occupied _ this)).put_some
        (Optional.Inv_occupied _ other)).logs _

theorem Swap_follows (ops : TypeOps T A E) (w : World T) (this other : Addr)
    (o r : Optional T) (xv yv : T) (hne : this ≠ other)
    (ho : w.objs this = some o) (hr : w.objs other = some r)
    (hoi : o.Inv this) (hri : r.Inv other)
    (hx : o.data_ = some xv) (hy : r.data_ = some yv) :
    Follows ops w (Swap ops this other w).1 := by
  have hne2 : other ≠ this := fun h => hne h.symm
  have hlt : w.live this = true := by simp [World.live_of_objs ho, hx]
  have hlo : w.live other = true := by simp [World.live_of_objs hr, hy]
  rw [Swap_eval ops w this other o r xv yv hne ho hr hoi hri hx hy]
  cases h1 : (ops.moveCtor xv).1 with
  | error e =>
    refine ⟨[.tempMoveConstruct], rfl, fun a => ⟨w.live a, by simp [runAt, Event.stepAt], ?_⟩⟩
    intro _
    by_cases ha : a = this
    · subst ha
      simp [World.live_logs, World.live_put_same, hlt]
    · simp [World.live_logs, World.live_put_other _ _ _ _ ha]
  | ok tmp =>
    cases h2 : (ops.moveAssign (ops.moveCtor xv).2 yv).2 with
    | some e =>
      refine ⟨[.tempMoveConstruct, .moveAssign this, .tempDestroy], rfl, fun a => ?_⟩
      by_cases ha : a = this
      · subst ha
        exact ⟨true, by simp [runAt, Event.stepAt, hlt],
          fun _ => by simp [World.live_logs, World.live_put_same]⟩
      · refine ⟨w.live a, by simp [runAt, Event.stepAt, Ne.symm ha], fun _ => ?_⟩
        by_cases hb : a = other
        · subst hb
          simp [World.live_logs, World.live_put_other _ _ _ _ ha, World.live_put_same, hlo]
        · simp [World.live_logs, World.live_put_other _ _ _ _ ha,
            World.live_put_other _ _ _ _ hb]
    | none =>
      refine ⟨[.tempMoveConstruct, .moveAssign this, .moveAssign other, .tempDestroy], rfl,
        fun a => ?_⟩
      by_cases ha : a = this
      · subst ha
        exact ⟨true, by simp [runAt, Event.stepAt, hlt, hne2],
          fun _ => by
            simp [World.live_logs, World.live_put_other _ _ _ _ hne, World.live_put_same]⟩
      · by_cases hb : a = other
        · subst hb
          exact ⟨true, by simp [runAt, Event.stepAt, hlo, hne],
            fun _ => by simp [World.live_logs, World.live_put_same]⟩
        · exact ⟨w.live a, by simp [runAt, Event.stepAt, Ne.symm ha, Ne.symm hb],
            fun _ => by
              simp [World.live_logs, World.live_put_other _ _ _ _ ha,
                World.live_put_other _ _ _ _ hb]⟩

theorem Optional_destructor_preserves_WF (w : World T) (this : Addr) (h : w.WF) :
    (Optional_destructor this w : World T × Outcome E Unit).1.WF := by
  cases ho : w.objs this with
  | none => simpa [Optional_destructor, Reset, Op.bind_apply, Op.bind, Op.self, ho] using h
  | some o =>
    rw [Optional_destructor_eval w this o ho (h this o ho)]
    exact (h.put_none this).logs _

theorem operator_star_world (this : Addr) (w : World T) :
    (operator_star this w : World T × Outcome E Addr).1 = w := by
  cases ho : w.objs this with
  | none => simp [operator_star, Op.bind_apply, Op.bind, Op.self, ho]
  | some o =>
    cases hp : o.value_ with
    | none => simp [operator_star, Op.bind_apply, Op.bind, Op.self, ho, hp, Op.deref]
    | some a =>
      cases hg : w.get a <;>
      simp [operator_star, Op.bind_apply, Op.bind, Op.self, ho, hp, Op.deref, hg,
        Op.pure_apply]

theorem operator_star_const_eq (this : Addr) :
    (operator_star_const this : Op T E Addr) = operator_star this := rfl

theorem operator_star_rvalue_eq (this : Addr) :
    (operator_star_rvalue this : Op T E Addr) = operator_star this := rfl

theorem operator_arrow_world (this : Addr) (w : World T) :
    (operator_arrow this w : World T × Outcome E (Option Addr)).1 = w := by
  cases ho : w.objs this <;>
  simp [operator_arrow, Op.bind_apply, Op.bind, Op.self, ho, Op.pure_apply]

theorem operator_arrow_const_eq (this : Addr) :
    (operator_arrow_const this : Op T E (Option Addr)) = operator_arrow this := rfl

theorem World.occupied_iff {w : World T} {a : Addr} (h : w.occupied a = true) :
    ∃ o, w.objs a = some o ∧ o.is_initialized_ = true := by
  cases ho : w.objs a with
  | none => simp [World.occupied, ho] at h
  | some o => exact ⟨o, rfl, by simpa [World.occupied, ho] using h⟩

/-- Every in-contract call keeps the class invariant of every container. -/
theorem Call.exec_preserves_WF (ops : TypeOps T A E) (c : Call T A) (w : World T)
    (h : w.WF) (hc : c.InContract w) : (c.exec ops w).WF := by
  cases c with
  | defaultCtor this => exact Optional_default_preserves_WF this w h
  | fromValue this v => exact Optional_const_T_preserves_WF ops this v w h
  | fromRvalue this v => exact Optional_rvalue_T_preserves_WF ops this v w h
  | copyFrom this other => exact Optional_const_Optional_preserves_WF ops this other w h
  | moveFrom this other => exact Optional_rvalue_Optional_preserves_WF ops this other w h
  | destructor this => exact Optional_destructor_preserves_WF w this h
  | assignValue this v => exact operator_assign_const_T_preserves_WF ops this v w h
  | assignRvalue this rhs => exact operator_assign_rvalue_T_preserves_WF ops this rhs w h
  | assignFrom this rhs => exact operator_assign_const_Optional_preserves_WF ops this rhs w h
  | moveAssignFrom this rhs =>
    exact operator_assign_rvalue_Optional_preserves_WF ops this rhs w h
  | arrow this => simpa [Call.exec, operator_arrow_world] using h
  | arrowConst this =>
    simpa [Call.exec, operator_arrow_const_eq, operator_arrow_world] using h
  | star this => simpa [Call.exec, operator_star_world] using h
  | starConst this => simpa [Call.exec, operator_star_const_eq, operator_star_world] using h
  | starRvalue this =>
    simpa [Call.exec, operator_star_rvalue_eq, operator_star_world] using h
  | value this => simpa [Call.exec, Value_world] using h
  | valueConst this => simpa [Call.exec, Value_const_eq, Value_world] using h
  | valueRvalue this => simpa [Call.exec, Value_rvalue_eq, Value_world] using h
  | emplace this args => exact Emplace_preserves_WF ops this args w h
  | reset this => exact Reset_preserves_WF this w h
  | hasValue this => simpa [Call.exec, HasValue_world] using h
  | swap this other =>
    obtain ⟨hne, h1, h2⟩ := hc
    obtain ⟨o, ho, hi⟩ := World.occupied_iff h1
    obtain ⟨r, hr, hj⟩ := World.occupied_iff h2
    obtain ⟨xv, hx, -⟩ := (h this o ho).occupied hi
    obtain ⟨yv, hy, -⟩ := (h other r hr).occupied hj
    exact Swap_preserves_WF ops w this other o r xv yv hne ho hr hx hy h

/-- Every in-contract call makes only allowed calls to `T`. -/
theorem Call.exec_follows (ops : TypeOps T A E) (c : Call T A) (w : World T)
    (h : w.WF) (hc : c.InContract w) : Follows ops w (c.exec ops w) := by
  cases c with
  | defaultCtor this => exact Optional_default_follows ops w this hc
  | fromValue this v => exact Optional_const_T_follows ops w this hc v
  | fromRvalue this v => exact Optional_rvalue_T_follows ops w this hc v
  | copyFrom this other =>
    obtain ⟨r, hr⟩ := Option.isSome_iff_exists.mp hc.2
    exact Optional_const_Optional_follows ops w this other r hc.1 hr (h other r hr)
  | moveFrom this other =>
    obtain ⟨r, hr⟩ := Option.isSome_iff_exists.mp hc.2
    exact Optional_rvalue_Optional_follows ops w this other r hc.1 hr (h other r hr)
  | destructor this =>
    obtain ⟨o, ho⟩ := Option.isSome_iff_exists.mp hc
    exact Optional_destructor_follows ops w this o ho (h this o ho)
  | assignValue this v =>
    obtain ⟨o, ho⟩ := Option.isSome_iff_exists.mp hc
    exact operator_assign_const_T_follows ops w this o ho (h this o ho) v
  | assignRvalue this rhs =>
    obtain ⟨o, ho⟩ := Option.isSome_iff_exists.mp hc
    exact operator_assign_rvalue_T_follows ops w this o ho (h this o ho) rhs
  | assignFrom this rhs =>
    obtain ⟨o, ho⟩ := Option.isSome_iff_exists.mp hc.1
    obtain ⟨r, hr⟩ := Option.isSome_iff_exists.mp hc.2
    exact operator_assign_const_Optional_follows ops w this rhs o r ho hr (h this o ho)
      (h rhs r hr)
  | moveAssignFrom this rhs =>
    obtain ⟨o, ho⟩ := Option.isSome_iff_exists.mp hc.1
    obtain ⟨r, hr⟩ := Option.isSome_iff_exists.mp hc.2
    exact operator_assign_rvalue_Optional_follows ops w this rhs o r ho hr (h this o ho)
      (h rhs r hr)
  | arrow this => exact Follows.of_eq ops (operator_arrow_world this w)
  | arrowConst this => exact Follows.of_eq ops (operator_arrow_world this w)
  | star this => exact Follows.of_eq ops (operator_star_world this w)
  | starConst this => exact Follows.of_eq ops (operator_star_world this w)
  | starRvalue this => exact Follows.of_eq ops (operator_star_world this w)
  | value this => exact Follows.of_eq ops (Value_world this w)
  | valueConst this => exact Follows.of_eq ops (Value_world this w)
  | valueRvalue this => exact Follows.of_eq ops (Value_world this w)
  | emplace this args =>
    obtain ⟨o, ho⟩ := Option.isSome_iff_exists.mp hc
    exact Emplace_follows ops w this o ho (h this o ho) args
  | reset this =>
    obtain ⟨o, ho⟩ := Option.isSome_iff_exists.mp hc
    exact Reset_follows ops w this o ho (h this o ho)
  | hasValue this => exact Follows.of_eq ops (HasValue_world this w)
  | swap this other =>
    obtain ⟨hne, h1, h2⟩ := hc
    obtain ⟨o, ho, hi⟩ := World.occupied_iff h1
    obtain ⟨r, hr, hj⟩ := World.occupied_iff h2
    obtain ⟨xv, hx, -⟩ := (h this o ho).occupied hi
    obtain ⟨yv, hy, -⟩ := (h other r hr).occupied hj
    exact Swap_follows ops w this other o r xv yv hne ho hr (h this o ho) (h other r hr) hx hy

theorem Reachable.wf {ops : TypeOps T A E} {w : World T} (h : Reachable ops w) : w.WF := by
  induction h with
  | start => exact World.WF_empty
  | step c _ hc ih => exact Call.exec_preserves_WF ops c _ ih hc

theorem Reachable.replays {ops : TypeOps T A E} {w : World T} (h : Reachable ops w)
    (hC : ops.CtorsComplete) (a : Addr) : runAt a false w.trace = some (w.live a) := by
  induction h with
  | start => simp [World.empty, runAt, World.live, World.get]
  | @step w0 c hr hc ih =>
    obtain ⟨es, htr, hrun⟩ := Call.exec_follows ops c w0 hr.wf hc
    obtain ⟨l, hl, hfin⟩ := hrun a
    rw [htr, runAt_append, ih]
    simp only
    rw [hl, hfin hC]

theorem natWorld2_reachable : Reachable natOps natWorld2 :=
  Reachable.step (.assignValue 1 9)
    (Reachable.step (.defaultCtor 1) (Reachable.step (.fromValue 0 7) Reachable.start rfl) rfl)
    rfl

end Liveness

/-! ## Accounting for every call: no undefined behaviour, allowed calls, thrown constructors -/

section Accounting

variable {T A E R : Type}

theorem Event.foreign {a0 a : Addr} {e : Event} (h : e.about a0 = true) (ha : a ≠ a0)
    (l : Bool) : e.stepAt a l = some l ∧ e.constructs a = false := by
  cases e <;> simp [Event.about] at h <;>
    simp [Event.stepAt, Event.constructs, h, Ne.symm ha]

theorem lastConstructs_false (a : Addr) (es : List Event)
    (h : ∀ e ∈ es, e.constructs a = false) : lastConstructs a es = false := by
  induction es with
  | nil => rfl
  | cons e es ih =>
    cases es with
    | nil => simpa [lastConstructs] using h e (by simp)
    | cons e2 es2 =>
      simp only [lastConstructs]
      exact ih (fun x hx => h x (List.mem_cons_of_mem _ hx))

theorem runAt_foreign {a0 a : Addr} (es : List Event)
    (h : ∀ e ∈ es, e.about a0 = true) (ha : a ≠ a0) (l : Bool) :
    runAt a l es = some l := by
  induction es with
  | nil => rfl
  | cons e es ih =>
    simp only [runAt, (Event.foreign (h e (by simp)) ha l).1]
    exact ih (fun x hx => h x (List.mem_cons_of_mem _ hx))

theorem failedCtor_foreign {a0 a : Addr} (es : List Event)
    (h : ∀ e ∈ es, e.about a0 = true) (ha : a ≠ a0) (t : Bool) :
    failedCtor a es t = 0 := by
  have := lastConstructs_false a es (fun e he => (Event.foreign (h e he) ha false).2)
  simp [failedCtor, this]

theorem Accounts.at_buffer {w : World T} {res : World T × Outcome E R} (a0 : Addr)
    (es : List Event) (hdef : res.2 ≠ .undefined) (htr : res.1.trace = w.trace ++ es)
    (hframe : ∀ a, a ≠ a0 → res.1.live a = w.live a)
    (hab : ∀ e ∈ es, e.about a0 = true)
    (l0 : Bool) (hrun : runAt a0 (w.live a0) es = some l0)
    (hl : l0.toNat = (res.1.live a0).toNat + failedCtor a0 es res.2.threw) :
    Accounts w res := by
  refine ⟨hdef, es, htr, fun a => ?_⟩
  by_cases ha : a = a0
  · subst ha
    exact ⟨l0, hrun, hl⟩
  · exact ⟨w.live a, runAt_foreign es hab ha _, by
      rw [failedCtor_foreign es hab ha, hframe a ha]
      rfl⟩

theorem Accounts.same {w : World T} {res : World T × Outcome E R}
    (hdef : res.2 ≠ .undefined) (htr : res.1.trace = w.trace)
    (hl : ∀ a, res.1.live a = w.live a) : Accounts w res :=
  ⟨hdef, [], by simp [htr], fun a => ⟨w.live a, rfl, by simp [failedCtor, lastConstructs, hl a]⟩⟩

theorem Accounts.void {w : World T} {m : Op T E R} (h : Accounts w (m w)) :
    Accounts w (Op.void m w) := by
  obtain ⟨hdef, es, htr, hrun⟩ := h
  refine ⟨?_, es, htr, fun a => ?_⟩
  · intro hu
    apply hdef
    simp only [Op.void] at hu
    cases hm : (m w).2 <;> simp [hm, Outcome.forget] at hu ⊢
  · obtain ⟨l, hl, hc⟩ := hrun a
    refine ⟨l, hl, ?_⟩
    have ht : (Op.void m w).2.threw = (m w).2.threw := by
      simp only [Op.void]
      cases hm : (m w).2 with
      | ret r => rfl
      | raise x => cases x <;> rfl
      | terminate => rfl
      | undefined => rfl
    rw [ht]
    exact hc

theorem Reset_accounts (w : World T) (this : Addr) (o : Optional T)
    (ho : w.objs this = some o) (hinv : o.Inv this) :
    Accounts w (Reset this w : World T × Outcome E Unit) := by
  rw [Reset_eval w this o ho hinv]
  cases hi : o.is_initialized_ with
  | false => exact Accounts.same (by simp) (by simp) (by simp)
  | true =>
    obtain ⟨v, hv, -⟩ := hinv.occupied hi
    simp only [if_true]
    refine Accounts.at_buffer this [.destroy this] (by simp) rfl ?_ (by simp [Event.about])
      false ?_ ?_
    · intro a ha
      simp [World.live_logs, World.live_put_other _ _ _ _ ha]
    · simp [runAt, Event.stepAt, World.live_of_objs ho, hv]
    · simp [World.live_logs, World.live_put_same, failedCtor, lastConstructs,
        Event.constructs]

theorem Emplace_accounts (ops : TypeOps T A E) (w : World T) (this : Addr) (o : Optional T)
    (ho : w.objs this = some o) (hinv : o.Inv this) (args : A) :
    Accounts w (Emplace ops this args w) := by
  rw [Emplace_eval ops w this o ho hinv args]
  cases hc : ops.ctor args with
  | ok v =>
    simp only
    refine Accounts.at_buffer this _ (by simp) rfl ?_ ?_ true ?_ ?_
    · intro a ha
      simp [World.live_logs, World.live_put_other _ _ _ _ ha]
    · cases hi : o.is_initialized_ <;> simp [Event.about]
    · cases hi : o.is_initialized_ with
      | false => simp [runAt, Event.stepAt, World.live_of_objs ho, hinv.vacant hi]
      | true =>
        obtain ⟨x, hx, -⟩ := hinv.occupied hi
        simp [runAt, Event.stepAt, World.live_of_objs ho, hx]
    · simp [World.live_logs, World.live_put_same, failedCtor, Outcome.threw]
  | error e =>
    simp only
    cases hi : o.is_initialized_ with
    | false =>
      simp only [Bool.false_eq_true, if_false]
      refine Accounts.at_buffer this [.construct this] (by simp) rfl ?_ (by simp [Event.about])
        true ?_ ?_
      · intro a ha
        simp [World.live_logs]
      · simp [runAt, Event.stepAt, World.live_of_objs ho, hinv.vacant hi]
      · simp [World.live_logs, World.live_of_objs ho, hinv.vacant hi, failedCtor,
          lastConstructs, Event.constructs, Outcome.threw]
    | true =>
      obtain ⟨x, hx, -⟩ := hinv.occupied hi
      simp only [if_true]
      refine Accounts.at_buffer this [.destroy this, .construct this] (by simp) rfl ?_
        (by simp [Event.about]) true ?_ ?_
      · intro a ha
        simp [World.live_logs, World.live_put_other _ _ _ _ ha]
      · simp [runAt, Event.stepAt, World.live_of_objs ho, hx]
      · simp [World.live_logs, World.live_put_same, failedCtor, lastConstructs,
          Event.constructs, Outcome.threw]

theorem operator_assign_const_T_accounts (ops : TypeOps T A E) (w : World T) (this : Addr)
    (o : Optional T) (ho : w.objs this = some o) (hinv : o.Inv this) (value : T) :
    Accounts w (operator_assign_const_T ops this value w) := by
  cases hi : o.is_initialized_ with
  | false =>
    rw [operator_assign_const_T_vacant ops w this o ho value hi]
    cases hc : ops.copyCtor value with
    | ok v =>
      refine Accounts.at_buffer this [.copyConstruct this] (by simp) rfl ?_
        (by simp [Event.about]) true ?_ ?_
      · intro a ha
        simp [World.live_logs, World.live_put_other _ _ _ _ ha]
      · simp [runAt, Event.stepAt, World.live_of_objs ho, hinv.vacant hi]
      · simp [World.live_logs, World.live_put_same, failedCtor, Outcome.threw]
    | error e =>
      refine Accounts.at_buffer this [.copyConstruct this] (by simp) rfl ?_
        (by simp [Event.about]) true ?_ ?_
      · intro a ha
        simp [World.live_logs]
      · simp [runAt, Event.stepAt, World.live_of_objs ho, hinv.vacant hi]
      · simp [World.live_logs, World.live_of_objs ho, hinv.vacant hi, failedCtor,
          lastConstructs, Event.constructs, Outcome.threw]
  | true =>
    obtain ⟨dv, hd, -⟩ := hinv.occupied hi
    rw [operator_assign_const_T_occupied ops w this o ho hinv value dv hd]
    refine Accounts.at_buffer this [.copyAssign this] ?_ rfl ?_ (by simp [Event.about])
      true ?_ ?_
    · cases (ops.copyAssign dv value).2 <;> simp
    · intro a ha
      simp [World.live_logs, World.live_put_other _ _ _ _ ha]
    · simp [runAt, Event.stepAt, World.live_of_objs ho, hd]
    · simp [World.live_logs, World.live_put_same, failedCtor, lastConstructs,
        Event.constructs]

theorem operator_assign_rvalue_T_accounts (ops : TypeOps T A E) (w : World T) (this : Addr)
    (o : Optional T) (ho : w.objs this = some o) (hinv : o.Inv this) (rhs : T) :
    Accounts w (operator_assign_rvalue_T ops this rhs w) := by
  cases hi : o.is_initialized_ with
  | false =>
    rw [operator_assign_rvalue_T_vacant ops w this o ho rhs hi]
    cases hc : (ops.moveCtor rhs).1 with
    | ok v =>
      refine Accounts.at_buffer this [.moveConstruct this] (by simp) rfl ?_
        (by simp [Event.about]) true ?_ ?_
      · intro a ha
        simp [World.live_logs, World.live_put_other _ _ _ _ ha]
      · simp [runAt, Event.stepAt, World.live_of_objs ho, hinv.vacant hi]
      · simp [World.live_logs, World.live_put_same, failedCtor, Outcome.threw]
    | error e =>
      refine Accounts.at_buffer this [.moveConstruct this] (by simp) rfl ?_
        (by simp [Event.about]) true ?_ ?_
      · intro a ha
        simp [World.live_logs]
      · simp [runAt, Event.stepAt, World.live_of_objs ho, hinv.vacant hi]
      · simp [World.live_logs, World.live_of_objs ho, hinv.vacant hi, failedCtor,
          lastConstructs, Event.constructs, Outcome.threw]
  | true =>
    obtain ⟨dv, hd, -⟩ := hinv.occupied hi
    rw [operator_assign_rvalue_T_occupied ops w this o ho hinv rhs dv hd]
    refine Accounts.at_buffer this [.moveAssign this] ?_ rfl ?_ (by simp [Event.about])
      true ?_ ?_
    · cases (ops.moveAssign dv rhs).2 <;> simp
    · intro a ha
      simp [World.live_logs, World.live_put_other _ _ _ _ ha]
    · simp [runAt, Event.stepAt, World.live_of_objs ho, hd]
    · simp [World.live_logs, World.live_put_same, failedCtor, lastConstructs,
        Event.constructs]

theorem Optional_default_accounts (w : World T) (this : Addr) (hn : w.objs this = none) :
    Accounts w (Optional_default this w : World T × Outcome E Unit) := by
  have h : (Optional_default this w : World T × Outcome E Unit)
      = (w.put this (some Optional.fresh), .ret ()) := by
    simp [Optional_default, Op.newObject, Op.pure_apply]
  rw [h]
  refine Accounts.same (by simp) rfl fun a => ?_
  by_cases ha : a = this
  · subst ha
    simp [World.live_put_same, World.live_of_none hn, Optional.fresh]
  · simp [World.live_put_other _ _ _ _ ha]

theorem Optional_const_T_accounts (ops : TypeOps T A E) (w : World T) (this : Addr)
    (hn : w.objs this = none) (value : T) :
    Accounts w (Optional_const_T ops this value w) := by
  rw [Optional_const_T_eval]
  cases hc : ops.copyCtor value with
  | ok v =>
    refine Accounts.at_buffer this [.copyConstruct this] (by simp) rfl ?_
      (by simp [Event.about]) true ?_ ?_
    · intro a ha
      simp [World.live_logs, World.live_put_other _ _ _ _ ha]
    · simp [runAt, Event.stepAt, World.live_of_none hn]
    · simp [World.live_logs, World.live_put_same, failedCtor, Outcome.threw]
  | error e =>
    refine Accounts.at_buffer this [.copyConstruct this] (by simp) rfl ?_
      (by simp [Event.about]) true ?_ ?_
    · intro a ha
      simp [World.live_logs, World.live_put_other _ _ _ _ ha]
    · simp [runAt, Event.stepAt, World.live_of_none hn]
    · simp [World.live_logs, World.live_put_none, failedCtor, lastConstructs,
        Event.constructs, Outcome.threw]

theorem Optional_rvalue_T_accounts (ops : TypeOps T A E) (w : World T) (this : Addr)
    (hn : w.objs this = none) (value : T) :
    Accounts w (Optional_rvalue_T ops this value w) := by
  rw [Optional_rvalue_T_eval]
  cases hc : (ops.moveCtor value).1 with
  | ok v =>
    refine Accounts.at_buffer this [.moveConstruct this] (by simp) rfl ?_
      (by simp [Event.about]) true ?_ ?_
    · intro a ha
      simp [World.live_logs, World.live_put_other _ _ _ _ ha]
    · simp [runAt, Event.stepAt, World.live_of_none hn]
    · simp [World.live_logs, World.live_put_same, failedCtor, Outcome.threw]
  | error e =>
    refine Accounts.at_buffer this [.moveConstruct this] (by simp) rfl ?_
      (by simp [Event.about]) true ?_ ?_
    · intro a ha
      simp [World.live_logs, World.live_put_other _ _ _ _ ha]
    · simp [runAt, Event.stepAt, World.live_of_none hn]
    · simp [World.live_logs, World.live_put_none, failedCtor, lastConstructs,
        Event.constructs, Outcome.threw]

theorem Optional_destructor_accounts (w : World T) (this : Addr)
    (o : Optional T) (ho : w.objs this = some o) (hinv : o.Inv this) :
    Accounts w (Optional_destructor this w : World T × Outcome E Unit) := by
  rw [Optional_destructor_eval w this o ho hinv]
  cases hi : o.is_initialized_ with
  | false =>
    refine Accounts.same (by simp) (by simp [World.logs_trace, World.put_trace]) fun a => ?_
    by_cases ha : a = this
    · subst ha
      simp [World.live_logs, World.live_put_none, World.live_of_objs ho, hinv.vacant hi]
    · simp [World.live_logs, World.live_put_other _ _ _ _ ha]
  | true =>
    obtain ⟨v, hv, -⟩ := hinv.occupied hi
    simp only [if_true]
    refine Accounts.at_buffer this [.destroy this] (by simp) rfl ?_ (by simp [Event.about])
      false ?_ ?_
    · intro a ha
      simp [World.live_logs, World.live_put_other _ _ _ _ ha]
    · simp [runAt, Event.stepAt, World.live_of_objs ho, hv]
    · simp [World.live_logs, World.live_put_none, failedCtor, lastConstructs,
        Event.constructs]

theorem Value_accounts (w : World T) (this : Addr) (o : Optional T)
    (ho : w.objs this = some o) (hinv : o.Inv this) :
    Accounts w (Value this w : World T × Outcome E Addr) := by
  rw [Value_eval w this o ho hinv]
  exact Accounts.same (by cases o.is_initialized_ <;> simp) rfl (fun _ => rfl)

theorem HasValue_accounts (w : World T) (this : Addr) (o : Optional T)
    (ho : w.objs this = some o) :
    Accounts w (HasValue this w : World T × Outcome E Bool) := by
  rw [HasValue_eval w this o ho]
  exact Accounts.same (by simp) rfl (fun _ => rfl)

theorem operator_arrow_accounts (w : World T) (this : Addr) (o : Optional T)
    (ho : w.objs this = some o) :
    Accounts w (operator_arrow this w : World T × Outcome E (Option Addr)) := by
  have h : (operator_arrow this w : World T × Outcome E (Option Addr))
      = (w, .ret o.value_) := by
    simp [operator_arrow, Op.bind_apply, Op.bind, Op.self, ho, Op.pure_apply]
  rw [h]
  exact Accounts.same (by simp) rfl (fun _ => rfl)

theorem operator_star_accounts (w : World T) (this : Addr) (o : Optional T)
    (ho : w.objs this = some o) (hinv : o.Inv this) (hi : o.is_initialized_ = true) :
    Accounts w (operator_star this w : World T × Outcome E Addr) := by
  obtain ⟨v, hv, hp⟩ := hinv.occupied hi
  have h : (operator_star this w : World T × Outcome E Addr) = (w, .ret this) := by
    simp [operator_star, Op.bind_apply, Op.bind, Op.self, ho, hp, Op.deref, World.get, hv,
      Op.pure_apply]
  rw [h]
  exact Accounts.same (by simp) rfl (fun _ => rfl)

theorem operator_assign_const_Optional_accounts (ops : TypeOps T A E) (w : World T)
    (this rhs : Addr) (o r : Optional T)
    (ho : w.objs this = some o) (hr : w.objs rhs = some r)
    (hoi : o.Inv this) (hri : r.Inv rhs) :
    Accounts w (operator_assign_const_Optional ops this rhs w) := by
  by_cases hne : this = rhs
  · subst hne
    have h : operator_assign_const_Optional ops this this w = (w, .ret ()) := by
      simp [operator_assign_const_Optional, Op.pure_apply]
    rw [h]
    exact Accounts.same (by simp) rfl (fun _ => rfl)
  rw [operator_assign_const_Optional_eval ops w this rhs o r hne ho hr hoi hri]
  cases hrd : r.data_ with
  | none =>
    cases hod : o.data_ with
    | none => exact Accounts.same (by simp) rfl (fun _ => rfl)
    | some dv =>
      refine Accounts.at_buffer this [.destroy this] (by simp) rfl ?_ (by simp [Event.about])
        false ?_ ?_
      · intro a ha
        simp [World.live_logs, World.live_put_other _ _ _ _ ha]
      · simp [runAt, Event.stepAt, World.live_of_objs ho, hod]
      · simp [World.live_logs, World.live_put_same, failedCtor, lastConstructs,
          Event.constructs]
  | some sv =>
    cases hod : o.data_ with
    | none =>
      cases hc : ops.copyCtor sv with
      | ok v =>
        simp only [hc]
        refine Accounts.at_buffer this [.copyConstruct this] (by simp) rfl ?_
          (by simp [Event.about]) true ?_ ?_
        · intro a ha
          simp [World.live_logs, World.live_put_other _ _ _ _ ha]
        · simp [runAt, Event.stepAt, World.live_of_objs ho, hod]
        · simp [World.live_logs, World.live_put_same, failedCtor, Outcome.threw]
      | error e =>
        simp only [hc]
        refine Accounts.at_buffer this [.copyConstruct this] (by simp) rfl ?_
          (by simp [Event.about]) true ?_ ?_
        · intro a ha
          simp [World.live_logs]
        · simp [runAt, Event.stepAt, World.live_of_objs ho, hod]
        · simp [World.live_logs, World.live_of_objs ho, hod, failedCtor, lastConstructs,
            Event.constructs, Outcome.threw]
    | some dv =>
      refine Accounts.at_buffer this [.copyAssign this] ?_ rfl ?_ (by simp [Event.about])
        true ?_ ?_
      · cases hx : (ops.copyAssign dv sv).2 <;> simp [hx]
      · intro a ha
        simp [World.live_logs, World.live_put_other _ _ _ _ ha]
      · simp [runAt, Event.stepAt, World.live_of_objs ho, hod]
      · simp [World.live_logs, World.live_put_same, failedCtor, lastConstructs,
          Event.constructs]

theorem operator_assign_rvalue_Optional_accounts (ops : TypeOps T A E) (w : World T)
    (this rhs : Addr) (o r : Optional T)
    (ho : w.objs this = some o) (hr : w.objs rhs = some r)
    (hoi : o.Inv this) (hri : r.Inv rhs) :
    Accounts w (operator_assign_rvalue_Optional ops this rhs w) := by
  by_cases hne : this = rhs
  · subst hne
    have h : operator_assign_rvalue_Optional ops this this w = (w, .ret ()) := by
      simp [operator_assign_rvalue_Optional, Op.noexcept, Op.pure_apply]
    rw [h]
    exact Accounts.same (by simp) rfl (fun _ => rfl)
  have ho2 : ∀ x : Optional T, (w.put rhs (some x)).objs this = some o := by
    intro x
    rw [World.put_objs_other _ _ _ _ hne, ho]
  rw [operator_assign_rvalue_Optional_eval ops w this rhs o r hne ho hr hoi hri]
  cases hrd : r.data_ with
  | none =>
    cases hod : o.data_ with
    | none => exact Accounts.same (by simp) rfl (fun _ => rfl)
    | some dv =>
      refine Accounts.at_buffer this [.destroy this] (by simp) rfl ?_ (by simp [Event.about])
        false ?_ ?_
      · intro a ha
        simp [World.live_logs, World.live_put_other _ _ _ _ ha]
      · simp [runAt, Event.stepAt, World.live_of_objs ho, hod]
      · simp [World.live_logs, World.live_put_same, failedCtor, lastConstructs,
          Event.constructs]
  | some sv =>
    cases hod : o.data_ with
    | none =>
      cases hc : (ops.moveCtor sv).1 with
      | ok v =>
        simp only [hc]
        refine Accounts.at_buffer this [.moveConstruct this] (by simp) rfl ?_
          (by simp [Event.about]) true ?_ ?_
        · intro a ha
          simp [World.live_logs, World.live_put_other _ _ _ _ ha,
            World.live_put_keep w rhs a _ sv hr hrd]
        · simp [runAt, Event.stepAt, World.live_of_objs ho, hod]
        · simp [World.live_logs, World.live_put_same, failedCtor, Outcome.threw]
      | error e =>
        simp only [hc]
        refine Accounts.at_buffer this [.moveConstruct this] (by simp) rfl ?_
          (by simp [Event.about]) true ?_ ?_
        · intro a ha
          simp [World.live_logs, World.live_put_keep w rhs a _ sv hr hrd]
        · simp [runAt, Event.stepAt, World.live_of_objs ho, hod]
        · simp [World.live_logs, World.live_of_objs (ho2 _), hod, failedCtor,
            lastConstructs, Event.constructs, Outcome.threw]
    | some dv =>
      refine Accounts.at_buffer this [.moveAssign this] ?_ rfl ?_ (by simp [Event.about])
        true ?_ ?_
      · cases hx : (ops.moveAssign dv sv).2 <;> simp [hx]
      · intro a ha
        simp [World.live_logs, World.live_put_other _ _ _ _ ha,
          World.live_put_keep w rhs a _ sv hr hrd]
      · simp [runAt, Event.stepAt, World.live_of_objs ho, hod]
      · simp [World.live_logs, World.live_put_same, failedCtor, lastConstructs,
          Event.constructs]

theorem Optional_const_Optional_accounts (ops : TypeOps T A E) (w : World T)
    (this other : Addr) (r : Optional T) (hn : w.objs this = none)
    (hr : w.objs other = some r) (hri : r.Inv other) :
    Accounts w (Optional_const_Optional ops this other w) := by
  have hne : this ≠ other := by
    intro h
    rw [h, hr] at hn
    cases hn
  rw [Optional_const_Optional_eval ops w this other r hne hr hri]
  cases hrd : r.data_ with
  | none =>
    refine Accounts.same (by simp) rfl fun a => ?_
    by_cases ha : a = this
    · subst ha
      simp [World.live_put_same, World.live_of_none hn, Optional.fresh]
    · simp [World.live_put_other _ _ _ _ ha]
  | some sv =>
    cases hc : ops.copyCtor sv with
    | ok v =>
      simp only [hc]
      refine Accounts.at_buffer this [.copyConstruct this] (by simp) rfl ?_
        (by simp [Event.about]) true ?_ ?_
      · intro a ha
        simp [World.live_logs, World.live_put_other _ _ _ _ ha]
      · simp [runAt, Event.stepAt, World.live_of_none hn]
      · simp [World.live_logs, World.live_put_same, failedCtor, Outcome.threw]
    | error e =>
      simp only [hc]
      refine Accounts.at_buffer this [.copyConstruct this] (by simp) rfl ?_
        (by simp [Event.about]) true ?_ ?_
      · intro a ha
        simp [World.live_logs, World.live_put_other _ _ _ _ ha]
      · simp [runAt, Event.stepAt, World.live_of_none hn]
      · simp [World.live_logs, World.live_put_none, failedCtor, lastConstructs,
          Event.constructs, Outcome.threw]

theorem Optional_rvalue_Optional_accounts (ops : TypeOps T A E) (w : World T)
    (this other : Addr) (r : Optional T) (hn : w.objs this = none)
    (hr : w.objs other = some r) (hri : r.Inv other) :
    Accounts w (Optional_rvalue_Optional ops this other w) := by
  have hne : this ≠ other := by
    intro h
    rw [h, hr] at hn
    cases hn
  rw [Optional_rvalue_Optional_eval ops w this other r hne hr hri]
  cases hrd : r.data_ with
  | none =>
    refine Accounts.same (by simp) rfl fun a => ?_
    by_cases ha : a = this
    · subst ha
      simp [World.live_put_same, World.live_of_none hn, Optional.fresh]
    · simp [World.live_put_other _ _ _ _ ha]
  | some sv =>
    cases hc : (ops.moveCtor sv).1 with
    | ok v =>
      simp only [hc]
      refine Accounts.at_buffer this [.moveConstruct this] (by simp) rfl ?_
        (by simp [Event.about]) true ?_ ?_
      · intro a ha
        simp [World.live_logs, World.live_put_other _ _ _ _ ha,
          World.live_put_keep w other a _ sv hr hrd]
      · simp [runAt, Event.stepAt, World.live_of_none hn]
      · simp [World.live_logs, World.live_put_same, failedCtor, Outcome.threw]
    | error e =>
      simp only [hc]
      refine Accounts.at_buffer this [.moveConstruct this] (by simp) rfl ?_
        (by simp [Event.about]) true ?_ ?_
      · intro a ha
        simp [World.live_logs, World.live_put_other _ _ _ _ ha,
          World.live_put_keep w other a _ sv hr hrd]
      · simp [runAt, Event.stepAt, World.live_of_none hn]
      · simp [World.live_logs, World.live_put_none, failedCtor, lastConstructs,
          Event.constructs, Outcome.threw]

theorem Swap_accounts (ops : TypeOps T A E) (w : World T) (this other : Addr)
    (o r : Optional T) (xv yv : T) (hne : this ≠ other)
    (ho : w.objs this = some o) (hr : w.objs other = some r)
    (hoi : o.Inv this) (hri : r.Inv other)
    (hx : o.data_ = some xv) (hy : r.data_ = some yv) :
    Accounts w (Swap ops this other w) := by
  have hne2 : other ≠ this := fun h => hne h.symm
  have hlt : w.live this = true := by simp [World.live_of_objs ho, hx]
  have hlo : w.live other = true := by simp [World.live_of_objs hr, hy]
  rw [Swap_eval ops w this other o r xv yv hne ho hr hoi hri hx hy]
  cases h1 : (ops.moveCtor xv).1 with
  | error e =>
    refine ⟨by simp, [.tempMoveConstruct], rfl, fun a => ⟨w.live a,
      by simp [runAt, Event.stepAt], ?_⟩⟩
    by_cases ha : a = this
    · subst ha
      simp [World.live_logs, World.live_put_same, hlt, failedCtor, lastConstructs,
        Event.constructs]
    · simp [World.live_logs, World.live_put_other _ _ _ _ ha, failedCtor, lastConstructs,
        Event.constructs]
  | ok tmp =>
    cases h2 : (ops.moveAssign (ops.moveCtor xv).2 yv).2 with
    | some e =>
      refine ⟨by simp, [.tempMoveConstruct, .moveAssign this, .tempDestroy], rfl,
        fun a => ?_⟩
      by_cases ha : a = this
      · subst ha
        exact ⟨true, by simp [runAt, Event.stepAt, hlt], by
          simp [World.live_logs, World.live_put_same, failedCtor, lastConstructs,
            Event.constructs]⟩
      · refine ⟨w.live a, by simp [runAt, Event.stepAt, Ne.symm ha], ?_⟩
        by_cases hb : a = other
        · subst hb
          simp [World.live_logs, World.live_put_other _ _ _ _ ha, World.live_put_same, hlo,
            failedCtor, lastConstructs, Event.constructs]
        · simp [World.live_logs, World.live_put_other _ _ _ _ ha,
            World.live_put_other _ _ _ _ hb, failedCtor, lastConstructs, Event.constructs]
    | none =>
      refine ⟨?_, [.tempMoveConstruct, .moveAssign this, .moveAssign other, .tempDestroy],
        rfl, fun a => ?_⟩
      · cases h3 : (ops.moveAssign (ops.moveAssign (ops.moveCtor xv).2 yv).1.2 tmp).2 <;>
          simp [h3]
      by_cases ha : a = this
      · subst ha
        exact ⟨true, by simp [runAt, Event.stepAt, hlt, hne2], by
          simp [World.live_logs, World.live_put_other _ _ _ _ hne, World.live_put_same,
            failedCtor, lastConstructs, Event.constructs]⟩
      · by_cases hb : a = other
        · subst hb
          exact ⟨true, by simp [runAt, Event.stepAt, hlo, hne], by
            simp [World.live_logs, World.live_put_same, failedCtor, lastConstructs,
              Event.constructs]⟩
        · exact ⟨w.live a, by simp [runAt, Event.stepAt, Ne.symm ha, Ne.symm hb], by
            simp [World.live_logs, World.live_put_other _ _ _ _ ha,
              World.live_put_other _ _ _ _ hb, failedCtor, lastConstructs,
              Event.constructs]⟩

theorem Call.exec_eq_run (ops : TypeOps T A E) (c : Call T A) (w : World T) :
    c.exec ops w = (c.run ops w).1 := by
  cases c <;> rfl

/-- Every in-contract call made in a world whose containers satisfy the class invariant
is accounted for. -/
theorem Call.run_accounts (ops : TypeOps T A E) (c : Call T A) (w : World T)
    (h : w.WF) (hc : c.InContract w) : Accounts w (c.run ops w) := by
  cases c with
  | defaultCtor this => exact (Optional_default_accounts w this hc).void
  | fromValue this v => exact (Optional_const_T_accounts ops w this hc v).void
  | fromRvalue this v => exact (Optional_rvalue_T_accounts ops w this hc v).void
  | copyFrom this other =>
    obtain ⟨r, hr⟩ := Option.isSome_iff_exists.mp hc.2
    exact (Optional_const_Optional_accounts ops w this other r hc.1 hr (h other r hr)).void
  | moveFrom this other =>
    obtain ⟨r, hr⟩ := Option.isSome_iff_exists.mp hc.2
    exact (Optional_rvalue_Optional_accounts ops w this other r hc.1 hr (h other r hr)).void
  | destructor this =>
    obtain ⟨o, ho⟩ := Option.isSome_iff_exists.mp hc
    exact (Optional_destructor_accounts w this o ho (h this o ho)).void
  | assignValue this v =>
    obtain ⟨o, ho⟩ := Option.isSome_iff_exists.mp hc
    exact (operator_assign_const_T_accounts ops w this o ho (h this o ho) v).void
  | assignRvalue this rhs =>
    obtain ⟨o, ho⟩ := Option.isSome_iff_exists.mp hc
    exact (operator_assign_rvalue_T_accounts ops w this o ho (h this o ho) rhs).void
  | assignFrom this rhs =>
    obtain ⟨o, ho⟩ := Option.isSome_iff_exists.mp hc.1
    obtain ⟨r, hr⟩ := Option.isSome_iff_exists.mp hc.2
    exact (operator_assign_const_Optional_accounts ops w this rhs o r ho hr (h this o ho)
      (h rhs r hr)).void
  | moveAssignFrom this rhs =>
    obtain ⟨o, ho⟩ := Option.isSome_iff_exists.mp hc.1
    obtain ⟨r, hr⟩ := Option.isSome_iff_exists.mp hc.2
    exact (operator_assign_rvalue_Optional_accounts ops w this rhs o r ho hr (h this o ho)
      (h rhs r hr)).void
  | arrow this =>
    obtain ⟨o, ho⟩ := Option.isSome_iff_exists.mp hc
    exact (operator_arrow_accounts w this o ho).void
  | arrowConst this =>
    obtain ⟨o, ho⟩ := Option.isSome_iff_exists.mp hc
    exact (operator_arrow_accounts w this o ho).void
  | star this =>
    obtain ⟨o, ho, hi⟩ := World.occupied_iff hc
    exact (operator_star_accounts w this o ho (h this o ho) hi).void
  | starConst this =>
    obtain ⟨o, ho, hi⟩ := World.occupied_iff hc
    exact (operator_star_accounts w this o ho (h this o ho) hi).void
  | starRvalue this =>
    obtain ⟨o, ho, hi⟩ := World.occupied_iff hc
    exact (operator_star_accounts w this o ho (h this o ho) hi).void
  | value this =>
    obtain ⟨o, ho⟩ := Option.isSome_iff_exists.mp hc
    exact (Value_accounts w this o ho (h this o ho)).void
  | valueConst this =>
    obtain ⟨o, ho⟩ := Option.isSome_iff_exists.mp hc
    exact (Value_accounts w this o ho (h this o ho)).void
  | valueRvalue this =>
    obtain ⟨o, ho⟩ := Option.isSome_iff_exists.mp hc
    exact (Value_accounts w this o ho (h this o ho)).void
  | emplace this args =>
    obtain ⟨o, ho⟩ := Option.isSome_iff_exists.mp hc
    exact (Emplace_accounts ops w this o ho (h this o ho) args).void
  | reset this =>
    obtain ⟨o, ho⟩ := Option.isSome_iff_exists.mp hc
    exact (Reset_accounts w this o ho (h this o ho)).void
  | hasValue this =>
    obtain ⟨o, ho⟩ := Option.isSome_iff_exists.mp hc
    exact (HasValue_accounts w this o ho).void
  | swap this other =>
    obtain ⟨hne, h1, h2⟩ := hc
    obtain ⟨o, ho, hi⟩ := World.occupied_iff h1
    obtain ⟨r, hr, hj⟩ := World.occupied_iff h2
    obtain ⟨xv, hx, -⟩ := (h this o ho).occupied hi
    obtain ⟨yv, hy, -⟩ := (h other r hr).occupied hj
    exact (Swap_accounts ops w this other o r xv yv hne ho hr (h this o ho) (h other r hr)
      hx hy).void

theorem Run.reachable {ops : TypeOps T A E} {w : World T} {f : Addr → Nat}
    (h : Run ops w f) : Reachable ops w := by
  induction h with
  | start => exact Reachable.start
  | @step w0 f0 c _ hc ih =>
    rw [← Call.exec_eq_run]
    exact Reachable.step c ih hc

theorem Accounts.drop {w : World T} {res : World T × Outcome E R} (h : Accounts w res) :
    res.1.trace = w.trace ++ res.1.trace.drop w.trace.length ∧
    ∀ a, ∃ l, runAt a (w.live a) (res.1.trace.drop w.trace.length) = some l ∧
      l.toNat = (res.1.live a).toNat
        + failedCtor a (res.1.trace.drop w.trace.length) res.2.threw := by
  obtain ⟨-, es, htr, hrun⟩ := h
  have hdrop : res.1.trace.drop w.trace.length = es := by
    rw [htr]
    simp
  rw [hdrop]
  exact ⟨htr, hrun⟩

/-- Along every sequence of in-contract calls: the constructor calls into a buffer are the
destructor calls on it, the constructor calls into it that threw, and one more when the
buffer holds a live `T`. -/
theorem Run.balanced {ops : TypeOps T A E} {w : World T} {f : Addr → Nat}
    (h : Run ops w f) (a : Addr) :
    ctorCalls a w.trace = dtorCalls a w.trace + f a + (w.live a).toNat := by
  induction h with
  | start => simp [World.empty, ctorCalls, dtorCalls, World.live, World.get]
  | @step w0 f0 c hr hc ih =>
    obtain ⟨htr, hrun⟩ := (Call.run_accounts ops c w0 hr.reachable.wf hc).drop
    obtain ⟨l, hl, hfin⟩ := hrun a
    have hb := runAt_balance a _ _ _ hl
    rw [htr]
    simp only [Call.thrownCtors, ctorCalls, dtorCalls, List.countP_append] at ih hb hfin ⊢
    omega

end Accounting

section Claims2

variable {T A E : Type}

/-! ## A constructor of `T` that throws -/

/-- C13, as stated, fails: `Optional(T&& value)` is declared `noexcept`, so when the move
constructor of `T` throws "zero" the exception does not propagate, the program is
terminated; the same holds for the move assignment from an occupied container into an
empty one. -/
theorem noexcept_move_does_not_propagate :
    (fragileOps.moveCtor 0).1 = .error "zero" ∧
    (Optional_rvalue_T fragileOps 0 0 World.empty).2 = .terminate ∧
    (Optional_rvalue_T fragileOps 0 0 World.empty).2 ≠ .raise (.thrown "zero") ∧
    (operator_assign_rvalue_Optional fragileOps 1 0
      (operator_assign_const_T fragileOps 0 0 natWorld).1).2 = .terminate := by
  refine ⟨rfl, rfl, ?_, rfl⟩
  intro h
  cases h

/-- C13, amended: a container `this` that satisfies the class invariant, a source container
`src` that holds `sv`, and a constructor of `T` that throws `e`.  In the member functions
that are not `noexcept` (assignment of a value in its copy and move form, copy assignment
of an occupied container, both into an empty container; copy construction from a value
and from an occupied container at a new address `n`; `Emplace`) the call throws exactly
`e` and afterwards the container does not report a value: `HasValue()` returns false, or
the container under construction does not exist.  A failed `Emplace` on an occupied
container leaves it empty after calling the destructor of the old value exactly once, and
before the constructor.  In the three `noexcept` functions (move assignment of a
container, move construction from a value and from a container) the exception does not
propagate: the program is terminated, and the destination still reports no value. -/
theorem failed_construction_leaves_empty (ops : TypeOps T A E) (w : World T)
    (this src n : Addr) (o s : Optional T) (v sv : T) (args : A) (e : E)
    (ho : w.objs this = some o) (hinv : o.Inv this)
    (hs : w.objs src = some s) (hsi : s.Inv src) (hsv : s.data_ = some sv)
    (hne : this ≠ src) (hn : n ≠ src) :
    (o.is_initialized_ = false → ops.copyCtor v = .error e →
      (operator_assign_const_T ops this v w).2 = .raise (.thrown e) ∧
      (HasValue this (operator_assign_const_T ops this v w).1 :
        World T × Outcome E Bool).2 = .ret false) ∧
    (o.is_initialized_ = false → (ops.moveCtor v).1 = .error e →
      (operator_assign_rvalue_T ops this v w).2 = .raise (.thrown e) ∧
      (HasValue this (operator_assign_rvalue_T ops this v w).1 :
        World T × Outcome E Bool).2 = .ret false) ∧
    (o.is_initialized_ = false → ops.copyCtor sv = .error e →
      (operator_assign_const_Optional ops this src w).2 = .raise (.thrown e) ∧
      (HasValue this (operator_assign_const_Optional ops this src w).1 :
        World T × Outcome E Bool).2 = .ret false) ∧
    (ops.copyCtor v = .error e →
      (Optional_const_T ops n v w).2 = .raise (.thrown e) ∧
      (Optional_const_T ops n v w).1.objs n = none) ∧
    (ops.copyCtor sv = .error e →
      (Optional_const_Optional ops n src w).2 = .raise (.thrown e) ∧
      (Optional_const_Optional ops n src w).1.objs n = none) ∧
    (ops.ctor args = .error e →
      (Emplace ops this args w).2 = .raise (.thrown e) ∧
      (HasValue this (Emplace ops this args w).1 : World T × Outcome E Bool).2
        = .ret false ∧
      (Emplace ops this args w).1.get this = none ∧
      (Emplace ops this args w).1.trace = w.trace ++
        (if o.is_initialized_ then [.destroy this, .construct this]
          else [.construct this])) ∧
    (o.is_initialized_ = false → (ops.moveCtor sv).1 = .error e →
      (operator_assign_rvalue_Optional ops this src w).2 = .terminate ∧
      (HasValue this (operator_assign_rvalue_Optional ops this src w).1 :
        World T × Outcome E Bool).2 = .ret false) ∧
    ((ops.moveCtor v).1 = .error e →
      (Optional_rvalue_T ops n v w).2 = .terminate ∧
      (Optional_rvalue_T ops n v w).1.objs n = none) ∧
    ((ops.moveCtor sv).1 = .error e →
      (Optional_rvalue_Optional ops n src w).2 = .terminate ∧
      (Optional_rvalue_Optional ops n src w).1.objs n = none) := by
  have hne2 : src ≠ this := fun h => hne h.symm
  have hobj : ∀ es, (w.logs es).objs this = some o := fun es => ho
  refine ⟨?_, ?_, ?_, ?_, ?_, ?_, ?_, ?_, ?_⟩
  · intro hi hc
    rw [operator_assign_const_T_vacant ops w this o ho v hi]
    simp [hc, HasValue_eval _ this o (hobj _), hi]
  · intro hi hc
    rw [operator_assign_rvalue_T_vacant ops w this o ho v hi]
    simp [hc, HasValue_eval _ this o (hobj _), hi]
  · intro hi hc
    rw [operator_assign_const_Optional_eval ops w this src o s hne ho hs hinv hsi]
    simp [hsv, hinv.vacant hi, hc, HasValue_eval _ this o (hobj _), hi]
  · intro hc
    rw [Optional_const_T_eval]
    simp [hc, World.logs_objs, World.put_objs_same]
  · intro hc
    rw [Optional_const_Optional_eval ops w n src s hn hs hsi]
    simp [hsv, hc, World.logs_objs, World.put_objs_same]
  · intro hc
    rw [Emplace_eval ops w this o ho hinv args]
    cases hi : o.is_initialized_ with
    | false =>
      simp [hc, hi, HasValue_eval _ this o (hobj _), World.get, World.logs_objs, ho,
        hinv.vacant hi, World.logs_trace]
    | true =>
      simp [hc, hi, HasValue_put_logs, World.get_logs, World.get_put_same, World.logs_trace,
        World.put_trace]
  · intro hi hc
    rw [operator_assign_rvalue_Optional_eval ops w this src o s hne ho hs hinv hsi]
    have hobj2 : ∀ (x : Optional T) es, ((w.put src (some x)).logs es).objs this = some o := by
      intro x es
      simp [World.logs_objs, World.put_objs_other _ _ _ _ hne, ho]
    simp [hsv, hinv.vacant hi, hc, HasValue_eval _ this o (hobj2 _ _), hi]
  · intro hc
    rw [Optional_rvalue_T_eval]
    simp [hc, World.logs_objs, World.put_objs_same]
  · intro hc
    rw [Optional_rvalue_Optional_eval ops w n src s hn hs hsi]
    simp [hsv, hc, World.logs_objs, World.put_objs_same]

/-- C13, amended, at a concrete input: in `fragileWorld` the container at 0 holds 0, which
the constructors of `fragileOps` refuse, the container at 1 is empty and the container at
2 holds 3. -/
theorem failed_construction_leaves_empty_witness :
    fragileWorld.objs 1 = some Optional.fresh ∧
    fragileWorld.objs 0 = some (Optional.holding 0 0) ∧
    fragileWorld.objs 2 = some (Optional.holding 2 3) ∧
    fragileOps.copyCtor 0 = .error "zero" ∧ fragileOps.ctor 0 = .error "zero" ∧
    (operator_assign_const_T fragileOps 1 0 fragileWorld).2 = .raise (.thrown "zero") ∧
    (operator_assign_const_Optional fragileOps 1 0 fragileWorld).2
      = .raise (.thrown "zero") ∧
    (HasValue 1 (operator_assign_const_Optional fragileOps 1 0 fragileWorld).1 :
      World Nat × Outcome String Bool).2 = .ret false ∧
    (Optional_const_Optional fragileOps 3 0 fragileWorld).2 = .raise (.thrown "zero") ∧
    (operator_assign_rvalue_Optional fragileOps 1 0 fragileWorld).2 = .terminate ∧
    (Emplace fragileOps 2 0 fragileWorld).2 = .raise (.thrown "zero") ∧
    (HasValue 2 (Emplace fragileOps 2 0 fragileWorld).1 :
      World Nat × Outcome String Bool).2 = .ret false ∧
    (Emplace fragileOps 2 0 fragileWorld).1.trace =
      fragileWorld.trace ++ [.destroy 2, .construct 2] :=
  have h1 := failed_construction_leaves_empty fragileOps fragileWorld 1 0 3 Optional.fresh
    (Optional.holding 0 0) 0 0 0 "zero" rfl (by decide) rfl (by decide) rfl (by decide)
    (by decide)
  have h2 := failed_construction_leaves_empty fragileOps fragileWorld 2 0 3
    (Optional.holding 2 3) (Optional.holding 0 0) 0 0 0 "zero" rfl (by decide) rfl
    (by decide) rfl (by decide) (by decide)
  ⟨rfl, rfl, rfl, rfl, rfl, (h1.1 rfl rfl).1, (h1.2.2.1 rfl rfl).1, (h1.2.2.1 rfl rfl).2,
    (h1.2.2.2.2.1 rfl).1, (h1.2.2.2.2.2.2.1 rfl rfl).1, (h2.2.2.2.2.2.1 rfl).1,
    (h2.2.2.2.2.2.1 rfl).2.1, (h2.2.2.2.2.2.1 rfl).2.2.2⟩

/-! ## Swap -/

/-- C15: in every world that a finite sequence of in-contract calls produces (the five
constructors at a new address, the destructor, the four assignments including
self-assignment, `Emplace`, `Reset`, `Value`, `HasValue`, the unchecked accessors on an
occupied container, `Swap` between two distinct occupied containers; each call however it
ends), every container `o` at every address `a` has `is_initialized_` set exactly when
its buffer holds a live `T`, and then `value_` points at its own buffer. -/
theorem occupancy_invariant (ops : TypeOps T A E) (w : World T) (h : Reachable ops w)
    (a : Addr) (o : Optional T) (ho : w.objs a = some o) :
    (o.is_initialized_ = true ↔ o.data_.isSome = true) ∧
    (o.is_initialized_ = true → o.value_ = some a) ∧
    w.live a = w.occupied a := by
  have hwf := h.wf
  obtain ⟨h1, h2⟩ := hwf a o ho
  exact ⟨h1, h2, hwf.live_eq_occupied a⟩

/-- C15 at a concrete input: `natWorld2` is produced by three calls. -/
theorem occupancy_invariant_witness :
    Reachable natOps natWorld2 ∧ natWorld2.objs 1 = some (Optional.holding 1 9) ∧
    (((Optional.holding 1 9 : Optional Nat).is_initialized_ = true ↔
        (Optional.holding 1 9 : Optional Nat).data_.isSome = true) ∧
      ((Optional.holding 1 9 : Optional Nat).is_initialized_ = true →
        (Optional.holding 1 9 : Optional Nat).value_ = some 1) ∧
      natWorld2.live 1 = natWorld2.occupied 1) :=
  ⟨natWorld2_reachable, rfl,
    occupancy_invariant natOps natWorld2 natWorld2_reachable 1 (Optional.holding 1 9) rfl⟩

/-- C16 at its failing input: `a` at address 0 holds 7 and `b` at address 1 is
default-constructed, so `b.value_` is the null pointer.  `a.Swap(b)` evaluates
`*other.value_` on that null pointer: the call has undefined behaviour, it does not
return with the values and the occupancy exchanged. -/
theorem Swap_with_empty_side_undefined :
    natWorld.objs 0 = some (Optional.holding 0 7) ∧
    natWorld.objs 1 = some ⟨none, none, false⟩ ∧
    (operator_arrow 1 natWorld : World Nat × Outcome String (Option Addr)).2 = .ret none ∧
    (Swap natOps 0 1 natWorld).2 = .undefined ∧
    (Swap natOps 0 1 natWorld).2 ≠ .ret () := by
  refine ⟨rfl, rfl, rfl, rfl, ?_⟩
  intro h
  cases h

/-- C17: in every world `w` that a finite sequence of in-contract calls produces, every
further in-contract call `c` is free of undefined behaviour: it never dereferences a null
`value_` and never applies an operation of `T` to a buffer without a live `T`.  It only
appends to the trace, and the calls to `T` it appends are allowed one after the other by
the liveness of the buffer they are applied to, starting from the liveness in `w`: an
assignment or the destructor of `T` is applied to a buffer that holds a live `T`, a
constructor of `T` is applied to a buffer that holds none.  When no constructor of `T`
throws, the whole trace of `w` replays in this way from buffers without a live `T` to the
liveness in `w`, so that each period in which a buffer is live begins with one
construction. -/
theorem calls_respect_liveness (ops : TypeOps T A E) (w : World T) (c : Call T A)
    (h : Reachable ops w) (hc : c.InContract w) :
    (c.run ops w).2 ≠ .undefined ∧
    c.exec ops w = (c.run ops w).1 ∧
    (c.exec ops w).trace = w.trace ++ (c.exec ops w).trace.drop w.trace.length ∧
    (∀ a, (runAt a (w.live a) ((c.exec ops w).trace.drop w.trace.length)).isSome = true) ∧
    (ops.CtorsComplete → ∀ a, runAt a false w.trace = some (w.live a)) := by
  have hacc := Call.run_accounts ops c w h.wf hc
  obtain ⟨htr, hrun⟩ := hacc.drop
  rw [Call.exec_eq_run]
  refine ⟨hacc.1, rfl, htr, fun a => ?_, fun hC a => h.replays hC a⟩
  obtain ⟨l, hl, -⟩ := hrun a
  simp [hl]

/-- C17 at a concrete input: `Emplace(5)` on the container of `natWorld2` that holds 7
throws nothing undefined and appends the destructor call, then the constructor call. -/
theorem calls_respect_liveness_witness :
    Reachable natOps natWorld2 ∧ (Call.emplace 0 5 : Call Nat Nat).InContract natWorld2 ∧
    (Call.run natOps (.emplace 0 5) natWorld2).2 = .ret () ∧
    (Call.run natOps (.emplace 0 5) natWorld2).2 ≠ .undefined ∧
    (Call.exec natOps (.emplace 0 5) natWorld2).trace
      = natWorld2.trace ++ [.destroy 0, .construct 0] ∧
    (runAt 0 (natWorld2.live 0) [.destroy 0, .construct 0]).isSome = true :=
  have h := calls_respect_liveness natOps natWorld2 (.emplace 0 5) natWorld2_reachable rfl
  ⟨natWorld2_reachable, rfl, rfl, h.1, h.2.2.1, h.2.2.2.1 0⟩

/-! ## Construction takes the in-place path -/

/-- C18: construction of a new container at address `n`, in any world.  From a value, by
copy or by move, the only call made to `T` is one constructor call into the new buffer,
and when that constructor completes the construction returns normally with an occupied
container.  From another container `src` that satisfies the class invariant, by copy or
by move, the calls made to `T` are exactly one constructor call into the new buffer when
`src` is occupied and none when `src` is empty.  No assignment and no destructor of `T`
is ever called: the branches guarded by `is_initialized_` are not taken. -/
theorem construction_is_in_place (ops : TypeOps T A E) (w : World T) (n src : Addr)
    (s : Optional T) (v : T) (hn : n ≠ src) (hs : w.objs src = some s) (hsi : s.Inv src) :
    ((Optional_const_T ops n v w).1.trace = w.trace ++ [.copyConstruct n] ∧
      ((Optional_const_T ops n v w).2 = .ret () →
        (HasValue n (Optional_const_T ops n v w).1 : World T × Outcome E Bool).2
          = .ret true) ∧
      ((ops.copyCtor v).isOk = true → (Optional_const_T ops n v w).2 = .ret ())) ∧
    ((Optional_rvalue_T ops n v w).1.trace = w.trace ++ [.moveConstruct n] ∧
      ((Optional_rvalue_T ops n v w).2 = .ret () →
        (HasValue n (Optional_rvalue_T ops n v w).1 : World T × Outcome E Bool).2
          = .ret true) ∧
      ((ops.moveCtor v).1.isOk = true → (Optional_rvalue_T ops n v w).2 = .ret ())) ∧
    ((Optional_const_Optional ops n src w).1.trace = w.trace ++
        (if s.is_initialized_ then [.copyConstruct n] else []) ∧
      ((Optional_const_Optional ops n src w).2 = .ret () →
        (HasValue n (Optional_const_Optional ops n src w).1 : World T × Outcome E Bool).2
          = .ret s.is_initialized_)) ∧
    ((Optional_rvalue_Optional ops n src w).1.trace = w.trace ++
        (if s.is_initialized_ then [.moveConstruct n] else []) ∧
      ((Optional_rvalue_Optional ops n src w).2 = .ret () →
        (HasValue n (Optional_rvalue_Optional ops n src w).1 : World T × Outcome E Bool).2
          = .ret s.is_initialized_)) := by
  refine ⟨?_, ?_, ?_, ?_⟩
  · rw [Optional_const_T_eval]
    cases hc : ops.copyCtor v <;>
      simp [World.logs_trace, World.put_trace, HasValue_put_logs, Except.isOk, Except.toBool]
  · rw [Optional_rvalue_T_eval]
    cases hc : (ops.moveCtor v).1 <;>
      simp [World.logs_trace, World.put_trace, HasValue_put_logs, Except.isOk, Except.toBool]
  · rw [Optional_const_Optional_eval ops w n src s hn hs hsi]
    cases hd : s.data_ with
    | none =>
      simp [hsi.flag_false hd, World.put_trace, HasValue_put, Optional.fresh_is_initialized]
    | some sv =>
      cases hc : ops.copyCtor sv <;>
        simp [hc, hsi.flag_true hd, World.logs_trace, World.put_trace, HasValue_put_logs]
  · rw [Optional_rvalue_Optional_eval ops w n src s hn hs hsi]
    cases hd : s.data_ with
    | none =>
      simp [hsi.flag_false hd, World.put_trace, HasValue_put, Optional.fresh_is_initialized]
    | some sv =>
      cases hc : (ops.moveCtor sv).1 <;>
        simp [hc, hsi.flag_true hd, World.logs_trace, World.put_trace, HasValue_put_logs]

/-- C18 at a concrete input: containers constructed at address 2 from the value 5 and from
the two containers of `natWorld` (the one at 0 holds 7, the one at 1 is empty). -/
theorem construction_is_in_place_witness :
    (2 : Addr) ≠ 0 ∧ natWorld.objs 0 = some (Optional.holding 0 7) ∧
    (Optional.holding 0 7).Inv 0 ∧
    (Optional_const_T natOps 2 5 natWorld).1.trace = natWorld.trace ++ [.copyConstruct 2] ∧
    (Optional_const_Optional natOps 2 0 natWorld).1.trace
      = natWorld.trace ++ [.copyConstruct 2] ∧
    (Optional_rvalue_Optional natOps 2 1 natWorld).1.trace = natWorld.trace ++ [] :=
  have h := construction_is_in_place natOps natWorld 2 0 (Optional.holding 0 7) 5
    (by decide) rfl (by decide)
  have h2 := construction_is_in_place natOps natWorld 2 1 Optional.fresh 5
    (by decide) rfl (by decide)
  ⟨by decide, rfl, by decide, h.1.1, h.2.2.1.1, h2.2.2.2.1⟩

/-- C19: along every finite sequence of in-contract calls (constructors at a new address,
the destructor, value and container assignment, `Emplace`, `Reset`, `Value`, `HasValue`,
the unchecked accessors on an occupied container, `Swap` between two distinct occupied
containers; each call however it ends) and for every address `a`.  Count the constructor
calls of `T` into the buffer at `a` that returned: all constructor calls into it, less
the `f a` of them that threw and so constructed no `T`.  That number is the number of
destructor calls on the buffer, plus one exactly when a container at `a` reports
`HasValue() == true`; in particular, when no constructor call into the buffer threw, the
constructor calls are the destructor calls plus that one.  The two numbers are equal
where no container exists, and they are equal once the container at `a` is destroyed: its
destructor returns normally, so nothing is destroyed twice.  No in-contract call made in
such a world has undefined behaviour. -/
theorem constructions_match_destructions (ops : TypeOps T A E) (w : World T)
    (f : Addr → Nat) (h : Run ops w f) (a : Addr) :
    ctorCalls a w.trace - f a = dtorCalls a w.trace + (if w.occupied a then 1 else 0) ∧
    f a ≤ ctorCalls a w.trace ∧
    ((HasValue a w : World T × Outcome E Bool).2 = .ret true ↔ w.occupied a = true) ∧
    (f a = 0 →
      ctorCalls a w.trace = dtorCalls a w.trace + (if w.occupied a then 1 else 0)) ∧
    (w.objs a = none → ctorCalls a w.trace - f a = dtorCalls a w.trace) ∧
    ((w.objs a).isSome = true →
      (Call.run ops (.destructor a) w).2 = .ret () ∧
      (Call.run ops (.destructor a) w).1.objs a = none ∧
      ctorCalls a (Call.run ops (.destructor a) w).1.trace - f a
        = dtorCalls a (Call.run ops (.destructor a) w).1.trace) ∧
    (∀ c : Call T A, c.InContract w → (c.run ops w).2 ≠ .undefined) := by
  have hwf := h.reachable.wf
  have hb := h.balanced a
  rw [hwf.live_eq_occupied a] at hb
  have hocc : (w.occupied a).toNat = (if w.occupied a then 1 else 0) := by
    cases w.occupied a <;> rfl
  rw [hocc] at hb
  refine ⟨by omega, by omega, ?_, fun h0 => by omega, ?_, ?_, ?_⟩
  · cases ho : w.objs a with
    | none => simp [HasValue, Op.bind_apply, Op.bind, Op.self, ho, World.occupied]
    | some o => simp [HasValue_eval w a o ho, World.occupied, ho]
  · intro hn
    have : w.occupied a = false := by simp [World.occupied, hn]
    simp only [this] at hb
    simp only [Bool.false_eq_true, if_false] at hb
    omega
  · intro hs
    obtain ⟨o, ho⟩ := Option.isSome_iff_exists.mp hs
    have hrun : Call.run ops (.destructor a) w =
        ((w.put a none).logs (if o.is_initialized_ then [.destroy a] else []), .ret ()) := by
      simp only [Call.run, Op.void]
      rw [Optional_destructor_eval w a o ho (hwf a o ho)]
      rfl
    have h2 : Run ops (Call.run ops (.destructor a) w).1
        (fun b => f b + (Call.destructor a : Call T A).thrownCtors ops w b) :=
      Run.step _ h hs
    have hb2 := h2.balanced a
    have hzero : (Call.destructor a : Call T A).thrownCtors ops w a = 0 := by
      simp [Call.thrownCtors, hrun, failedCtor, Outcome.threw]
    have hgone : (Call.run ops (.destructor a) w).1.live a = false := by
      rw [hrun]
      simp [World.live_logs, World.live_put_none]
    rw [hgone] at hb2
    simp only [hzero] at hb2
    refine ⟨by rw [hrun], ?_, ?_⟩
    · rw [hrun]
      simp [World.logs_objs, World.put_objs_same]
    · simp only [Bool.toNat_false] at hb2
      omega
  · intro c hc
    exact (Call.run_accounts ops c w hwf hc).1

/-- C19 at two concrete inputs.  Over `fragileOps`: a container is default-constructed and
`Emplace(0)` throws; the one constructor call into the buffer threw, no `T` lives there
and no destructor call was made, before and after the container is destroyed.  Over
`intOps`: a container is default-constructed and 42 is emplaced; one constructor call,
which returned, and the one destructor call comes when the container is destroyed. -/
theorem constructions_match_destructions_witness :
    fragileOps.ctor 0 = .error "zero" ∧
    ctorCalls 0 (Call.run fragileOps (.emplace 0 0)
      (Call.run fragileOps (.defaultCtor 0) World.empty).1).1.trace = 1 ∧
    ctorCalls 0 (Call.run fragileOps (.emplace 0 0)
        (Call.run fragileOps (.defaultCtor 0) World.empty).1).1.trace - 1
      = dtorCalls 0 (Call.run fragileOps (.emplace 0 0)
        (Call.run fragileOps (.defaultCtor 0) World.empty).1).1.trace + 0 ∧
    ctorCalls 0 (Call.run fragileOps (.destructor 0) (Call.run fragileOps (.emplace 0 0)
        (Call.run fragileOps (.defaultCtor 0) World.empty).1).1).1.trace - 1
      = dtorCalls 0 (Call.run fragileOps (.destructor 0) (Call.run fragileOps (.emplace 0 0)
        (Call.run fragileOps (.defaultCtor 0) World.empty).1).1).1.trace ∧
    ctorCalls 0 (Call.run intOps (.emplace 0 42)
        (Call.run intOps (.defaultCtor 0) World.empty).1).1.trace
      = dtorCalls 0 (Call.run intOps (.emplace 0 42)
        (Call.run intOps (.defaultCtor 0) World.empty).1).1.trace + 1 ∧
    (Call.run intOps (.destructor 0) (Call.run intOps (.emplace 0 42)
        (Call.run intOps (.defaultCtor 0) World.empty).1).1).2 = .ret () ∧
    ctorCalls 0 (Call.run intOps (.destructor 0) (Call.run intOps (.emplace 0 42)
        (Call.run intOps (.defaultCtor 0) World.empty).1).1).1.trace - 0
      = dtorCalls 0 (Call.run intOps (.destructor 0) (Call.run intOps (.emplace 0 42)
        (Call.run intOps (.defaultCtor 0) World.empty).1).1).1.trace :=
  have hf := constructions_match_destructions fragileOps _ _
    (Run.step (.emplace 0 0) (Run.step (.defaultCtor 0) Run.start rfl) rfl) 0
  have hi := constructions_match_destructions intOps _ _
    (Run.step (.emplace 0 42) (Run.step (.defaultCtor 0) Run.start rfl) rfl) 0
  ⟨rfl, rfl, hf.1, (hf.2.2.2.2.2.1 rfl).2.2, hi.2.2.2.1 rfl, (hi.2.2.2.2.2.1 rfl).1,
    (hi.2.2.2.2.2.1 rfl).2.2⟩

end Claims2

end CustomOptional
